import Mathlib

/-!
# A shallow embedding of the Homer story-flow runtime

This file embeds the runtime core of the Homer story-flow player
(`HomerParser` and its helper classes) into Lean and proves properties of
the embedded functions.

Conventions of the embedding:

* JavaScript values that flow through the variable stores are modelled by
  `JsVal` (strings, integers, booleans, `null`, `undefined`).
* Mutation is modelled by explicit state passing: every function that
  mutates the runtime receives an `RState` and returns the updated one.
* A JavaScript exception (`TypeError` on a `null` dereference, an uncaught
  `eval` throw, an out-of-bounds indexing followed by a member access) is
  modelled by `Option`: `none` means the original code throws.
* `Math.random()` draws are modelled by an explicit stream of naturals
  (`Rng`); `Math.floor(Math.random() * n)` consumes the head of the stream
  and reduces it modulo `n`.
* The embedded expression evaluator is abstract: the source evaluates
  author expressions with the host `eval` after substituting `$x` / `%x`
  by `Homer._globalVars.x` / `Homer._localVars.x`.  The embedding performs
  the same textual substitution and then hands the substituted string and
  the two stores to an arbitrary deterministic `Evaluator`; `none` models
  an `eval` throw (and carries no partial effects).
* An element's localized text is modelled as a list of `Part`s: the
  segmentation into literal text and the bracketed blocks that the source
  recovers with regular expressions (`[[..]]`, `[IF..]`, `[TODO..]`,
  `[-]`, `[+]`, `{..}`).  The blocks carry their raw source text and are
  (re-)parsed at each use exactly where the source parses them.  Blocks
  are assumed not to overlap and not to be produced dynamically by the
  substitutions, which holds for well-formed authored text.
* Element and node identifiers are assumed unique in a project, so the
  in-place mutation of a shared element object is modelled by updating
  the element with that id inside the project.
-/

namespace Homer

/-- A JavaScript runtime value as far as the variable stores need it. -/
inductive JsVal where
  | str (s : String)
  | num (n : Int)
  | bool (b : Bool)
  | null
  | undef
deriving DecidableEq

/-- JavaScript truthiness of a `JsVal` (`NaN` and floats are not modelled). -/
def JsVal.truthy : JsVal → Bool
  | .str s => s ≠ ""
  | .num n => n ≠ 0
  | .bool b => b
  | .null => false
  | .undef => false

/-- JavaScript string coercion of a `JsVal`, as used by `String.replace`. -/
def JsVal.toStr : JsVal → String
  | .str s => s
  | .num n => toString n
  | .bool b => if b then "true" else "false"
  | .null => "null"
  | .undef => "undefined"

/-- A flat name-to-value map (`_globalVars` / `_localVars`).  Reading an
absent key yields `undefined`, as a JS member access does. -/
abbrev Store := List (String × JsVal)

/-- Property read: `obj[k]`, `undefined` when absent. -/
def Store.read (s : Store) (k : String) : JsVal :=
  match s with
  | [] => .undef
  | p :: rest => if p.1 = k then p.2 else Store.read rest k

/-- Property write: `obj[k] = v` (replaces the first binding or appends). -/
def Store.write (s : Store) (k : String) (v : JsVal) : Store :=
  match s with
  | [] => [(k, v)]
  | p :: rest => if p.1 = k then (k, v) :: rest else p :: Store.write rest k v

/-- The stream of `Math.random()` outcomes. -/
abbrev Rng := List Nat

/-- `Math.floor(Math.random() * n)`: consumes one draw, reduced modulo `n`
(for `n = 0` the JS expression evaluates to `0`). -/
def draw (r : Rng) (n : Nat) : Nat × Rng :=
  match r with
  | [] => (0, [])
  | x :: xs => (if n = 0 then 0 else x % n, xs)

/-- The result of a JS `forEach` search loop that keeps overwriting an
accumulator on every match: the LAST matching entry. -/
def jsFind {α : Type} (l : List α) (p : α → Bool) : Option α :=
  l.foldl (fun acc x => if p x then some x else acc) none

/-- Whether `pat` is a prefix of `s` (on character lists, so that the
kernel can evaluate it). -/
def chStartsWith : List Char → List Char → Bool
  | _, [] => true
  | [], _ :: _ => false
  | c :: cs, p :: ps => c == p && chStartsWith cs ps

/-- Split on a (non-empty) literal separator, leftmost-first. -/
def splitOnListAux (pat : List Char) : Nat → List Char → List Char → List (List Char)
  | 0, acc, s => [acc.reverse ++ s]
  | fuel + 1, acc, s =>
    if pat ≠ [] ∧ chStartsWith s pat then
      acc.reverse :: splitOnListAux pat fuel [] (s.drop pat.length)
    else
      match s with
      | [] => [acc.reverse]
      | c :: cs => splitOnListAux pat fuel (c :: acc) cs

def strSplitOn (s pat : String) : List String :=
  if pat = "" then [s]
  else (splitOnListAux pat.toList (s.length + 1) [] s.toList).map List.asString

def joinWith (sep : String) : List String → String
  | [] => ""
  | [x] => x
  | x :: xs => x ++ sep ++ joinWith sep xs

/-- JS `String.prototype.replaceAll` with a string pattern. -/
def strReplaceAll (s pat rep : String) : String :=
  match strSplitOn s pat with
  | [] => s
  | x :: xs => xs.foldl (fun acc y => acc ++ rep ++ y) x

/-- JS `String.prototype.replace` with a string pattern replaces only the
first occurrence. -/
def replaceFirst (s pat rep : String) : String :=
  match strSplitOn s pat with
  | [] => s
  | [x] => x
  | x :: xs => x ++ rep ++ joinWith pat xs

/-- JS `String.prototype.trim`. -/
def strTrim (s : String) : String :=
  (((s.toList.dropWhile Char.isWhitespace).reverse.dropWhile
    Char.isWhitespace).reverse).asString

def strContainsChar (s : String) (c : Char) : Bool :=
  s.toList.contains c

/-- Whether `pat` occurs in `s` (a `String.match` test on a literal). -/
def containsStr (s pat : String) : Bool :=
  (strSplitOn s pat).length > 1

/-- JS `!x` on a string: true exactly for the empty string. -/
def jsNotStr (s : String) : Bool := s = ""

/-- JS strict equality between a boolean and a string: always false
(different types never compare equal under `===`).  The source writes
`!this._project._mainLocale._code === localeCode` in `getLocalizedContent`,
which parses as `(!code) === localeCode` and is therefore this function. -/
def jsStrictEqBoolStr (_ : Bool) (_ : String) : Bool := false

/-- Characters matched by the regex class `\w`. -/
def isWordChar (c : Char) : Bool := c.isAlphanum || c = '_'

/-- `HomerParser.findGlobalVariables`: all matches of `\$([a-zA-Z]\w+)` in
order (note: the name needs at least TWO characters after the `$`). -/
def scanGlobalsAux : Nat → List Char → List String
  | 0, _ => []
  | _ + 1, [] => []
  | fuel + 1, '$' :: rest =>
    match rest with
    | [] => []
    | c :: rest2 =>
      if c.isAlpha then
        let w := rest2.takeWhile isWordChar
        if w ≠ [] then
          ("$" ++ (c :: w).asString) :: scanGlobalsAux fuel (rest2.drop w.length)
        else scanGlobalsAux fuel (c :: rest2)
      else scanGlobalsAux fuel (c :: rest2)
  | fuel + 1, _ :: rest => scanGlobalsAux fuel rest

def scanGlobals (s : String) : List String :=
  scanGlobalsAux (s.length + 1) s.toList

/-- Characters matched by the class `[a-zA-Z0-9\]\w.?()[a-zA-Z]` in
`findLocalVariables`. -/
def isLocalChar (c : Char) : Bool :=
  c.isAlphanum || c = ']' || c = '_' || c = '.' || c = '?' || c = '(' ||
    c = ')' || c = '['

/-- `HomerParser.findLocalVariables`: all matches of `%` followed by one or
more `isLocalChar` characters (the source's post-filter on a leading `%` is
a no-op since every match starts with `%`). -/
def scanLocalsAux : Nat → List Char → List String
  | 0, _ => []
  | _ + 1, [] => []
  | fuel + 1, '%' :: rest =>
    let w := rest.takeWhile isLocalChar
    if w ≠ [] then ("%" ++ w.asString) :: scanLocalsAux fuel (rest.drop w.length)
    else scanLocalsAux fuel rest
  | fuel + 1, _ :: rest => scanLocalsAux fuel rest

def scanLocals (s : String) : List String :=
  scanLocalsAux (s.length + 1) s.toList

/-- `HomerParser.sanitizeVariables`: drop `<br>`, decode the three HTML
entities the source handles. -/
def sanitizeVariables (s : String) : String :=
  strReplaceAll (strReplaceAll (strReplaceAll (strReplaceAll s "<br>" "")
    "&gt;" ">") "&lt;" "<") "&nbsp;" " "

/-- Split a character list at the first `>`; returns the part before it and
the part after it. -/
def splitAtGt : List Char → Option (List Char × List Char)
  | [] => none
  | '>' :: rest => some ([], rest)
  | c :: rest =>
    match splitAtGt rest with
    | some (a, b) => some (c :: a, b)
    | none => none

/-- `HomerParser.getTextWithoutTags`: remove `<...>` tags whose body does
not start with `br` (regex `<(?!br\s*\/?)[^>]+>`; the body must be
non-empty). -/
def stripTagsAux : Nat → List Char → List Char
  | 0, cs => cs
  | _ + 1, [] => []
  | fuel + 1, c :: cs =>
    if c = '<' then
      match splitAtGt cs with
      | some (inner, rest) =>
        if inner = [] then c :: stripTagsAux fuel cs
        else if (inner.takeWhile (fun x => x ≠ ' ')).asString = "br" ∨
            inner.asString.startsWith "br" then
          c :: stripTagsAux fuel cs
        else stripTagsAux fuel rest
      | none => c :: stripTagsAux fuel cs
    else c :: stripTagsAux fuel cs

def getTextWithoutTags (s : String) : String :=
  (stripTagsAux (s.length + 1) s.toList).asString

/-- `HomerParser.stripHtml` (DOM `textContent`): remove every `<...>` tag
and decode the basic entities.  Modelled approximately; the embedding is
only exercised on tag-free text. -/
def stripTagsAllAux : Nat → List Char → List Char
  | 0, cs => cs
  | _ + 1, [] => []
  | fuel + 1, c :: cs =>
    if c = '<' then
      match splitAtGt cs with
      | some (_, rest) => stripTagsAllAux fuel rest
      | none => c :: stripTagsAllAux fuel cs
    else c :: stripTagsAllAux fuel cs

def stripHtml (s : String) : String :=
  strReplaceAll (strReplaceAll (strReplaceAll
    (stripTagsAllAux (s.length + 1) s.toList).asString
    "&gt;" ">") "&lt;" "<") "&nbsp;" " "

/-- Scan for quoted substrings, the matches of `(["'])(?:(?=(\\?))\2.)*?\1`
(backslash escapes are not modelled): each match includes its quotes. -/
def scanQuotedAux : Nat → List Char → List String
  | 0, _ => []
  | _ + 1, [] => []
  | fuel + 1, c :: rest =>
    if c = '"' ∨ c = '\'' then
      let inner := rest.takeWhile (fun x => x ≠ c)
      if inner.length < rest.length then
        ((c :: inner) ++ [c]).asString ::
          scanQuotedAux fuel (rest.drop (inner.length + 1))
      else []
    else scanQuotedAux fuel rest

/-- `match` returns `null` when nothing matches; modelled as `none`. -/
def scanQuoted (s : String) : Option (List String) :=
  match scanQuotedAux (s.length + 1) s.toList with
  | [] => none
  | l => some l

/-- Parse the inside of a `[[ ... ]]` variation block exactly as both
`InitializeVariations` and `parsedText` do: strip the brackets, trim,
collapse `" | "` to `"|"`, read the type as the first space-separated
token, remove the FIRST occurrence of the type from the string and split
the remainder on `"|"`.  (Removing the type token this way leaves the
separating space on the first option.) -/
def parseVariationBlock (raw : String) : String × List String :=
  let v := strTrim (strReplaceAll (strReplaceAll raw "[[" "") "]]" "")
  let v := strReplaceAll v " | " "|"
  let ty := strTrim ((strSplitOn v " ").headD "")
  let opts := strSplitOn (replaceFirst v ty "") "|"
  (ty, opts)

/-- One segment of an element's authored text: literal text or one of the
bracketed blocks the source extracts with its regexes.  Each block carries
its raw matched text. -/
inductive Part where
  | lit (s : String)
  | variationB (raw : String)
  | condB (raw : String)
  | todoB (raw : String)
  | justOnceB
  | ifNoMoreB
  | bracesB (raw : String)
deriving DecidableEq

/-- The raw text a part contributes to the content string. -/
def Part.rawText : Part → String
  | .lit s => s
  | .variationB raw => raw
  | .condB raw => raw
  | .todoB raw => raw
  | .justOnceB => "[-]"
  | .ifNoMoreB => "[+]"
  | .bracesB raw => raw

/-- The raw content string of a part list (`content._text`). -/
def rawContent (ps : List Part) : String :=
  ps.foldl (fun acc p => acc ++ p.rawText) ""

structure LocalizedContent where
  localeCode : String
  text : List Part
  notTranslated : Bool := false
deriving DecidableEq

structure Element where
  id : String
  nodeId : String
  ty : String
  localizedContents : List LocalizedContent
  visited : Bool := false
  justOnce : Bool := false
  ifNoMore : Bool := false
  wasHiddenBecauseEmpty : Bool := false
deriving DecidableEq

structure Connection where
  toId : String
  ty : String := ""
  nodeElementId : Option String := none
deriving DecidableEq

structure Node where
  id : String
  ty : String
  cycleType : Option String := none
  translatable : Bool := true
  elements : List Element := []
  connections : List Connection := []
  jumpTo : Option (String × String) := none
  previousNodeId : Option String := none
deriving DecidableEq

structure Flow where
  id : String
  name : String
  slug : String := ""
  nodes : List Node
deriving DecidableEq

structure PVar where
  key : String
  value : JsVal
  ty : String
deriving DecidableEq

structure Label where
  key : String
  localizedContents : List LocalizedContent
deriving DecidableEq

structure FlowGroup where
  id : String
  flowIds : List String
deriving DecidableEq

structure Project where
  locale : String
  mainLocale : String
  flowGroups : List FlowGroup := []
  flows : List Flow
  /-- the source's `_variables` (the name clashes with a Lean keyword) -/
  projVars : List PVar := []
  labels : List Label := []
  apiVersion : String := "1.4"
deriving DecidableEq

/-- A persisted variation record (`InitializeVariations` builds one per
`[[..]]` block; the source stores `_index` but never increments the counter
there, so every record carries index `0`; records are looked up
positionally). -/
structure Variation where
  index : Nat
  ty : String
  values : List String
  elementId : String
deriving DecidableEq

/-- The whole mutable state of one `HomerParser` instance (the static
`HomerParser.activeSubFlows` and the ambient global store are carried here
as well, since a single instance is modelled). -/
structure RState where
  project : Project
  locale : String
  selectedFlowId : String
  selectedNodeId : Option String
  globalVars : Store
  localVars : Store
  variations : List Variation
  activeSubFlows : List (String × String)
  isJumping : Bool
deriving DecidableEq

/-- The freshly constructed runtime, before `load`: the ambient
`window.HomerVars` store is the parameter. -/
def initialState (g0 : Store) : RState :=
  { project := { locale := "", mainLocale := "", flows := [] }
    locale := ""
    selectedFlowId := ""
    selectedNodeId := none
    globalVars := g0
    localVars := []
    variations := []
    activeSubFlows := []
    isJumping := false }

/-- `nodeId || this._selectedNodeId` (falsy strings fall through). -/
def jsOrId (a b : Option String) : Option String :=
  match a with
  | some s => if s = "" then b else some s
  | none => b

/-- `HomerParser.getFlow`: look up by id, then by name, then by slug; each
pass keeps the last match. -/
def getFlow (p : Project) (ident : String) : Option Flow :=
  match jsFind p.flows (fun f => f.id = ident) with
  | some f => some f
  | none =>
    match jsFind p.flows (fun f => f.name = ident) with
    | some f => some f
    | none => jsFind p.flows (fun f => f.slug = ident)

/-- `HomerParser.getSelectedFlow`. -/
def getSelectedFlow (st : RState) : Option Flow :=
  jsFind st.project.flows (fun f => f.id = st.selectedFlowId)

/-- `HomerParser.getNode`: outer `none` models the throw on a missing flow
(`flow._nodes` on `null`); the inner `Option` is the function's own `null`
result. -/
def getNode (st : RState) (nodeId? : Option String) (flowId? : Option String) :
    Option (Option Node) :=
  let nid := jsOrId nodeId? st.selectedNodeId
  let flow? :=
    match flowId? with
    | some fid => if fid = "" then getSelectedFlow st else getFlow st.project fid
    | none => getSelectedFlow st
  match flow? with
  | none => none
  | some flow => some (jsFind flow.nodes (fun n => some n.id = nid))

/-- `HomerParser.getNodesByType` (throws when the selected flow is missing). -/
def getNodesByType (st : RState) (ty : String) : Option (List Node) :=
  match getSelectedFlow st with
  | none => none
  | some flow => some (flow.nodes.filter (fun n => n.ty = ty))

/-- `HomerParser.nodeExists`. -/
def nodeExists (st : RState) (nodeId : String) (flowId? : Option String) : Bool :=
  let flow? :=
    match flowId? with
    | some fid => if fid = "" then getSelectedFlow st else getFlow st.project fid
    | none => getSelectedFlow st
  match flow? with
  | none => false
  | some fl => fl.nodes.any (fun n => n.id = nodeId)

/-- `HomerParser.getNodeElement`: fetch the node by id in the selected flow
and filter its elements by the element id (an absent element id matches
nothing). -/
def getNodeElement (st : RState) (nodeId : String) (elementId? : Option String) :
    Option (Option Element) :=
  match getNode st (some nodeId) none with
  | none => none
  | some none => none
  | some (some node) =>
    some ((node.elements.filter (fun el => some el.id = elementId?)).head?)

/-- `HomerParser.getConnectionsByElementId` (last match wins). -/
def getConnectionsByElementId (node : Node) (nodeElementId? : Option String) :
    Option Connection :=
  jsFind node.connections (fun c => c.nodeElementId = nodeElementId?)

/-- `HomerParser.getFailedConnection` (last `FailCondition`-typed edge). -/
def getFailedConnection (node : Node) : Option Connection :=
  jsFind node.connections (fun c => c.ty = "FailCondition")

/-- Update the element with the given id wherever it occurs in the project
(element ids are assumed unique, matching the in-place object mutation of
the source). -/
def Project.updateElement (p : Project) (elemId : String) (f : Element → Element) :
    Project :=
  { p with
    flows := p.flows.map fun fl =>
      { fl with
        nodes := fl.nodes.map fun n =>
          { n with
            elements := n.elements.map fun e =>
              if e.id = elemId then f e else e } } }

def RState.updateElement (st : RState) (elemId : String) (f : Element → Element) :
    RState :=
  { st with project := st.project.updateElement elemId f }

/-- Update the node with the given id (for `_previousNodeId`). -/
def RState.updateNode (st : RState) (nodeId : String) (f : Node → Node) : RState :=
  { st with
    project :=
      { st.project with
        flows := st.project.flows.map fun fl =>
          { fl with nodes := fl.nodes.map fun n => if n.id = nodeId then f n else n } } }

/-- All elements of a project in traversal order. -/
def Project.allElements (p : Project) : List Element :=
  p.flows.flatMap fun fl => fl.nodes.flatMap fun n => n.elements

/-- Find the current value of the element with the given id anywhere in the
project (the live object the source would read). -/
def findElement (st : RState) (elemId : String) : Option Element :=
  jsFind st.project.allElements (fun e => e.id = elemId)

/-- The abstract sandboxed evaluator: receives the substituted expression
string and the two stores, returns the value and the updated stores, or
`none` for a throw. -/
abbrev Evaluator := String → Store → Store → Option (JsVal × Store × Store)

/-- `HomerParser.getLocalizedContent`, generalized over the content list so
that labels reuse it (a label has no `_nodeId`, so the node lookup falls
back to the selected node, exactly as reading the `undefined` field does).

The outer `Option` is a throw inside `getNode` (missing selected flow).
Both fallback guards of the source compare `!mainLocale` (a boolean) with
the locale string under `===`, which is constantly false; the retry-with-
main-locale branches are therefore unreachable and the embedding marks
them with `jsStrictEqBoolStr`. -/
def getLocalizedContentFor (st : RState) (nodeId? : Option String)
    (contents : List LocalizedContent) (localeCode : String) :
    Option (Option LocalizedContent) :=
  match getNode st nodeId? none with
  | none => none
  | some node? =>
    if (match node? with
        | some n => !n.translatable
        | none => false) &&
        jsStrictEqBoolStr (jsNotStr st.project.mainLocale) localeCode then
      -- unreachable: the source would retry with the main locale here
      none
    else
      some (contents.foldl
        (fun acc lc =>
          if lc.localeCode = localeCode then
            if (jsNotStr (rawContent lc.text)) &&
                jsStrictEqBoolStr (jsNotStr st.project.mainLocale) localeCode then
              -- unreachable: the source would retry with the main locale and
              -- set `_notTranslated = true` here
              acc
            else some { lc with notTranslated := false }
          else acc)
        none)

/-- `getLocalizedContent` for an element (uses the element's `_nodeId`). -/
def getLocalizedContent (st : RState) (el : Element) (localeCode : String) :
    Option (Option LocalizedContent) :=
  getLocalizedContentFor st (some el.nodeId) el.localizedContents localeCode

/-- Substitute every found `$x` by `Homer._globalVars.x` and every `%x` by
`Homer._localVars.x`, with first-occurrence `replace` per found match
(`getOriginalText` and the `{..}` pass of `parsedText` substitute this
way). -/
def substVarsFirst (s : String) : String :=
  let s := (scanGlobals s).foldl
    (fun acc v => replaceFirst acc v ("Homer._globalVars." ++ replaceFirst v "$" ""))
    s
  (scanLocals s).foldl
    (fun acc v => replaceFirst acc v ("Homer._localVars." ++ replaceFirst v "%" ""))
    s

/-- `HomerParser.getOriginalText` (throws when the element has no content
for the locale: `content._text` on `null`). -/
def getOriginalText (st : RState) (el : Element) (cleaned resolveVariables : Bool)
    (localeCode : String) : Option String :=
  match getLocalizedContent st el localeCode with
  | none => none
  | some none => none
  | some (some content) =>
    let text := rawContent content.text
    let text := if cleaned then stripHtml text else text
    let text := if resolveVariables then substVarsFirst text else text
    some text

/-- `HomerParser.InitializeVariations`: one record per `[[..]]` block of
every element's current-locale content, in traversal order.  The source
initializes an `idx` counter but never increments it there, so every
record stores index `0`; records are consumed positionally. -/
def initVariations (st : RState) : Option (List Variation) :=
  st.project.flows.foldlM
    (fun acc fl =>
      fl.nodes.foldlM
        (fun acc n =>
          n.elements.foldlM
            (fun acc e =>
              if e.localizedContents ≠ [] then
                match getLocalizedContentFor st (some e.nodeId)
                    e.localizedContents st.locale with
                | none => none
                | some contentObj =>
                  let parts := match contentObj with
                    | some c => c.text
                    | none => []
                  let blocks := parts.filterMap fun p =>
                    match p with
                    | .variationB raw => some raw
                    | _ => none
                  some (acc ++ blocks.map fun raw =>
                    let (ty, opts) := parseVariationBlock raw
                    { index := 0, ty := ty, values := opts, elementId := e.id })
              else some acc)
            acc)
        acc)
    []

/-- Replace the values of the idx-th variation record (positionally among
the records of this element). -/
def updateVariationAt : List Variation → String → Nat → List String → List Variation
  | [], _, _, _ => []
  | v :: rest, eid, idx, nv =>
    if v.elementId = eid then
      match idx with
      | 0 => { v with values := nv } :: rest
      | i + 1 => v :: updateVariationAt rest eid i nv
    else v :: updateVariationAt rest eid idx nv

/-- `v[v.length - 1]`, `undefined` (stringified) when empty. -/
def lastOrUndef (l : List String) : String :=
  match l.getLast? with
  | some s => s
  | none => "undefined"

/-- One `[[..]]` block of `parsedText` (the `switch (persistedVariation._type)`
at lines 281-310): produces the chosen content and the updated state.
Throws when no persisted record exists at this position
(`persistedVariation._type` on `undefined`). -/
def renderVariation (st : RState) (elemId : String) (idx : Nat) (raw : String)
    (rng : Rng) : Option (String × RState × Rng) :=
  let (_, opts) := parseVariationBlock raw
  let elemVars := st.variations.filter (fun v => v.elementId = elemId)
  match elemVars.get? idx with
  | none => none
  | some pv =>
    match pv.ty with
    | "LIST" =>
      -- shift the head; a falsy result (empty list or empty string) falls
      -- back to the last freshly parsed option
      match pv.values with
      | [] =>
        some (lastOrUndef opts,
          { st with variations := updateVariationAt st.variations elemId idx [] },
          rng)
      | v :: rest =>
        some (if v = "" then lastOrUndef opts else v,
          { st with variations := updateVariationAt st.variations elemId idx rest },
          rng)
    | "LOOP" =>
      match pv.values with
      | [] =>
        some ("undefined",
          { st with variations := updateVariationAt st.variations elemId idx opts },
          rng)
      | v :: rest =>
        some (v,
          { st with
            variations := updateVariationAt st.variations elemId idx
              (if rest = [] then opts else rest) },
          rng)
    | "RND" =>
      let (k, rng) := draw rng opts.length
      some ((opts.get? k).getD "undefined", st, rng)
    | "SRND" =>
      let (k, rng) := draw rng pv.values.length
      match pv.values with
      | [] =>
        some ("undefined",
          { st with variations := updateVariationAt st.variations elemId idx opts },
          rng)
      | _ =>
        let c := (pv.values.get? k).getD "undefined"
        let rest := pv.values.eraseIdx k
        some (c,
          { st with
            variations := updateVariationAt st.variations elemId idx
              (if rest = [] then opts else rest) },
          rng)
    | _ =>
      -- no switch case matched: `variationContent` keeps its initial ""
      some ("", st, rng)

/-- Reset the `visited` flag of every element of one node (the
`node._elements.forEach(e => e._visited = false)` loops). -/
def RState.resetNodeVisited (st : RState) (nodeId : String) : RState :=
  { st with
    project :=
      { st.project with
        flows := st.project.flows.map fun fl =>
          { fl with
            nodes := fl.nodes.map fun n =>
              if n.id = nodeId then
                { n with elements := n.elements.map fun e => { e with visited := false } }
              else n } } }

/-- The live element array of a node (re-fetched from the state). -/
def nodeElems (st : RState) (nodeId : String) : List Element :=
  match getNode st (some nodeId) none with
  | some (some n) => n.elements
  | _ => []

/-- Pass 1 of `parsedText`: render the `[[..]]` blocks left to right,
threading the variation registry. -/
def phase1Vars (elemId : String) :
    List Part → Nat → RState → Rng → Option (List Part × RState × Rng)
  | [], _, st, rng => some ([], st, rng)
  | p :: rest, idx, st, rng =>
    match p with
    | .variationB raw =>
      match renderVariation st elemId idx raw rng with
      | none => none
      | some (c, st, rng) =>
        match phase1Vars elemId rest (idx + 1) st rng with
        | none => none
        | some (ps, st, rng) =>
          some (.lit ("<variation>" ++ c ++ "</variation>") :: ps, st, rng)
    | q =>
      match phase1Vars elemId rest idx st rng with
      | none => none
      | some (ps, st, rng) => some (q :: ps, st, rng)

/-- One `[IF cond ? "a" : "b"]` block: evaluate the (substituted,
sanitized) condition; an eval throw leaves the ` --ERROR-- ` marker; a
non-null result indexes into the quoted arms (throwing when no quoted arm
was found, as `possibleResults[0]` on `null` does); double quotes are
stripped from the printed arm. -/
def renderCond (E : Evaluator) (g l : Store) (raw : String) :
    Option (String × Store × Store) :=
  let pieces := strSplitOn raw "?"
  let condition := strTrim (replaceFirst (pieces.headD "") "[IF " "")
  match pieces.get? 1 with
  | none => none
  | some armsrc =>
    let arms? := scanQuoted (replaceFirst armsrc "]" "")
    let str0 := getTextWithoutTags condition
    let str1 := (scanGlobals condition).foldl
      (fun acc v => strReplaceAll acc v ("Homer._globalVars." ++ replaceFirst v "$" ""))
      str0
    let str2 := (scanLocals condition).foldl
      (fun acc v => strReplaceAll acc v ("Homer._localVars." ++ replaceFirst v "%" ""))
      str1
    let str := sanitizeVariables str2
    let (res?, g, l) :=
      match E str g l with
      | some (v, g2, l2) => (some v, g2, l2)
      | none => (none, g, l)
    let printQ : Option (Option String) :=
      match res? with
      | some v =>
        if v ≠ JsVal.null ∧ v ≠ JsVal.undef then
          match arms? with
          | none => none
          | some arms => some (arms.get? (if v.truthy then 0 else 1))
        else some (some " --ERROR-- ")
      | none => some (some " --ERROR-- ")
    match printQ with
    | none => none
    | some print? =>
      let out :=
        match print? with
        | some s => strReplaceAll s "\"" ""
        | none => " --ERROR-- "
      some (out, g, l)

/-- Pass 2 of `parsedText`: the inline conditionals, threading the stores. -/
def phase2Conds (E : Evaluator) :
    List Part → Store → Store → Option (List Part × Store × Store)
  | [], g, l => some ([], g, l)
  | p :: rest, g, l =>
    match p with
    | .condB raw =>
      match renderCond E g l raw with
      | none => none
      | some (s, g, l) =>
        match phase2Conds E rest g l with
        | none => none
        | some (ps, g, l) => some (.lit s :: ps, g, l)
    | q =>
      match phase2Conds E rest g l with
      | none => none
      | some (ps, g, l) => some (q :: ps, g, l)

/-- Passes 4 and 5 of `parsedText`: `[-]` and `[+]` markers set the
element flags and are removed from the output. -/
def phaseMarkers (st : RState) (elemId : String) (ps : List Part) :
    List Part × RState :=
  let st := if ps.any (fun p => p = Part.justOnceB) then
      st.updateElement elemId (fun e => { e with justOnce := true })
    else st
  let st := if ps.any (fun p => p = Part.ifNoMoreB) then
      st.updateElement elemId (fun e => { e with ifNoMore := true })
    else st
  (ps.map fun p =>
    match p with
    | .justOnceB => Part.lit ""
    | .ifNoMoreB => Part.lit ""
    | q => q, st)

/-- One `{expr}` block of the variables pass.  When neither a global nor a
local variable is recognized in it the block stays verbatim; otherwise the
braces are dropped, the variables substituted, and the result evaluated
(unless it is a Choice-element assignment and `force_eval` is off).  A
block that consists of exactly one variable reference prints the evaluated
value; any other block prints nothing (its side effects remain). -/
def renderBraces (E : Evaluator) (elTy : String) (forceEval : Bool)
    (g l : Store) (raw : String) : Option (String × Store × Store) :=
  let variableBlock := stripHtml raw
  let gvars := scanGlobals variableBlock
  let lvars := scanLocals variableBlock
  if gvars = [] ∧ lvars = [] then
    some (raw, g, l)
  else
    let tmp := replaceFirst (replaceFirst variableBlock "\x7b" "") "\x7d" ""
    let tmp := gvars.foldl
      (fun acc v => replaceFirst acc v ("Homer._globalVars." ++ replaceFirst v "$" ""))
      tmp
    let tmp := lvars.foldl
      (fun acc v => replaceFirst acc v ("Homer._localVars." ++ replaceFirst v "%" ""))
      tmp
    let doEval :=
      forceEval ∨ elTy ≠ "Choice" ∨ (elTy = "Choice" ∧ strContainsChar tmp '=' = false)
    let (evaluated, g, l) :=
      if doEval then
        match E tmp g l with
        | some (v, g2, l2) => (v.toStr, g2, l2)
        | none => ("--error--", g, l)
      else ("--error--", g, l)
    let inner := strTrim (replaceFirst (replaceFirst variableBlock "\x7b" "") "\x7d" "")
    let isSingle :=
      (gvars ≠ [] ∧ some inner = gvars.head?) ∨
        (lvars ≠ [] ∧ some inner = lvars.head?)
    if isSingle then some (evaluated, g, l) else some ("", g, l)

/-- Pass 6 of `parsedText` over the `{..}` blocks, threading the stores. -/
def phase5Braces (E : Evaluator) (elTy : String) (forceEval : Bool) :
    List Part → Store → Store → Option (List Part × Store × Store)
  | [], g, l => some ([], g, l)
  | p :: rest, g, l =>
    match p with
    | .bracesB raw =>
      match renderBraces E elTy forceEval g l raw with
      | none => none
      | some (s, g, l) =>
        match phase5Braces E elTy forceEval rest g l with
        | none => none
        | some (ps, g, l) => some (.lit s :: ps, g, l)
    | q =>
      match phase5Braces E elTy forceEval rest g l with
      | none => none
      | some (ps, g, l) => some (q :: ps, g, l)

/-- Strip one leading `\s*<br\s*\/?>` occurrence (the anchored half of the
final regex of `parsedText`). -/
def matchBrTagChars : List Char → Option (List Char)
  | 'b' :: 'r' :: rest =>
    (match rest.dropWhile Char.isWhitespace with
     | '/' :: '>' :: r => some r
     | '>' :: r => some r
     | _ => none)
  | _ => none

def matchBrOpen : List Char → Option (List Char)
  | '<' :: rest => matchBrTagChars rest
  | _ => none

def stripLeadingBrTag (s : String) : String :=
  let cs := s.toList
  let rest := cs.dropWhile Char.isWhitespace
  match matchBrOpen rest with
  | some r => r.asString
  | none => s

/-- Strip one trailing `<br\s*\/?>\s*` occurrence. -/
def matchBrCloseRev : List Char → Option (List Char)
  | '>' :: rest =>
    let rest := match rest with
      | '/' :: r => r
      | r => r
    (match rest.dropWhile Char.isWhitespace with
     | 'r' :: 'b' :: '<' :: r => some r
     | _ => none)
  | _ => none

def stripTrailingBrTag (s : String) : String :=
  let rcs := s.toList.reverse
  let rest := rcs.dropWhile Char.isWhitespace
  match matchBrCloseRev rest with
  | some r => r.reverse.asString
  | none => s

/-- The final cleanup of `parsedText` (lines 459-460): decode `&nbsp;`,
trim, strip a leading and a trailing `<br>` tag, trim again. -/
def finalCleanup (s : String) : String :=
  let s := strTrim (strReplaceAll s "&nbsp;" " ")
  strTrim (stripTrailingBrTag (stripLeadingBrTag s))

/-- The tail of `parsedText` after the marker passes: the `{..}` pass (or
the whole-output fallback for Condition/Variables elements) and the final
cleanup. -/
def parsedTextFinish (E : Evaluator) (elTy : String) (forceEval : Bool)
    (st : RState) (ps : List Part) (rng : Rng) : Option (String × RState × Rng) :=
  let hasBraces := ps.any fun p =>
    match p with
    | .bracesB _ => true
    | _ => false
  if hasBraces then
    match phase5Braces E elTy forceEval ps st.globalVars st.localVars with
    | none => none
    | some (ps, g, l) =>
      some (finalCleanup (rawContent ps),
        { st with globalVars := g, localVars := l }, rng)
  else if elTy = "Condition" ∨ elTy = "Variables" then
    -- no `{..}` block: the whole output is treated as the block
    match renderBraces E elTy forceEval st.globalVars st.localVars
        (rawContent ps) with
    | none => none
    | some (t, g, l) =>
      some (finalCleanup t, { st with globalVars := g, localVars := l }, rng)
  else
    some (finalCleanup (rawContent ps), st, rng)

/-- `HomerParser.parsedText`: the full template pipeline over one element.
Pass 3 (`[TODO..]` removal) is inlined as a pure map. -/
def parsedText (E : Evaluator) (st : RState) (el? : Option Element)
    (forceEval : Bool) (rng : Rng) : Option (String × RState × Rng) :=
  match el? with
  | none => some ("", st, rng)
  | some el =>
    match getLocalizedContent st el st.locale with
    | none => none
    | some none => none
    | some (some content) =>
      match phase1Vars el.id content.text 0 st rng with
      | none => none
      | some (ps, st, rng) =>
        match phase2Conds E ps st.globalVars st.localVars with
        | none => none
        | some (ps, g, l) =>
          let st := { st with globalVars := g, localVars := l }
          let ps := ps.map fun p =>
            match p with
            | .todoB _ => Part.lit ""
            | q => q
          let (ps, st) := phaseMarkers st el.id ps
          parsedTextFinish E el.ty forceEval st ps rng

/-- `HomerParser.getAvailableNodeElement`: pick one element of the node
under its cycle policy and mark it visited. -/
def getAvailableNodeElement (st : RState) (nodeId? : Option String) (rng : Rng) :
    Option (Option Element × RState × Rng) :=
  match getNode st nodeId? none with
  | none => none
  | some none => none
  | some (some node) =>
    let avail := node.elements.filter fun e => e.visited = false
    match node.ty with
    | "Text" =>
      (match node.cycleType with
       | some "List" =>
         (match (if avail ≠ [] then avail.head? else node.elements.getLast?) with
          | none => none
          | some el =>
            some (some { el with visited := true },
              st.updateElement el.id (fun e => { e with visited := true }), rng))
       | some "Smart Random" =>
         let (avail2, st) :=
           if avail = [] then
             let st := st.resetNodeVisited node.id
             (nodeElems st node.id, st)
           else (avail, st)
         let (k, rng) := if avail2.length > 1 then draw rng avail2.length else (0, rng)
         (match avail2.get? k with
          | none => none
          | some el =>
            some (some { el with visited := true },
              st.updateElement el.id (fun e => { e with visited := true }), rng))
       | some "Random" =>
         let (k, rng) :=
           if node.elements.length > 1 then draw rng node.elements.length else (0, rng)
         (match node.elements.get? k with
          | none => none
          | some el =>
            some (some { el with visited := true },
              st.updateElement el.id (fun e => { e with visited := true }), rng))
       | some "Loop" =>
         let (avail2, st) :=
           if avail = [] then
             let st := st.resetNodeVisited node.id
             (nodeElems st node.id, st)
           else (avail, st)
         (match avail2.head? with
          | none => none
          | some el =>
            some (some { el with visited := true },
              st.updateElement el.id (fun e => { e with visited := true }), rng))
       | _ => some (none, st, rng))
    | _ => some (none, st, rng)

/-- One `\ ?<br( \/)?>\ ?` group at the front (the repeated group of the
regex in `getParsedText`). -/
def stripOneBrGroupFrontCh (s : List Char) : Option (List Char) :=
  let t := match s with
    | ' ' :: r => r
    | r => r
  let t? :=
    if chStartsWith t "<br>".toList then some (t.drop 4)
    else if chStartsWith t "<br />".toList then some (t.drop 6)
    else none
  t?.map fun u =>
    match u with
    | ' ' :: r => r
    | r => r

def stripOneBrGroupFront (s : String) : Option String :=
  (stripOneBrGroupFrontCh s.toList).map List.asString

def stripBrFrontAux : Nat → String → String
  | 0, s => s
  | fuel + 1, s =>
    match stripOneBrGroupFront s with
    | some u => stripBrFrontAux fuel u
    | none => s

def stripOneBrGroupBackCh (s : List Char) : Option (List Char) :=
  let t := match s with
    | ' ' :: r => r
    | r => r
  let t? :=
    if chStartsWith t ">rb<".toList then some (t.drop 4)
    else if chStartsWith t ">/ rb<".toList then some (t.drop 6)
    else none
  t?.map fun u =>
    match u with
    | ' ' :: r => r
    | r => r

def stripOneBrGroupBack (s : String) : Option String :=
  (stripOneBrGroupBackCh s.toList.reverse).map fun r => r.reverse.asString

def stripBrBackAux : Nat → String → String
  | 0, s => s
  | fuel + 1, s =>
    match stripOneBrGroupBack s with
    | some u => stripBrBackAux fuel u
    | none => s

/-- The regex `/^(\ ?<br( \/)?>\ ?)+|(\ ?<br( \/)?>\ ?)+$/g` of
`getParsedText`. -/
def stripBrEnds (s : String) : String :=
  stripBrBackAux (s.length + 1) (stripBrFrontAux (s.length + 1) s)

/-- `HomerParser.getParsedText`: render the given element (or the node's
available element) and strip the outer `<br>` groups. -/
def getParsedText (E : Evaluator) (st : RState) (el? : Option Element)
    (forceEval : Bool) (rng : Rng) : Option (String × RState × Rng) :=
  match el? with
  | some el =>
    (match parsedText E st (some el) forceEval rng with
     | none => none
     | some (txt, st, rng) => some (stripBrEnds txt, st, rng))
  | none =>
    match getAvailableNodeElement st none rng with
    | none => none
    | some (el?, st, rng) =>
      match parsedText E st el? forceEval rng with
      | none => none
      | some (txt, st, rng) => some (stripBrEnds txt, st, rng)

/-- One element of the `getAvailableChoices` filter pass: marker check,
empty-render self-hide / un-hide, `[+]` handling.  Returns the element when
it is kept (not visited at the end of its pass). -/
def choiceElemStep (E : Evaluator) (st : RState) (elemId : String) (rng : Rng) :
    Option (Option Element × RState × Rng) :=
  match findElement st elemId with
  | none => none
  | some e =>
    match getOriginalText st e false false st.locale with
    | none => none
    | some content =>
      let hasMarker := containsStr content "[+]"
      let next :=
        if e.ty = "Text" ∨ e.ty = "Choice" then
          match parsedText E st (some e) false rng with
          | none => none
          | some (text, st, rng) =>
            let e := (findElement st elemId).getD e
            let isEmpty := text = "" ∧ e.visited = false
            let st :=
              if isEmpty then
                st.updateElement elemId fun x =>
                  { x with visited := true, wasHiddenBecauseEmpty := true }
              else if e.wasHiddenBecauseEmpty ∧ text ≠ "" then
                st.updateElement elemId fun x =>
                  { x with visited := false, wasHiddenBecauseEmpty := false }
              else st
            some (st, rng)
        else some (st, rng)
      match next with
      | none => none
      | some (st, rng) =>
        let st :=
          if hasMarker then
            st.updateElement elemId fun x => { x with ifNoMore := true, visited := true }
          else st
        let e2 := (findElement st elemId).getD e
        some (if e2.visited then none else some e2, st, rng)

def getAvailableChoicesAux (E : Evaluator) :
    List String → List Element → RState → Rng → Option (List Element × RState × Rng)
  | [], kept, st, rng => some (kept, st, rng)
  | eid :: rest, kept, st, rng =>
    match choiceElemStep E st eid rng with
    | none => none
    | some (keep?, st, rng) =>
      getAvailableChoicesAux E rest
        (match keep? with
         | some e => kept ++ [e]
         | none => kept) st rng

/-- `HomerParser.getAvailableChoices`. -/
def getAvailableChoices (E : Evaluator) (st : RState) (nodeId? : Option String)
    (rng : Rng) : Option (List Element × RState × Rng) :=
  match getNode st nodeId? none with
  | none => none
  | some none => none
  | some (some node) =>
    match getAvailableChoicesAux E (node.elements.map fun e => e.id) [] st rng with
    | none => none
    | some (kept, st, rng) =>
      if kept = [] then
        some ((nodeElems st node.id).filter (fun e => e.ifNoMore), st, rng)
      else some (kept, st, rng)

/-- The value of the `availableConnection` variable of
`getAvailableConnections`: `null`/`undefined`, a connection, or the array
the `SubFlow` case leaves unindexed when no `SubFlow`-typed edge exists. -/
inductive ConnRes where
  | nullC
  | emptyArrC
  | connC (c : Connection)
deriving DecidableEq

/-- The Condition case: every element's condition is evaluated in source
order (an eval throw here is uncaught); the connection accumulator is only
filled while it is still empty. -/
def condElemsFold (E : Evaluator) (st : RState) (node : Node) :
    List Element → Option Connection → Store → Store →
    Option (Option Connection × Store × Store)
  | [], acc, g, l => some (acc, g, l)
  | e :: rest, acc, g, l =>
    match getOriginalText st e true true st.locale with
    | none => none
    | some condition =>
      match E condition g l with
      | none => none
      | some (v, g, l) =>
        let acc :=
          if v.truthy ∧ acc = none then getConnectionsByElementId node e.id else acc
        condElemsFold E st node rest acc g l

/-- The Variables case: render every element for its side effects. -/
def varsElemsFold (E : Evaluator) :
    List String → RState → Rng → Option (RState × Rng)
  | [], st, rng => some (st, rng)
  | eid :: rest, st, rng =>
    match findElement st eid with
    | none => none
    | some e =>
      match parsedText E st (some e) false rng with
      | none => none
      | some (_, st, rng) => varsElemsFold E rest st rng

/-- `HomerParser.getAvailableConnections`: the per-node-type edge choice. -/
def getAvailableConnections (E : Evaluator) (elementId? : Option String)
    (st : RState) (rng : Rng) : Option (ConnRes × RState × Rng) :=
  match getNode st none none with
  | none => none
  | some none => none
  | some (some node) =>
    let avail := node.elements.filter fun e => e.visited = false
    match node.ty with
    | "Start" | "Text" | "Note" | "Layout" =>
      (match node.connections.head? with
       | some c => some (.connC c, st, rng)
       | none => some (.nullC, st, rng))
    | "SubFlow" =>
      if node.connections ≠ [] then
        if st.activeSubFlows.filter (fun sf => sf.2 = node.id) = [] then
          match (node.connections.filter fun c => c.ty = "SubFlow").head? with
          | some c =>
            some (.connC c,
              { st with
                activeSubFlows := (st.selectedFlowId, node.id) :: st.activeSubFlows },
              rng)
          | none => some (.emptyArrC, st, rng)
        else
          let st := { st with activeSubFlows := st.activeSubFlows.tail }
          match (node.connections.filter fun c => c.ty ≠ "SubFlow").head? with
          | some c => some (.connC c, st, rng)
          | none => some (.nullC, st, rng)
      else some (.nullC, st, rng)
    | "Choice" =>
      -- `if (availableElements)`: an array is always truthy
      (match getConnectionsByElementId node elementId? with
       | some c => some (.connC c, st, rng)
       | none => some (.nullC, st, rng))
    | "Condition" =>
      (match condElemsFold E st node node.elements none st.globalVars st.localVars with
       | none => none
       | some (acc, g, l) =>
         let st := { st with globalVars := g, localVars := l }
         match acc with
         | some c => some (.connC c, st, rng)
         | none =>
           match getFailedConnection node with
           | some c => some (.connC c, st, rng)
           | none => some (.nullC, st, rng))
    | "Variables" =>
      (match varsElemsFold E (node.elements.map fun e => e.id) st rng with
       | none => none
       | some (st, rng) =>
         match node.connections.head? with
         | some c => some (.connC c, st, rng)
         | none => some (.nullC, st, rng))
    | "Random" =>
      let (k, rng) := draw rng node.connections.length
      (match node.connections.get? k with
       | some c => some (.connC c, st, rng)
       | none => some (.nullC, st, rng))
    | "Sequence" =>
      (match node.cycleType with
       | some "List" =>
         (match avail.head? with
          | some el =>
            let st := st.updateElement el.id fun e => { e with visited := true }
            (match getConnectionsByElementId node el.id with
             | some c => some (.connC c, st, rng)
             | none => some (.nullC, st, rng))
          | none =>
            match getFailedConnection node with
            | some c => some (.connC c, st, rng)
            | none =>
              match node.elements.getLast? with
              | none => none
              | some lastEl =>
                match getConnectionsByElementId node lastEl.id with
                | some c => some (.connC c, st, rng)
                | none => some (.nullC, st, rng))
       | some "Loop" =>
         (match (node.elements.filter fun e => e.visited = false).head? with
          | some el =>
            let st := st.updateElement el.id fun e => { e with visited := true }
            (match getConnectionsByElementId node el.id with
             | some c => some (.connC c, st, rng)
             | none => some (.nullC, st, rng))
          | none =>
            -- the forEach resets every element, repeatedly overwriting the
            -- connection with that of the first element; empty elements
            -- leave the connection null
            let st := st.resetNodeVisited node.id
            match node.elements.head? with
            | none => some (.nullC, st, rng)
            | some first =>
              match getConnectionsByElementId node first.id with
              | some c => some (.connC c, st, rng)
              | none => some (.nullC, st, rng))
       | some "Random" =>
         let (k, rng) := draw rng node.elements.length
         (match node.elements.get? k with
          | none => none
          | some el =>
            match getConnectionsByElementId node el.id with
            | some c => some (.connC c, st, rng)
            | none => some (.nullC, st, rng))
       | some "Smart Random" =>
         if avail = [] then
           match getFailedConnection node with
           | some c => some (.connC c, st, rng)
           | none =>
             let st := st.resetNodeVisited node.id
             let avail2 := (nodeElems st node.id).filter fun e => e.visited = false
             let (k, rng) :=
               if avail2.length > 1 then draw rng avail2.length else (0, rng)
             match avail2.get? k with
             | none => none
             | some el =>
               match getConnectionsByElementId node el.id with
               | some c => some (.connC c, st, rng)
               | none => some (.nullC, st, rng)
         else
           let (k, rng) := if avail.length > 1 then draw rng avail.length else (0, rng)
           (match avail.get? k with
            | none => none
            | some el =>
              match getConnectionsByElementId node el.id with
              | some c => some (.connC c, st, rng)
              | none => some (.nullC, st, rng))
       | _ => some (.nullC, st, rng))
    | "JumpToNode" =>
      (match node.jumpTo with
       | none => none
       | some (jf, jn) =>
         some (.nullC, { st with selectedFlowId := jf, selectedNodeId := some jn }, rng))
    | _ => some (.nullC, st, rng)

/-- The default flow name of `start`: first flow id of the first flow
group, resolved to its name. -/
def startDefaultName (st : RState) : Option String :=
  match st.project.flowGroups.head? with
  | none => none
  | some g =>
    match g.flowIds.head? with
    | none => none
    | some fid =>
      match getFlow st.project fid with
      | none => none
      | some f => some f.name

/-- `HomerParser.start`. -/
def start (st : RState) (nodeId? : Option String) (flowName? : Option String) :
    Option RState :=
  let fn? :=
    match flowName? with
    | some fn => if fn = "" then startDefaultName st else some fn
    | none => startDefaultName st
  match fn? with
  | none => none
  | some fn =>
    match getFlow st.project fn with
    | none => none
    | some flow =>
      let st := { st with selectedFlowId := flow.id }
      match getNodesByType st "Start" with
      | none => none
      | some starts =>
        match nodeId? with
        | none =>
          match starts.head? with
          | none => none
          | some s => some { st with selectedNodeId := some s.id }
        | some nid => some { st with selectedNodeId := some nid }

/-- `HomerParser.getLabel` (throws when the label lacks content for the
locale). -/
def getLabel (st : RState) (key : String) (locale : String) :
    Option (Option String) :=
  match jsFind st.project.labels (fun lb => lb.key = key) with
  | none => some none
  | some label =>
    match getLocalizedContentFor st none label.localizedContents locale with
    | none => none
    | some none => none
    | some (some c) => some (some (rawContent c.text))

/-- The global-variable seeding of `load`: a project variable is written
only when its key currently holds a falsy value; `bool`-typed values are
then passed through `eval`. -/
def seedGlobals (E : Evaluator) (vars : List PVar) (g l : Store) :
    Option (Store × Store) :=
  vars.foldlM
    (fun gl v =>
      let g := gl.1
      let l := gl.2
      let g :=
        if v.ty ≠ "separator" ∧ (Store.read g v.key).truthy = false then
          Store.write g v.key v.value
        else g
      if v.ty = "bool" then
        match Store.read g v.key with
        | .str s =>
          match E s g l with
          | none => none
          | some (res, g2, l2) => some (Store.write g2 v.key res, l2)
        | other => some (Store.write g v.key other, l)
      else some (g, l))
    (g, l)

/-- `element._visited = false` over the whole project. -/
def resetVisited (p : Project) : Project :=
  { p with
    flows := p.flows.map fun fl =>
      { fl with
        nodes := fl.nodes.map fun n =>
          { n with elements := n.elements.map fun e => { e with visited := false } } } }

/-- `HomerParser.load`: clone the project, seed the globals, reset the
visited flags, build the variation registry when empty, start the flow,
clear the sub-flow stack.  (Note: `load` touches neither `_localVars` nor
`_isJumping`.) -/
def load (E : Evaluator) (st : RState) (p : Project) (flowName? : Option String) :
    Option RState :=
  let st := { st with project := p }
  let flow? :=
    match flowName? with
    | some fn => if fn = "" then p.flows.head? else getFlow p fn
    | none => p.flows.head?
  match flow? with
  | none => none
  | some flow =>
    let st := { st with selectedFlowId := flow.id, locale := p.locale }
    match seedGlobals E p.projVars st.globalVars st.localVars with
    | none => none
    | some (g, l) =>
      let st := { st with globalVars := g, localVars := l }
      let st := { st with project := resetVisited st.project }
      match (if st.variations = [] then initVariations st else some st.variations) with
      | none => none
      | some vars =>
        let st := { st with variations := vars }
        match start st none (some flow.name) with
        | none => none
        | some st => some { st with activeSubFlows := [] }

/-- The return value of `nextNode`: `null` (already at THE END), `false`
(the walk ended), or a node (an emitted node, or the current node on a bad
jump). -/
inductive NextOutcome where
  | nullRes
  | falseRes
  | nodeRes (n : Node)
deriving DecidableEq

/-- One pass of the `nextNode` body: either a final result or a state to
recurse from (`return this.nextNode()`). -/
inductive StepRes where
  | doneR (o : NextOutcome) (st : RState) (rng : Rng)
  | againR (st : RState) (rng : Rng)
deriving DecidableEq

/-- The node types `nextNode` walks through without emitting. -/
def internalNodeType (ty : String) : Bool :=
  ["Start", "Note", "Sequence", "Random", "Variables", "Layout", "SubFlow",
    "JumpToNode", "Condition"].contains ty

/-- `(!connection || !connection._to)` of `nextNode` (an empty array is
truthy but its `._to` is `undefined`). -/
def connFalsy : ConnRes → Bool
  | .nullC => true
  | .emptyArrC => true
  | .connC c => c.toId = ""

/-- The tail of the `nextNode` body: clear `_isJumping`, walk through
internal node types, emit the rest. -/
def finishStep (st : RState) (rng : Rng) (currentNode targetNode : Node) : StepRes :=
  let st := { st with isJumping := false }
  if internalNodeType targetNode.ty then .againR st rng
  else .doneR (.nodeRes { targetNode with previousNodeId := some currentNode.id }) st rng

/-- The last block of the `nextNode` body: fetch the target node under the
(possibly advanced) cursor, stamp `_previousNodeId`, and pre-fetch a Choice
target's choices (walking to its fail connection when they are exhausted). -/
def nextNodeAdvance (E : Evaluator) (currentNode : Node) (st : RState)
    (rng : Rng) : Option StepRes :=
  match getNode st st.selectedNodeId none with
  | none => none
  | some none => none
  | some (some targetNode) =>
    let st := st.updateNode targetNode.id fun n =>
      { n with previousNodeId := some currentNode.id }
    if targetNode.ty = "Choice" then
      match getAvailableChoices E st (some targetNode.id) rng with
      | none => none
      | some (choices, st, rng) =>
        if choices = [] then
          match getFailedConnection targetNode with
          | some c =>
            let st := { st with selectedNodeId := some c.toId }
            (match getNode st st.selectedNodeId none with
             | none => none
             | some none => none
             | some (some tn) =>
               let st := st.updateNode tn.id fun n =>
                 { n with previousNodeId := some currentNode.id }
               some (.againR st rng))
          | none => some (finishStep st rng currentNode targetNode)
        else some (finishStep st rng currentNode targetNode)
    else some (finishStep st rng currentNode targetNode)

/-- The tail of the `nextNode` body, after the bookkeeping block: dead-end
handling (sub-flow resume or THE END), cursor advance along the connection,
and the Choice-target pre-fetch. -/
def nextNodeTail (E : Evaluator) (currentNode : Node) (conn : ConnRes)
    (st : RState) (rng : Rng) : Option StepRes :=
  if connFalsy conn ∧ currentNode.ty ≠ "JumpToNode" then
    match st.activeSubFlows with
    | sf :: _ =>
      let next? :=
        if sf.1 ≠ st.selectedFlowId then start st (some sf.2) (some sf.1)
        else some st
      (match next? with
       | none => none
       | some st => some (.againR { st with selectedNodeId := some sf.2 } rng))
    | [] =>
      some (.doneR .falseRes { st with selectedNodeId := some "THE END" } rng)
  else
    let st :=
      if st.isJumping = false then
        match conn with
        | .connC c => { st with selectedNodeId := some c.toId }
        | _ => st
      else st
    nextNodeAdvance E currentNode st rng

/-- One body pass of `HomerParser.nextNode` (the recursive `return
this.nextNode()` sites become `.againR`). -/
def nextNodeStep (E : Evaluator) (elementId? : Option String) (st : RState)
    (rng : Rng) : Option StepRes :=
  if st.selectedNodeId = some "THE END" then some (.doneR .nullRes st rng)
  else
    let st? : Option RState :=
      if st.selectedNodeId = none then
        match getNodesByType st "Start" with
        | none => none
        | some starts =>
          match starts.head? with
          | none => none
          | some s => some { st with selectedNodeId := some s.id }
      else some st
    match st? with
    | none => none
    | some st =>
      match getNode st st.selectedNodeId (some st.selectedFlowId) with
      | none => none
      | some none => none
      | some (some currentNode) =>
        match getNodeElement st currentNode.id elementId? with
        | none => none
        | some nodeElement? =>
          match getAvailableConnections E elementId? st rng with
          | none => none
          | some (conn0, st, rng) =>
            let conn :=
              if conn0 = ConnRes.nullC then
                match getFailedConnection currentNode with
                | some c => ConnRes.connC c
                | none => ConnRes.nullC
              else conn0
            let book : Option (Option Node × RState × Rng) :=
              if currentNode.ty = "Choice" ∧ st.isJumping = false then
                let st :=
                  match nodeElement? with
                  | some el =>
                    if ((findElement st el.id).getD el).justOnce then
                      st.updateElement el.id fun e => { e with visited := true }
                    else st
                  | none => st
                match getParsedText E st nodeElement? true rng with
                | none => none
                | some (_, st, rng) => some (none, st, rng)
              else if currentNode.ty = "JumpToNode" then
                match currentNode.jumpTo with
                | none => none
                | some (jf, jn) =>
                  if nodeExists st jn (some jf) = false then
                    some (some currentNode, st, rng)
                  else some (none, { st with isJumping := true }, rng)
              else
                match nodeElement? with
                | some el =>
                  some (none, st.updateElement el.id fun e => { e with visited := true },
                    rng)
                | none => some (none, st, rng)
            match book with
            | none => none
            | some (badJump?, st, rng) =>
              match badJump? with
              | some n => some (.doneR (.nodeRes n) st rng)
              | none => nextNodeTail E currentNode conn st rng

/-- `HomerParser.nextNode`, with fuel for the pass-through recursion (all
recursive calls pass no element id). -/
def nextNode (E : Evaluator) : Nat → Option String → RState → Rng →
    Option (NextOutcome × RState × Rng)
  | 0, _, _, _ => none
  | fuel + 1, eid?, st, rng =>
    match nextNodeStep E eid? st rng with
    | none => none
    | some (.doneR o st rng) => some (o, st, rng)
    | some (.againR st rng) => nextNode E fuel none st rng

/-- One host step: advance, and when a node was emitted fetch its rendered
text (as the example host does). -/
def runStep (E : Evaluator) (fuel : Nat) (eid? : Option String) (st : RState)
    (rng : Rng) : Option ((NextOutcome × String) × RState × Rng) :=
  match nextNode E fuel eid? st rng with
  | none => none
  | some (o, st, rng) =>
    match o with
    | .nodeRes _ =>
      (match getParsedText E st none false rng with
       | none => none
       | some (txt, st, rng) => some ((o, txt), st, rng))
    | _ => some ((o, ""), st, rng)

def runSeq (E : Evaluator) (fuel : Nat) :
    List (Option String) → RState → Rng →
    Option (List (NextOutcome × String) × RState × Rng)
  | [], st, rng => some ([], st, rng)
  | eid? :: rest, st, rng =>
    match runStep E fuel eid? st rng with
    | none => none
    | some (outp, st, rng) =>
      match runSeq E fuel rest st rng with
      | none => none
      | some (outs, st, rng) => some (outp :: outs, st, rng)

/-- A complete independent run: a fresh runtime over the ambient store,
`load` of the project, then the fixed element-id choices.  Observed are
the emitted outcomes together with the rendered text of each step. -/
def runOutputs (E : Evaluator) (fuel : Nat) (g0 : Store) (p : Project)
    (eids : List (Option String)) (rng : Rng) :
    Option (List (NextOutcome × String)) :=
  match load E (initialState g0) p none with
  | none => none
  | some st =>
    match runSeq E fuel eids st rng with
    | none => none
    | some (outs, _, _) => some outs

/-! ## Concrete fixtures -/

/-- A trivial evaluator: every expression evaluates to `undefined` without
side effects. -/
def evalU : Evaluator := fun _ g l => some (JsVal.undef, g, l)

/-- An evaluator whose every call throws. -/
def evalFail : Evaluator := fun _ _ _ => none

/-- An element translated only into the main locale `en`. -/
def elEnOnly : Element :=
  { id := "eEn", nodeId := "tL", ty := "Text",
    localizedContents := [{ localeCode := "en", text := [Part.lit "hello"] }] }

/-- An element whose requested-locale (`fr`) content is empty while the
main-locale content is not. -/
def elFrEmpty : Element :=
  { id := "eFrE", nodeId := "tL", ty := "Text",
    localizedContents := [{ localeCode := "fr", text := [] },
                          { localeCode := "en", text := [Part.lit "hello"] }] }

/-- A project whose current locale (`fr`) differs from the main locale
(`en`), with an untranslated element, an empty-translation element and an
`en`-only label. -/
def localeProj : Project :=
  { locale := "fr", mainLocale := "en",
    flowGroups := [{ id := "g", flowIds := ["fL"] }],
    labels := [{ key := "greet",
                 localizedContents := [{ localeCode := "en", text := [Part.lit "hi"] }] }],
    flows := [{ id := "fL", name := "FlowL",
                nodes := [{ id := "sL", ty := "Start", connections := [{ toId := "tL" }] },
                          { id := "tL", ty := "Text", cycleType := some "List",
                            elements := [elEnOnly, elFrEmpty] }] }] }

def localeState : RState :=
  (load evalU (initialState []) localeProj none).getD (initialState [])

/-- An element whose text interpolates an undefined-behaviour expression. -/
def elExpr : Element :=
  { id := "eX", nodeId := "tX", ty := "Text",
    localizedContents := [{ localeCode := "en",
                            text := [Part.lit "v=", Part.bracesB "\x7b$xx\x7d"] }] }

def exprProj : Project :=
  { locale := "en", mainLocale := "en",
    flowGroups := [{ id := "g", flowIds := ["fX"] }],
    flows := [{ id := "fX", name := "FlowX",
                nodes := [{ id := "sX", ty := "Start", connections := [{ toId := "tX" }] },
                          { id := "tX", ty := "Text", cycleType := some "List",
                            elements := [elExpr] }] }] }

def exprState : RState :=
  (load evalFail (initialState []) exprProj none).getD (initialState [])

/-- An element whose text is exactly the block `[[LIST a|b|c]]`. -/
def elListVar : Element :=
  { id := "eL", nodeId := "tV", ty := "Text",
    localizedContents := [{ localeCode := "en",
                            text := [Part.variationB "[[LIST a|b|c]]"] }] }

def listProj : Project :=
  { locale := "en", mainLocale := "en",
    flowGroups := [{ id := "g", flowIds := ["fV"] }],
    flows := [{ id := "fV", name := "FlowV",
                nodes := [{ id := "sV", ty := "Start", connections := [{ toId := "tV" }] },
                          { id := "tV", ty := "Text", cycleType := some "List",
                            elements := [elListVar] }] }] }

def listState : RState :=
  (load evalU (initialState []) listProj none).getD (initialState [])

/-- Render one element `n` times in a row, collecting the outputs. -/
def renderTimes (E : Evaluator) (el : Element) :
    Nat → RState → Rng → Option (List String × RState × Rng)
  | 0, st, rng => some ([], st, rng)
  | n + 1, st, rng =>
    match getParsedText E st (some el) false rng with
    | none => none
    | some (t, st, rng) =>
      match renderTimes E el n st rng with
      | none => none
      | some (ts, st, rng) => some (t :: ts, st, rng)

/-- A flow whose Start leads to a `JumpToNode` whose target flow does not
exist. -/
def jumpProj : Project :=
  { locale := "en", mainLocale := "en",
    flowGroups := [{ id := "g", flowIds := ["f1"] }],
    flows := [{ id := "f1", name := "Flow1",
                nodes := [{ id := "s", ty := "Start", connections := [{ toId := "j" }] },
                          { id := "j", ty := "JumpToNode",
                            jumpTo := some ("missing", "nowhere") }] }] }

def jumpState : RState :=
  (load evalU (initialState []) jumpProj none).getD (initialState [])

/-- A prior runtime whose global store already binds `k` (truthily) and
whose local store is non-empty, about to re-`load` a project that declares
`k` with a different value. -/
def reloadProj : Project :=
  { locale := "en", mainLocale := "en",
    flowGroups := [{ id := "g", flowIds := ["f1"] }],
    projVars := [{ key := "k", value := JsVal.str "new", ty := "string" }],
    flows := [{ id := "f1", name := "Flow1",
                nodes := [{ id := "s", ty := "Start" }] }] }

def staleState : RState :=
  { initialState [("k", JsVal.str "old")] with localVars := [("m", JsVal.num 1)] }

/-- A Choice node with a plain choice and a `[+]` fallback choice. -/
def elCh1 : Element :=
  { id := "ch1", nodeId := "ch", ty := "Choice",
    localizedContents := [{ localeCode := "en", text := [Part.lit "hi"] }] }

def elCh2 : Element :=
  { id := "ch2", nodeId := "ch", ty := "Choice",
    localizedContents := [{ localeCode := "en",
                            text := [Part.ifNoMoreB, Part.lit "fallback"] }] }

def choiceProj : Project :=
  { locale := "en", mainLocale := "en",
    flowGroups := [{ id := "g", flowIds := ["f1"] }],
    flows := [{ id := "f1", name := "Flow1",
                nodes := [{ id := "s", ty := "Start", connections := [{ toId := "ch" }] },
                          { id := "ch", ty := "Choice", elements := [elCh1, elCh2] }] }] }

/-- The loaded choice project where the non-`[+]` choice is visited but
carries the `was_hidden_because_empty` flag while now rendering non-empty
text. -/
def choiceHiddenState : RState :=
  ((load evalU (initialState []) choiceProj none).getD
    (initialState [])).updateElement "ch1"
    (fun e => { e with visited := true, wasHiddenBecauseEmpty := true })

/-- The loaded bad-jump runtime positioned at the jump node itself. -/
def jumpAtState : RState := { jumpState with selectedNodeId := some "j" }

def jumpNodeDef : Node :=
  { id := "j", ty := "JumpToNode", jumpTo := some ("missing", "nowhere") }

/-- Variant jump fixture: the `JumpToNode` targets the existing flow `f1`
at a node id (`nowhere`) that `f1` does not contain. -/
def jumpProj2 : Project :=
  { locale := "en", mainLocale := "en",
    flowGroups := [{ id := "g", flowIds := ["f1"] }],
    flows := [{ id := "f1", name := "Flow1",
                nodes := [{ id := "s", ty := "Start", connections := [{ toId := "j" }] },
                          { id := "j", ty := "JumpToNode",
                            jumpTo := some ("f1", "nowhere") }] }] }

def jumpAtState2 : RState :=
  { ((load evalU (initialState []) jumpProj2 none).getD (initialState [])) with
      selectedNodeId := some "j" }

def jumpNodeDef2 : Node :=
  { id := "j", ty := "JumpToNode", jumpTo := some ("f1", "nowhere") }

/-- The loaded fixture for the C3 witness. -/
def reloadedState : RState :=
  (load evalU staleState reloadProj none).getD (initialState [])

/-- The sub-flow fixture: `sub` calls into `c1` via its `SubFlow`-typed
edge and resumes at `after`. -/
def subFlowProj : Project :=
  { locale := "en", mainLocale := "en",
    flowGroups := [{ id := "g", flowIds := ["f1"] }],
    flows := [{ id := "f1", name := "Flow1",
                nodes := [{ id := "s", ty := "Start", connections := [{ toId := "sub" }] },
                          { id := "sub", ty := "SubFlow",
                            connections := [{ toId := "c1", ty := "SubFlow" },
                                            { toId := "after" }] },
                          { id := "after", ty := "Text" },
                          { id := "c1", ty := "Text" }] }] }

def sfBase : RState :=
  (load evalU (initialState []) subFlowProj none).getD (initialState [])

def sfAtSub : RState := { sfBase with selectedNodeId := some "sub" }

def sfAtSubOn : RState :=
  { sfBase with selectedNodeId := some "sub", activeSubFlows := [("f1", "sub")] }

def sfAtC1 : RState :=
  { sfBase with selectedNodeId := some "c1", activeSubFlows := [("f1", "sub")] }

/-- The per-element map an `updateElement` applies. -/
def elemUpd (eid : String) (f : Element → Element) (e : Element) : Element :=
  if e.id = eid then f e else e

/-- The per-node map an `updateElement` applies. -/
def nodeUpd (eid : String) (f : Element → Element) (n : Node) : Node :=
  { n with elements := n.elements.map (elemUpd eid f) }

/-- The per-flow map an `updateElement` applies. -/
def flowUpd (eid : String) (f : Element → Element) (fl : Flow) : Flow :=
  { fl with nodes := fl.nodes.map (nodeUpd eid f) }

/-- Apply an element transformation pointwise over the whole project. -/
def Project.mapElems (p : Project) (φ : Element → Element) : Project :=
  { p with
    flows := p.flows.map fun fl =>
      { fl with
        nodes := fl.nodes.map fun n => { n with elements := n.elements.map φ } } }

/-- Flag-only element maps: everything except the four runtime flags is
preserved. -/
def FlagsOnly (φ : Element → Element) : Prop :=
  ∀ e : Element, (φ e).id = e.id ∧ (φ e).nodeId = e.nodeId ∧ (φ e).ty = e.ty ∧
    (φ e).localizedContents = e.localizedContents

/-- The canonical state with a mapped project, used by stability lemmas. -/
def mapped (st : RState) (φ : Element → Element) (v : List Variation)
    (g l : Store) : RState :=
  { st with
      project := st.project.mapElems φ, variations := v, globalVars := g,
      localVars := l }

/-- The element map `phaseMarkers` applies to the project. -/
def markerUpd (hasJ hasI : Bool) (eid : String) (x : Element) : Element :=
  (if hasI then elemUpd eid (fun e => { e with ifNoMore := true }) else fun e => e)
    ((if hasJ then elemUpd eid (fun e => { e with justOnce := true }) else fun e => e) x)

/-- The `[+]` marker test of `getAvailableChoices`, read off the element's
original text in the given state. -/
def elemMarker (st : RState) (e : Element) : Bool :=
  match getOriginalText st e false false st.locale with
  | some c => containsStr c "[+]"
  | none => false

/-- Whether the element's current-locale content carries a `[+]` part (the
`parsedText` pass that sets `_if_no_more`). -/
def contentHasIfNoMore (st : RState) (e : Element) : Bool :=
  match getLocalizedContent st e st.locale with
  | some (some co) => co.text.any (fun p => p = Part.ifNoMoreB)
  | _ => false

/-- The loaded choice project with the non-`[+]` choice visited (and no
stale hidden flag). -/
def choiceDoneState : RState :=
  ((load evalU (initialState []) choiceProj none).getD
    (initialState [])).updateElement "ch1" (fun e => { e with visited := true })

/-- The value of the Choice node inside `choiceDoneState`. -/
def nodeC6 : Node :=
  { id := "ch", ty := "Choice",
    elements := [{ elCh1 with visited := true }, elCh2] }

/-- The state `getAvailableChoices` leaves behind on `choiceDoneState`. -/
def c6OutState : RState :=
  (choiceDoneState.updateElement "ch2"
    (fun e => { e with ifNoMore := true })).updateElement "ch2"
    (fun e => { e with ifNoMore := true, visited := true })

/-- Selection driver for cycle-type nodes: `n` successive
`getAvailableNodeElement` calls, collecting the selected elements (and
failing when a call selects nothing). -/
def selectSeq (nid : String) : Nat → RState → Rng → Option (List Element × RState × Rng)
  | 0, st, rng => some ([], st, rng)
  | n + 1, st, rng =>
    match getAvailableNodeElement st (some nid) rng with
    | some (some el, st1, rng1) =>
      match selectSeq nid n st1 rng1 with
      | some (l, st2, rng2) => some (el :: l, st2, rng2)
      | _ => none
    | _ => none

/-- Mark an element visited (the update every cycle-type selection applies). -/
def markV (e : Element) : Element := { e with visited := true }

/-- The per-node map a `resetNodeVisited` applies. -/
def nodeReset (nid : String) (n : Node) : Node :=
  if n.id = nid then
    { n with elements := n.elements.map fun e => { e with visited := false } }
  else n

/-- The per-flow map a `resetNodeVisited` applies. -/
def flowReset (nid : String) (fl : Flow) : Flow :=
  { fl with nodes := fl.nodes.map (nodeReset nid) }

def elLa : Element :=
  { id := "la", nodeId := "loopN", ty := "Text",
    localizedContents := [{ localeCode := "en", text := [Part.lit "A"] }] }

def elLb : Element :=
  { id := "lb", nodeId := "loopN", ty := "Text",
    localizedContents := [{ localeCode := "en", text := [Part.lit "B"] }] }

def loopProj : Project :=
  { locale := "en", mainLocale := "en",
    flowGroups := [{ id := "g", flowIds := ["f1"] }],
    flows := [{ id := "f1", name := "Flow1",
                nodes := [{ id := "s", ty := "Start", connections := [{ toId := "loopN" }] },
                          { id := "loopN", ty := "Text", cycleType := some "Loop",
                            elements := [elLa, elLb] }] }] }

def loopState : RState :=
  (load evalU (initialState []) loopProj none).getD (initialState [])

/-- The value of the Loop node inside `loopState`. -/
def nmLoop : Node :=
  { id := "loopN", ty := "Text", cycleType := some "Loop",
    elements := [elLa, elLb] }

/-- Specification-side evaluation of a Condition node: every element's
condition is evaluated in source order, threading the stores through all
of them, collecting every truth value. -/
def condEvalStores (E : Evaluator) (st : RState) :
    List Element → Store → Store → Option (List JsVal × Store × Store)
  | [], g, l => some ([], g, l)
  | e :: rest, g, l =>
    match getOriginalText st e true true st.locale with
    | none => none
    | some cond =>
      match E cond g l with
      | none => none
      | some (v, g, l) =>
        match condEvalStores E st rest g l with
        | none => none
        | some (vs, g, l) => some (v :: vs, g, l)

/-- Specification-side edge choice: the connection of the first element
whose condition evaluated truthy. -/
def firstTruthy (node : Node) : List Element → List JsVal → Option Connection
  | e :: es, v :: vs =>
    if v.truthy then getConnectionsByElementId node e.id
    else firstTruthy node es vs
  | _, _ => none

/-- An evaluator with distinct store side effects per condition string. -/
def evalC10 : Evaluator := fun s g l =>
  if s = "c1" then some (JsVal.bool false, Store.write g "a" (JsVal.num 1), l)
  else if s = "c2" then some (JsVal.bool true, Store.write g "b" (JsVal.num 2), l)
  else if s = "c3" then some (JsVal.undef, Store.write g "c" (JsVal.num 3), l)
  else some (JsVal.undef, g, l)

def elD1 : Element :=
  { id := "d1", nodeId := "cnd", ty := "Text",
    localizedContents := [{ localeCode := "en", text := [Part.lit "c1"] }] }

def elD2 : Element :=
  { id := "d2", nodeId := "cnd", ty := "Text",
    localizedContents := [{ localeCode := "en", text := [Part.lit "c2"] }] }

def elD3 : Element :=
  { id := "d3", nodeId := "cnd", ty := "Text",
    localizedContents := [{ localeCode := "en", text := [Part.lit "c3"] }] }

def nodeC10 : Node :=
  { id := "cnd", ty := "Condition",
    elements := [elD1, elD2, elD3],
    connections := [{ nodeElementId := some "d1", toId := "t1" },
                    { nodeElementId := some "d2", toId := "t2" },
                    { nodeElementId := some "d3", toId := "t3" },
                    { ty := "FailCondition", toId := "tf" }] }

def condProj : Project :=
  { locale := "en", mainLocale := "en",
    flowGroups := [{ id := "g", flowIds := ["f1"] }],
    flows := [{ id := "f1", name := "Flow1",
                nodes := [{ id := "s", ty := "Start", connections := [{ toId := "cnd" }] },
                          nodeC10] }] }

/-- The loaded condition project with the cursor on the Condition node. -/
def condState : RState :=
  { ((load evalU (initialState []) condProj none).getD (initialState [])) with
      selectedNodeId := some "cnd" }

/-- C4 node-level determinism condition: not a `Random` node, and no
random cycle type. -/
def detNode4 (n : Node) : Bool :=
  n.ty ≠ "Random" ∧ n.cycleType ≠ some "Random" ∧ n.cycleType ≠ some "Smart Random"

def detFlows (flows : List Flow) : Bool :=
  flows.all (fun fl => fl.nodes.all detNode4)

def detVars (vars : List Variation) : Bool :=
  vars.all (fun v => v.ty ≠ "RND" ∧ v.ty ≠ "SRND")

/-- Runtime-state determinism invariant: no random node/cycle type in the
project, no random variation record. -/
def DetSt (st : RState) : Prop :=
  detFlows st.project.flows = true ∧ detVars st.variations = true

/-- The rng-obliviousness relation for one result: the two runs return the
same value and state, each passing its own stream through untouched, and
the determinism invariant is preserved. -/
def RelOut {α : Type} (o1 o2 : Option (α × RState × Rng)) (r1 r2 : Rng) : Prop :=
  (o1 = none ∧ o2 = none) ∨
    ∃ a st1, o1 = some (a, st1, r1) ∧ o2 = some (a, st1, r2) ∧ DetSt st1

/-- The step relation for `nextNodeStep`: same outcome and state on both
streams, each stream untouched, invariant preserved. -/
def RelStep (o1 o2 : Option StepRes) (r1 r2 : Rng) : Prop :=
  (o1 = none ∧ o2 = none) ∨
    (∃ o st1, o1 = some (.doneR o st1 r1) ∧ o2 = some (.doneR o st1 r2) ∧
      DetSt st1) ∨
    (∃ st1, o1 = some (.againR st1 r1) ∧ o2 = some (.againR st1 r2) ∧ DetSt st1)

/-- A content part is determinism-safe: any `[[..]]` block it carries is
neither `RND` nor `SRND`. -/
def detPart : Part → Bool
  | Part.variationB raw =>
    (parseVariationBlock raw).1 ≠ "RND" ∧ (parseVariationBlock raw).1 ≠ "SRND"
  | _ => true

/-- C4 determinism condition on a whole project: no `Random` node, no
random cycle type, and no `RND`/`SRND` variation block in any content. -/
def detProject (p : Project) : Bool :=
  p.flows.all fun fl => fl.nodes.all fun n =>
    detNode4 n ∧ n.elements.all fun e =>
      e.localizedContents.all fun lc => lc.text.all detPart

def elRa : Element :=
  { id := "ra", nodeId := "tx", ty := "Text",
    localizedContents := [{ localeCode := "en", text := [Part.lit "A"] }] }

def elRb : Element :=
  { id := "rb", nodeId := "tx", ty := "Text",
    localizedContents := [{ localeCode := "en", text := [Part.lit "B"] }] }

/-- A project the frozen claim admits (no RND/SRND blocks, no Random-type
node) whose Text node nevertheless draws randomness through its `Random`
cycle type. -/
def projR : Project :=
  { locale := "en", mainLocale := "en",
    flowGroups := [{ id := "g", flowIds := ["f1"] }],
    flows := [{ id := "f1", name := "Flow1",
                nodes := [{ id := "s", ty := "Start", connections := [{ toId := "tx" }] },
                          { id := "tx", ty := "Text", cycleType := some "Random",
                            elements := [elRa, elRb] }] }] }

/-! ## Theorems -/

theorem jsStrictEqBoolStr_false (b : Bool) (s : String) :
    jsStrictEqBoolStr b s = false := rfl

/-! ## C1 -/

/-- C1 (code bug): the spec's locale fallback never fires.  For an element
with no `fr` content at all, `getLocalizedContent` returns `null` and
`get_parsed_text` throws instead of falling back to the main locale; for an
element whose `fr` content is empty, the empty content itself is returned
with `not_translated = false` and the rendering is empty.  Both happen
because the source's guard `!mainLocale === localeCode` compares a boolean
with a string and is constantly false. -/
theorem c1_locale_fallback_never_fires :
    getLocalizedContent localeState elEnOnly "fr" = some none ∧
    getParsedText evalU localeState (some elEnOnly) false [] = none ∧
    getLocalizedContentFor localeState (some "tL") elFrEmpty.localizedContents "fr" =
      some (some { localeCode := "fr", text := [], notTranslated := false }) ∧
    getParsedText evalU localeState (some elFrEmpty) false [] =
      some ("", localeState, []) := by
  refine ⟨by decide, by decide, by decide, by decide⟩

/-! ## C9 -/

/-- C9 (code bug): the runtime does throw on missing translations —
`get_parsed_text` and `get_label` both dereference the `null` returned by
the (broken) localization resolver — while a malformed/throwing expression
really is handled non-fatally with an `--error--` marker. -/
theorem c9_panics_on_missing_locale :
    getParsedText evalU localeState (some elEnOnly) false [] = none ∧
    getLabel localeState "greet" "fr" = none ∧
    getParsedText evalFail exprState (some elExpr) false [] =
      some ("v=--error--", exprState, []) := by
  refine ⟨by decide, by decide, by decide⟩

/-! ## C7 -/

/-- C7: rendering the element whose text is exactly `[[LIST a|b|c]]` five
times yields the block's three initial values in order and then the last
one forever (head of `remaining` popped each time; sticky final).  The
initial values are the options as the source parses them — removing the
type token leaves the separating space on the first option. -/
theorem c7_list_variation_sticky :
    ∃ o1 o2 o3 : String,
      (parseVariationBlock "[[LIST a|b|c]]").2 = [o1, o2, o3] ∧
      (renderTimes evalU elListVar 5 listState []).map (fun r => r.1) =
        some ([o1, o2, o3, o3, o3].map fun v =>
          "<variation>" ++ v ++ "</variation>") := by
  refine ⟨" a", "b", "c", by decide, by decide⟩

/-! ## C2 -/

/-- C2 (counterexample): at the bad jump, `next_node` does return the
current node, but the cursor is NOT left unchanged: the connection lookup
has already set it to the nonexistent jump target (flow `missing`, node
`nowhere`), while the flow before the call was `f1`. -/
theorem c2_badjump_counterexample :
    ((nextNode evalU 10 none jumpState []).map fun r =>
      (r.1, r.2.1.selectedFlowId, r.2.1.selectedNodeId)) =
      some (.nodeRes
        { id := "j", ty := "JumpToNode", jumpTo := some ("missing", "nowhere"),
          previousNodeId := some "s" },
        "missing", some "nowhere") ∧
    jumpState.selectedFlowId = "f1" := by
  refine ⟨by decide, by decide⟩

/-! ## C3 -/

/-- C3 (counterexample): after re-`load`, the global `k` still holds the
prior truthy value `"old"` (the project value `"new"` is NOT reseeded,
because `load` only writes keys whose current value is falsy), and the
local store still holds its prior binding (`load` never touches
`_localVars`). -/
theorem c3_load_counterexample :
    ((load evalU staleState reloadProj none).map fun st =>
      (Store.read st.globalVars "k", st.localVars)) =
      some (JsVal.str "old", [("m", JsVal.num 1)]) ∧
    (jsFind reloadProj.projVars (fun v => v.key = "k")).map (fun v => v.value) =
      some (JsVal.str "new") := by
  refine ⟨by decide, by decide⟩

/-! ## C6 -/

/-- C6 (counterexample): every element of the Choice node that does not
bear `[+]` is visited, yet `get_available_choices` does not return the
`[+]` set: the visited element `ch1` carries `was_hidden_because_empty`
and now renders non-empty, so the call un-hides it and returns `[ch1]`
instead of the `[+]` element `ch2`. -/
theorem c6_choice_exhaustion_counterexample :
    (findElement choiceHiddenState "ch1").map (fun e => e.visited) = some true ∧
    (findElement choiceHiddenState "ch2").map (fun e => containsStr
      (rawContent (((e.localizedContents.headD
        { localeCode := "", text := [] }).text))) "[+]") = some true ∧
    ((getAvailableChoices evalU choiceHiddenState (some "ch") []).map fun r =>
      r.1.map fun e => e.id) = some ["ch1"] := by
  refine ⟨by decide, by decide, by decide⟩

/-- C2 (amended): whenever the current node is a `JumpToNode` whose
`jump_to` target `(fid, nid)` does not exist — the existence check the code
itself performs, on the cursor-set state, fails, whether because the target
flow is missing or because the flow exists but lacks the node — `next_node`
returns the current node (`BadJump`), but the cursor ends at the jump
target — the connection lookup set it before the existence check — rather
than staying unchanged. -/
theorem c2_badjump_cursor_set (E : Evaluator) (st : RState) (n : Node)
    (fid nid : String) (eid? : Option String) (rng : Rng) (fuel : Nat)
    (e? : Option Element)
    (hEnd : st.selectedNodeId ≠ some "THE END")
    (hSome : st.selectedNodeId ≠ none)
    (hCur : getNode st st.selectedNodeId (some st.selectedFlowId) = some (some n))
    (hElem : getNodeElement st n.id eid? = some e?)
    (hSel : getNode st none none = some (some n))
    (hTy : n.ty = "JumpToNode")
    (hJump : n.jumpTo = some (fid, nid))
    (hMissing : nodeExists { st with selectedFlowId := fid, selectedNodeId := some nid }
        nid (some fid) = false) :
    nextNode E (fuel + 1) eid? st rng =
      some (.nodeRes n,
        { st with selectedFlowId := fid, selectedNodeId := some nid }, rng) := by
  unfold nextNode nextNodeStep
  rw [if_neg hEnd]
  simp only [if_neg hSome, hCur, hElem]
  unfold getAvailableConnections
  simp only [hSel, hTy, hJump]
  simp [hTy, hMissing]

theorem c2_badjump_cursor_set_witness :
    (nextNode evalU 1 none jumpAtState [] =
      some (.nodeRes jumpNodeDef,
        { jumpAtState with
            selectedFlowId := "missing", selectedNodeId := some "nowhere" },
        [])) ∧
    (nextNode evalU 1 none jumpAtState2 [] =
      some (.nodeRes jumpNodeDef2,
        { jumpAtState2 with
            selectedFlowId := "f1", selectedNodeId := some "nowhere" },
        [])) :=
  ⟨c2_badjump_cursor_set evalU jumpAtState jumpNodeDef "missing" "nowhere" none [] 0
      none (by decide) (by decide) (by decide) (by decide) (by decide) (by decide)
      (by decide) (by decide),
   c2_badjump_cursor_set evalU jumpAtState2 jumpNodeDef2 "f1" "nowhere" none [] 0
      none (by decide) (by decide) (by decide) (by decide) (by decide) (by decide)
      (by decide) (by decide)⟩

/-! ## C3 general lemmas -/

theorem store_read_write (g : Store) (k k2 : String) (v : JsVal) :
    Store.read (Store.write g k2 v) k = if k = k2 then v else Store.read g k := by
  induction g with
  | nil =>
    by_cases h : k = k2
    · subst h
      simp [Store.write, Store.read]
    · simp only [Store.write, Store.read, if_neg h]
      rw [if_neg (fun hh : k2 = k => h hh.symm)]
  | cons p rest ih =>
    by_cases h2 : p.1 = k2
    · simp only [Store.write, if_pos h2]
      by_cases h : k = k2
      · subst h
        simp [Store.read]
      · simp only [Store.read, if_neg h]
        rw [if_neg (fun hh : k2 = k => h hh.symm), if_neg (by rw [h2]; exact fun hh : k2 = k => h hh.symm)]
    · simp only [Store.write, if_neg h2, Store.read]
      by_cases hp : p.1 = k
      · have hkk : k ≠ k2 := fun hh => h2 (hp.trans hh)
        simp [hp, ih, hkk]
      · simp [hp, ih]

theorem seedGlobals_no_bool (E : Evaluator) (vars : List PVar) (g l : Store)
    (hnb : ∀ v ∈ vars, v.ty ≠ "bool") :
    ∃ g2, seedGlobals E vars g l = some (g2, l) ∧
      ∀ k, (Store.read g k).truthy = true → Store.read g2 k = Store.read g k := by
  induction vars generalizing g with
  | nil => exact ⟨g, rfl, fun k _ => rfl⟩
  | cons v rest ih =>
    have hv : v.ty ≠ "bool" := hnb v (by simp)
    have hrest : ∀ w ∈ rest, w.ty ≠ "bool" := fun w hw => hnb w (by simp [hw])
    by_cases hw : v.ty ≠ "separator" ∧ (Store.read g v.key).truthy = false
    · obtain ⟨g2, hg2, hpres⟩ := ih (Store.write g v.key v.value) hrest
      refine ⟨g2, ?_, ?_⟩
      · simp only [seedGlobals, List.foldlM] at hg2 ⊢
        rw [if_pos hw, if_neg hv]
        exact hg2
      · intro k hk
        have hkk : k ≠ v.key := by
          intro hh
          rw [hh] at hk
          rw [hk] at hw
          exact absurd hw.2 (by simp)
        have hread : Store.read (Store.write g v.key v.value) k = Store.read g k := by
          rw [store_read_write, if_neg hkk]
        rw [← hread]
        exact hpres k (by rw [hread]; exact hk)
    · obtain ⟨g2, hg2, hpres⟩ := ih g hrest
      refine ⟨g2, ?_, hpres⟩
      simp only [seedGlobals, List.foldlM] at hg2 ⊢
      rw [if_neg hw, if_neg hv]
      exact hg2

theorem start_invariants (st : RState) (a b : Option String) (st2 : RState)
    (h : start st a b = some st2) :
    st2.project = st.project ∧ st2.globalVars = st.globalVars ∧
      st2.localVars = st.localVars ∧ st2.activeSubFlows = st.activeSubFlows ∧
      st2.variations = st.variations := by
  simp only [start] at h
  split at h
  · exact absurd h (by simp)
  · split at h
    · exact absurd h (by simp)
    · split at h
      · exact absurd h (by simp)
      · split at h
        · split at h
          · exact absurd h (by simp)
          · cases h
            exact ⟨rfl, rfl, rfl, rfl, rfl⟩
        · cases h
          exact ⟨rfl, rfl, rfl, rfl, rfl⟩

theorem resetVisited_all_false (p : Project) :
    ∀ fl ∈ (resetVisited p).flows, ∀ nd ∈ fl.nodes, ∀ e ∈ nd.elements,
      e.visited = false := by
  intro fl hfl nd hnd e he
  simp only [resetVisited, List.mem_map] at hfl
  obtain ⟨fl0, hfl0, hfleq⟩ := hfl
  subst hfleq
  simp only [List.mem_map] at hnd
  obtain ⟨nd0, hnd0, hndeq⟩ := hnd
  subst hndeq
  simp only [List.mem_map] at he
  obtain ⟨e0, he0, heeq⟩ := he
  subst heeq
  rfl

/-- C3 (amended): after `load(project)` every element's visited flag is
false and `active_sub_flows` is empty; but `local_vars` is simply left
unchanged (never cleared), and a global key whose current value is truthy
keeps that prior value — it is NOT reseeded from the project (shown here
for projects without bool-typed variables, whose values additionally pass
through `eval`). -/
theorem c3_load_partial_reset (E : Evaluator) (st : RState) (p : Project)
    (fn? : Option String) (st2 : RState) (k : String)
    (hload : load E st p fn? = some st2)
    (hnb : ∀ v ∈ p.projVars, v.ty ≠ "bool")
    (hk : (Store.read st.globalVars k).truthy = true) :
    (∀ fl ∈ st2.project.flows, ∀ nd ∈ fl.nodes, ∀ e ∈ nd.elements,
      e.visited = false) ∧
    st2.activeSubFlows = [] ∧
    st2.localVars = st.localVars ∧
    Store.read st2.globalVars k = Store.read st.globalVars k := by
  obtain ⟨g2, hg2, hpres⟩ :=
    seedGlobals_no_bool E p.projVars st.globalVars st.localVars hnb
  simp only [load] at hload
  split at hload
  · exact absurd hload (by simp)
  · split at hload
    · exact absurd hload (by simp)
    · rename_i g3 l3 hseedEq
      rw [hg2] at hseedEq
      injection hseedEq with hseedEq2
      injection hseedEq2 with hg3 hl3
      subst hg3
      subst hl3
      split at hload
      · exact absurd hload (by simp)
      · rename_i st4 hstart
        split at hload
        · exact absurd hload (by simp)
        · rename_i st5 hstart2
          cases hload
          obtain ⟨hproj, hglob, hloc, _, _⟩ := start_invariants _ _ _ _ hstart2
          refine ⟨?_, rfl, ?_, ?_⟩
          · intro fl hfl nd hnd e he
            rw [hproj] at hfl
            exact resetVisited_all_false p fl hfl nd hnd e he
          · exact hloc
          · rw [hglob]
            exact hpres k hk

theorem c3_load_partial_reset_witness :
    (∀ fl ∈ reloadedState.project.flows, ∀ nd ∈ fl.nodes, ∀ e ∈ nd.elements,
      e.visited = false) ∧
    reloadedState.activeSubFlows = [] ∧
    reloadedState.localVars = staleState.localVars ∧
    Store.read reloadedState.globalVars "k" = Store.read staleState.globalVars "k" :=
  c3_load_partial_reset evalU staleState reloadProj none reloadedState "k"
    (by decide) (by decide) (by decide)

/-! ## C5 -/

/-- C5: the three mechanisms of the sub-flow call stack.
(1) Entering a SubFlow node that is not on the stack pushes
`(selected_flow_id, node.id)` and takes the `SubFlow`-typed edge.
(2) Entering a SubFlow node that IS on the stack pops the top entry and
takes the first non-`SubFlow` edge.
(3) When the walk reaches a node with no outgoing connection while the
stack is non-empty, the `next_node` pass continues (recurses) from the
stacked caller node, which then triggers (2). -/
theorem c5_subflow_push_pop_resume :
    (∀ (E : Evaluator) (eid? : Option String) (st : RState) (n : Node)
      (c : Connection) (rng : Rng),
      getNode st none none = some (some n) → n.ty = "SubFlow" →
      st.activeSubFlows.filter (fun sf => sf.2 = n.id) = [] →
      (n.connections.filter fun cc => cc.ty = "SubFlow").head? = some c →
      getAvailableConnections E eid? st rng =
        some (.connC c,
          { st with
            activeSubFlows := (st.selectedFlowId, n.id) :: st.activeSubFlows },
          rng)) ∧
    (∀ (E : Evaluator) (eid? : Option String) (st : RState) (n : Node)
      (c : Connection) (rng : Rng),
      getNode st none none = some (some n) → n.ty = "SubFlow" →
      st.activeSubFlows.filter (fun sf => sf.2 = n.id) ≠ [] →
      n.connections ≠ [] →
      (n.connections.filter fun cc => cc.ty ≠ "SubFlow").head? = some c →
      getAvailableConnections E eid? st rng =
        some (.connC c, { st with activeSubFlows := st.activeSubFlows.tail }, rng)) ∧
    (∀ (E : Evaluator) (st : RState) (n : Node) (sid : String)
      (rest : List (String × String)) (rng : Rng),
      st.selectedNodeId ≠ some "THE END" → st.selectedNodeId ≠ none →
      getNode st st.selectedNodeId (some st.selectedFlowId) = some (some n) →
      getNode st (some n.id) none = some (some n) →
      getNode st none none = some (some n) →
      n.ty = "Text" → n.connections = [] →
      st.activeSubFlows = (st.selectedFlowId, sid) :: rest →
      nextNodeStep E none st rng =
        some (.againR { st with selectedNodeId := some sid } rng)) := by
  refine ⟨?_, ?_, ?_⟩
  · intro E eid? st n c rng hSel hTy hNotOn hSub
    have hne : n.connections ≠ [] := by
      intro h
      rw [h] at hSub
      simp [List.filter] at hSub
    unfold getAvailableConnections
    simp only [hSel, hTy]
    rw [if_pos hne, if_pos hNotOn, hSub]
  · intro E eid? st n c rng hSel hTy hOn hne hNon
    unfold getAvailableConnections
    simp only [hSel, hTy]
    rw [if_pos hne, if_neg hOn, hNon]
  · intro E st n sid rest rng hEnd hSome hCur hSelf hSel hTy hNoConns hStack
    unfold nextNodeStep
    rw [if_neg hEnd]
    simp only [if_neg hSome, hCur]
    unfold getNodeElement
    simp only [hSelf]
    unfold getAvailableConnections
    simp only [hSel, hTy, hNoConns]
    unfold getFailedConnection jsFind nextNodeTail
    simp [hStack, hTy, hNoConns, connFalsy]

theorem c5_subflow_push_pop_resume_witness :
    getAvailableConnections evalU none sfAtSub [] =
      some (.connC { toId := "c1", ty := "SubFlow" },
        { sfAtSub with activeSubFlows := [("f1", "sub")] }, []) ∧
    getAvailableConnections evalU none sfAtSubOn [] =
      some (.connC { toId := "after" }, { sfAtSubOn with activeSubFlows := [] }, []) ∧
    nextNodeStep evalU none sfAtC1 [] =
      some (.againR { sfAtC1 with selectedNodeId := some "sub" } []) := by
  refine ⟨?_, ?_, ?_⟩
  · exact c5_subflow_push_pop_resume.1 evalU none sfAtSub
      { id := "sub", ty := "SubFlow",
        connections := [{ toId := "c1", ty := "SubFlow" }, { toId := "after" }] }
      { toId := "c1", ty := "SubFlow" } [] (by decide) (by decide) (by decide)
      (by decide)
  · exact c5_subflow_push_pop_resume.2.1 evalU none sfAtSubOn
      { id := "sub", ty := "SubFlow",
        connections := [{ toId := "c1", ty := "SubFlow" }, { toId := "after" }] }
      { toId := "after" } [] (by decide) (by decide) (by decide) (by decide)
      (by decide)
  · exact c5_subflow_push_pop_resume.2.2 evalU sfAtC1
      { id := "c1", ty := "Text" } "sub" [] [] (by decide) (by decide) (by decide)
      (by decide) (by decide) (by decide) (by decide) (by decide)

theorem jsFind_map {α : Type} (l : List α) (g : α → α) (p : α → Bool)
    (hp : ∀ x, p (g x) = p x) :
    jsFind (l.map g) p = (jsFind l p).map g := by
  unfold jsFind
  suffices h : ∀ acc : Option α,
      List.foldl (fun a x => if p x then some x else a) (acc.map g) (l.map g) =
        (List.foldl (fun a x => if p x then some x else a) acc l).map g by
    exact h none
  induction l with
  | nil => intro acc; rfl
  | cons x xs ih =>
    intro acc
    simp only [List.map, List.foldl, hp x]
    by_cases hx : p x
    · simp only [hx, if_true]
      exact ih (some x)
    · simp only [hx, if_false]
      exact ih acc

theorem updateElement_flows (p : Project) (eid : String) (f : Element → Element) :
    (p.updateElement eid f).flows = p.flows.map (flowUpd eid f) := by
  simp [Project.updateElement, flowUpd, nodeUpd, elemUpd]

theorem getSelectedFlow_updateElement (st : RState) (eid : String)
    (f : Element → Element) :
    getSelectedFlow (st.updateElement eid f) =
      (getSelectedFlow st).map (flowUpd eid f) := by
  unfold getSelectedFlow
  rw [show (st.updateElement eid f).project.flows = st.project.flows.map (flowUpd eid f) from updateElement_flows st.project eid f]
  exact jsFind_map _ _ _ (fun x => rfl)

theorem getNode_updateElement (st : RState) (eid : String) (f : Element → Element)
    (nid? : Option String) :
    getNode (st.updateElement eid f) nid? none =
      (getNode st nid? none).map (Option.map (nodeUpd eid f)) := by
  unfold getNode
  rw [getSelectedFlow_updateElement]
  cases h : getSelectedFlow st with
  | none => rfl
  | some fl =>
    simp only [Option.map_some]
    have : jsFind (flowUpd eid f fl).nodes
        (fun n => some n.id = jsOrId nid? (st.updateElement eid f).selectedNodeId) =
        (jsFind fl.nodes (fun n => some n.id = jsOrId nid? st.selectedNodeId)).map
          (nodeUpd eid f) := by
      exact jsFind_map _ _ _ (fun x => rfl)
    simp [flowUpd] at this ⊢
    rw [this]

theorem allElements_updateElement (p : Project) (eid : String) (f : Element → Element) :
    (p.updateElement eid f).allElements = p.allElements.map (elemUpd eid f) := by
  simp only [Project.allElements, Project.updateElement, List.map_flatMap,
    List.flatMap_map]
  rfl

theorem findElement_updateElement (st : RState) (eid : String)
    (f : Element → Element) (hid : ∀ e, (f e).id = e.id) (k : String) :
    findElement (st.updateElement eid f) k = (findElement st k).map (elemUpd eid f) := by
  unfold findElement
  rw [show (st.updateElement eid f).project = st.project.updateElement eid f from rfl,
    allElements_updateElement]
  apply jsFind_map
  intro x
  simp only [elemUpd]
  by_cases hx : x.id = eid
  · simp [hx, hid]
  · simp [hx]

theorem getLocalizedContentFor_eq (st : RState) (nid? : Option String)
    (cs : List LocalizedContent) (lc : String) :
    getLocalizedContentFor st nid? cs lc =
      match getNode st nid? none with
      | none => none
      | some _ =>
        some (cs.foldl (fun acc c =>
          if c.localeCode = lc then some { c with notTranslated := false } else acc)
          none) := by
  unfold getLocalizedContentFor
  cases h : getNode st nid? none with
  | none => rfl
  | some nd =>
    simp only [jsStrictEqBoolStr, Bool.and_false, if_false, Bool.false_eq_true]

theorem renderVariation_shape (st : RState) (elemId : String) (idx : Nat)
    (raw : String) (rng : Rng) (c : String) (st1 : RState) (rng1 : Rng)
    (h : renderVariation st elemId idx raw rng = some (c, st1, rng1)) :
    ∃ v1, st1 = { st with variations := v1 } := by
  unfold renderVariation at h
  dsimp only [] at h
  repeat' split at h
  all_goals first
    | exact Option.noConfusion h
    | (rw [Option.some.injEq, Prod.mk.injEq, Prod.mk.injEq] at h
       exact ⟨_, h.2.1.symm⟩)

theorem phase1Vars_shape (elemId : String) (ps : List Part) (idx : Nat)
    (st : RState) (rng : Rng) (out : List Part × RState × Rng)
    (h : phase1Vars elemId ps idx st rng = some out) :
    ∃ v2, out.2.1 = { st with variations := v2 } := by
  induction ps generalizing idx st rng out with
  | nil =>
    unfold phase1Vars at h
    cases h
    exact ⟨st.variations, rfl⟩
  | cons p rest ih =>
    unfold phase1Vars at h
    split at h
    · -- variation block
      split at h
      · exact absurd h (by simp)
      · rename_i c1 st1 rng1 hrv
        split at h
        · exact absurd h (by simp)
        · rename_i out2 hrec
          cases h
          obtain ⟨v1, hv1⟩ := renderVariation_shape _ _ _ _ _ _ _ _ hrv
          subst hv1
          obtain ⟨v2, hv2⟩ := ih _ _ _ _ hrec
          exact ⟨v2, by simpa using hv2⟩
    · -- any other part
      split at h
      · exact absurd h (by simp)
      · rename_i out2 hrec
        cases h
        obtain ⟨v2, hv2⟩ := ih _ _ _ _ hrec
        exact ⟨v2, by simpa using hv2⟩

/-- `updateElement` is a pointwise element map. -/
theorem updateElement_eq_mapElems (p : Project) (eid : String) (f : Element → Element) :
    p.updateElement eid f = p.mapElems (elemUpd eid f) := rfl

theorem mapElems_comp (p : Project) (φ ψ : Element → Element) :
    (p.mapElems φ).mapElems ψ = p.mapElems (fun e => ψ (φ e)) := by
  unfold Project.mapElems
  congr 1
  rw [List.map_map]
  apply List.map_congr_left
  intro fl _
  simp only [Function.comp]
  congr 1
  rw [List.map_map]
  apply List.map_congr_left
  intro n _
  simp only [Function.comp]
  congr 1
  rw [List.map_map]
  rfl

theorem mapElems_id (p : Project) : p.mapElems (fun e => e) = p := by
  simp [Project.mapElems]

theorem flagsOnly_id : FlagsOnly (fun e => e) := fun _ => ⟨rfl, rfl, rfl, rfl⟩

theorem flagsOnly_comp {φ ψ : Element → Element} (hφ : FlagsOnly φ)
    (hψ : FlagsOnly ψ) : FlagsOnly (fun e => ψ (φ e)) := by
  intro e
  obtain ⟨h1, h2, h3, h4⟩ := hφ e
  obtain ⟨g1, g2, g3, g4⟩ := hψ (φ e)
  exact ⟨g1.trans h1, g2.trans h2, g3.trans h3, g4.trans h4⟩

theorem getSelectedFlow_mapped (st : RState) (φ v g l) :
    getSelectedFlow (mapped st φ v g l) =
      (getSelectedFlow st).map (fun fl =>
        { fl with nodes := fl.nodes.map (fun n =>
          { n with elements := n.elements.map φ }) }) := by
  unfold getSelectedFlow mapped Project.mapElems
  exact jsFind_map _ _ _ (fun x => rfl)

theorem getNode_mapped (st : RState) (φ v g l) (nid? : Option String) :
    getNode (mapped st φ v g l) nid? none =
      (getNode st nid? none).map (Option.map (fun n =>
        { n with elements := n.elements.map φ })) := by
  unfold getNode
  rw [getSelectedFlow_mapped]
  cases h : getSelectedFlow st with
  | none => rfl
  | some fl =>
    simp only [Option.map_some, Option.map]
    rw [show ((mapped st φ v g l).selectedNodeId) = st.selectedNodeId from rfl]
    rw [jsFind_map fl.nodes
      (fun n => { n with elements := n.elements.map φ })
      (fun n => some n.id = jsOrId nid? st.selectedNodeId) (fun x => rfl)]
    cases jsFind fl.nodes (fun n => some n.id = jsOrId nid? st.selectedNodeId) with
    | none => rfl
    | some n => rfl

theorem findElement_mapped (st : RState) (φ v g l) (k : String)
    (hid : ∀ e : Element, (φ e).id = e.id) :
    findElement (mapped st φ v g l) k = (findElement st k).map φ := by
  unfold findElement
  have : (mapped st φ v g l).project.allElements = st.project.allElements.map φ := by
    simp only [mapped, Project.mapElems, Project.allElements, List.map_flatMap,
      List.flatMap_map]
  rw [this]
  apply jsFind_map
  intro x
  simp [hid]

theorem jsFind_pred {α : Type} (l : List α) (p : α → Bool) (x : α)
    (h : jsFind l p = some x) : p x = true := by
  unfold jsFind at h
  have hs : ∀ (l2 : List α) (acc : Option α), (∀ y, acc = some y → p y = true) →
      ∀ z, List.foldl (fun a e => if p e then some e else a) acc l2 = some z →
        p z = true := by
    intro l2
    induction l2 with
    | nil =>
      intro acc hacc z hz
      exact hacc z hz
    | cons e rest ih =>
      intro acc hacc z hz
      simp only [List.foldl] at hz
      by_cases hp : p e
      · rw [if_pos hp] at hz
        exact ih (some e) (fun y hy => by cases hy; exact hp) z hz
      · rw [if_neg hp] at hz
        exact ih acc hacc z hz
  exact hs l none (fun y hy => by cases hy) x h

theorem getLocalizedContentFor_mapped (st : RState) (φ v g l)
    (nid? : Option String) (cs : List LocalizedContent) (lc : String) :
    getLocalizedContentFor (mapped st φ v g l) nid? cs lc =
      getLocalizedContentFor st nid? cs lc := by
  rw [getLocalizedContentFor_eq, getLocalizedContentFor_eq, getNode_mapped]
  cases h : getNode st nid? none with
  | none => rfl
  | some nd => rfl

theorem phase1Vars_any (elemId : String) (ps : List Part) (idx : Nat)
    (st : RState) (rng : Rng) (out : List Part × RState × Rng) (q : Part)
    (hql : ∀ s, Part.lit s ≠ q) (hqv : ∀ r, Part.variationB r ≠ q)
    (h : phase1Vars elemId ps idx st rng = some out) :
    out.1.any (fun p => p = q) = ps.any (fun p => p = q) := by
  induction ps generalizing idx st rng out with
  | nil =>
    unfold phase1Vars at h
    cases h
    rfl
  | cons p rest ih =>
    unfold phase1Vars at h
    split at h
    · rename_i raw
      split at h
      · exact Option.noConfusion h
      · rename_i c1 st1 rng1 hrv
        split at h
        · exact Option.noConfusion h
        · rename_i out2 hrec
          rw [Option.some.injEq] at h
          subst h
          simp only [List.any_cons]
          rw [ih _ _ _ _ hrec]
          have h1 : (Part.lit ("<variation>" ++ c1 ++ "</variation>") = q) = False := by
            simp [hql]
          have h2 : (Part.variationB raw = q) = False := by
            simp [hqv]
          simp [h1, h2]
    · rename_i hq
      split at h
      · exact Option.noConfusion h
      · rename_i out2 hrec
        rw [Option.some.injEq] at h
        subst h
        simp only [List.any_cons]
        rw [ih _ _ _ _ hrec]

theorem phase2Conds_any (E : Evaluator) (ps : List Part) (g l : Store)
    (out : List Part × Store × Store) (q : Part)
    (hql : ∀ s, Part.lit s ≠ q) (hqc : ∀ r, Part.condB r ≠ q)
    (h : phase2Conds E ps g l = some out) :
    out.1.any (fun p => p = q) = ps.any (fun p => p = q) := by
  induction ps generalizing g l out with
  | nil =>
    unfold phase2Conds at h
    cases h
    rfl
  | cons p rest ih =>
    unfold phase2Conds at h
    split at h
    · rename_i raw
      split at h
      · exact Option.noConfusion h
      · rename_i s1 g1 l1 hrc
        split at h
        · exact Option.noConfusion h
        · rename_i out2 hrec
          rw [Option.some.injEq] at h
          subst h
          simp only [List.any_cons]
          rw [ih _ _ _ hrec]
          have h1 : (Part.lit s1 = q) = False := by simp [hql]
          have h2 : (Part.condB raw = q) = False := by simp [hqc]
          simp [h1, h2]
    · rename_i hq
      split at h
      · exact Option.noConfusion h
      · rename_i out2 hrec
        rw [Option.some.injEq] at h
        subst h
        simp only [List.any_cons]
        rw [ih _ _ _ hrec]

theorem todoMap_any (ps : List Part) (q : Part)
    (hql : ∀ s, Part.lit s ≠ q) (hqt : ∀ r, Part.todoB r ≠ q) :
    ((ps.map fun p =>
      match p with
      | .todoB _ => Part.lit ""
      | r => r).any (fun p => p = q)) = ps.any (fun p => p = q) := by
  induction ps with
  | nil => rfl
  | cons p rest ih =>
    cases p <;> simp_all [List.any_cons]

theorem parsedTextFinish_shape (E : Evaluator) (elTy : String) (fe : Bool)
    (st : RState) (ps : List Part) (rng : Rng) (t : String) (st2 : RState)
    (rng2 : Rng) (h : parsedTextFinish E elTy fe st ps rng = some (t, st2, rng2)) :
    ∃ g l, st2 = { st with globalVars := g, localVars := l } ∧ rng2 = rng := by
  unfold parsedTextFinish at h
  dsimp only [] at h
  split at h
  · split at h
    · exact Option.noConfusion h
    · rename_i ps5 g5 l5 hp5
      rw [Option.some.injEq, Prod.mk.injEq, Prod.mk.injEq] at h
      exact ⟨g5, l5, h.2.1.symm, h.2.2.symm⟩
  · split at h
    · split at h
      · exact Option.noConfusion h
      · rename_i t5 g5 l5 hp5
        rw [Option.some.injEq, Prod.mk.injEq, Prod.mk.injEq] at h
        exact ⟨g5, l5, h.2.1.symm, h.2.2.symm⟩
    · rw [Option.some.injEq, Prod.mk.injEq, Prod.mk.injEq] at h
      refine ⟨st.globalVars, st.localVars, ?_, h.2.2.symm⟩
      rw [← h.2.1]

theorem markerUpd_flagsOnly (hJ hI : Bool) (eid : String) :
    FlagsOnly (markerUpd hJ hI eid) := by
  intro e
  unfold markerUpd elemUpd
  refine ⟨?_, ?_, ?_, ?_⟩ <;> (repeat' first | split | dsimp only []) <;> rfl

theorem markerUpd_other (hJ hI : Bool) (eid : String) (x : Element)
    (hx : x.id ≠ eid) : markerUpd hJ hI eid x = x := by
  unfold markerUpd elemUpd
  cases hJ <;> cases hI <;> simp [hx]

theorem markerUpd_vh (hJ hI : Bool) (eid : String) (x : Element) :
    (markerUpd hJ hI eid x).visited = x.visited ∧
      (markerUpd hJ hI eid x).wasHiddenBecauseEmpty = x.wasHiddenBecauseEmpty := by
  unfold markerUpd elemUpd
  refine ⟨?_, ?_⟩ <;> (repeat' first | split | dsimp only []) <;> rfl

theorem markerUpd_ifNoMore (hJ hI : Bool) (eid : String) (x : Element)
    (h : hI = false) : (markerUpd hJ hI eid x).ifNoMore = x.ifNoMore := by
  subst h
  unfold markerUpd elemUpd
  (repeat' first | split | dsimp only []) <;> simp_all

theorem rstate_eq_mapped (X st : RState) (φ : Element → Element)
    (v : List Variation) (g l : Store)
    (h1 : X.project = st.project.mapElems φ) (h2 : X.locale = st.locale)
    (h3 : X.selectedFlowId = st.selectedFlowId)
    (h4 : X.selectedNodeId = st.selectedNodeId) (h5 : X.globalVars = g)
    (h6 : X.localVars = l) (h7 : X.variations = v)
    (h8 : X.activeSubFlows = st.activeSubFlows) (h9 : X.isJumping = st.isJumping) :
    X = mapped st φ v g l := by
  cases X
  subst h1 h2 h3 h4 h5 h6 h7 h8 h9
  rfl

theorem markerState_eq (st : RState) (v1 : List Variation) (g2 l2 : Store)
    (eid : String) (bJ bI : Bool) :
    (if bI = true then
       (if bJ = true then
          ({ st with variations := v1, globalVars := g2, localVars := l2 } : RState).updateElement eid (fun e => { e with justOnce := true })
        else
          { st with variations := v1, globalVars := g2, localVars := l2 }).updateElement eid (fun e => { e with ifNoMore := true })
     else
       (if bJ = true then
          ({ st with variations := v1, globalVars := g2, localVars := l2 } : RState).updateElement eid (fun e => { e with justOnce := true })
        else
          { st with variations := v1, globalVars := g2, localVars := l2 })) =
      mapped st (markerUpd bJ bI eid) v1 g2 l2 := by
  cases bJ <;> cases bI <;>
    simp only [if_true, if_false, Bool.true_eq_false, Bool.false_eq_true,
      ite_true, ite_false] <;>
    apply rstate_eq_mapped <;>
    first
      | rfl
      | exact (mapElems_id _).symm
      | (simp only [RState.updateElement, updateElement_eq_mapElems,
          mapElems_comp]
         rfl)

theorem parsedText_shape (E : Evaluator) (st : RState) (el : Element) (fe : Bool)
    (rng : Rng) (t : String) (st2 : RState) (rng2 : Rng)
    (h : parsedText E st (some el) fe rng = some (t, st2, rng2)) :
    ∃ co φ v g l,
      getLocalizedContent st el st.locale = some (some co) ∧
      st2 = mapped st φ v g l ∧
      FlagsOnly φ ∧
      (∀ x : Element, x.id ≠ el.id → φ x = x) ∧
      (∀ x : Element, (φ x).visited = x.visited ∧
        (φ x).wasHiddenBecauseEmpty = x.wasHiddenBecauseEmpty) ∧
      ((co.text.any (fun p => p = Part.ifNoMoreB) = false) →
        ∀ x : Element, (φ x).ifNoMore = x.ifNoMore) := by
  unfold parsedText at h
  dsimp only [] at h
  split at h
  · exact Option.noConfusion h
  · exact Option.noConfusion h
  · rename_i co hco
    split at h
    · exact Option.noConfusion h
    · rename_i ps1 st1 rng1 hp1
      obtain ⟨v1, hv1⟩ := phase1Vars_shape _ _ _ _ _ _ hp1
      simp only [] at hv1
      split at h
      · exact Option.noConfusion h
      · rename_i ps2 g2 l2 hp2
        subst hv1
        set ps3 := ps2.map (fun p =>
          match p with
          | .todoB _ => Part.lit ""
          | q => q) with hps3
        have hanyI : ps3.any (fun p => p = Part.ifNoMoreB) =
            co.text.any (fun p => p = Part.ifNoMoreB) := by
          rw [hps3, todoMap_any _ _ (fun s => by simp) (fun r => by simp),
            phase2Conds_any _ _ _ _ _ _ (fun s => by simp) (fun r => by simp) hp2,
            phase1Vars_any _ _ _ _ _ _ _ (fun s => by simp) (fun r => by simp) hp1]
        simp only [phaseMarkers] at h
        rw [markerState_eq st v1 g2 l2 el.id
          (ps3.any (fun p => p = Part.justOnceB))
          (ps3.any (fun p => p = Part.ifNoMoreB))] at h
        obtain ⟨gF, lF, hst2, hrng⟩ := parsedTextFinish_shape _ _ _ _ _ _ _ _ _ h
        refine ⟨co, markerUpd (ps3.any (fun p => p = Part.justOnceB))
          (ps3.any (fun p => p = Part.ifNoMoreB)) el.id, v1, gF, lF, hco, ?_,
          markerUpd_flagsOnly _ _ _, fun x hx => markerUpd_other _ _ _ x hx,
          fun x => markerUpd_vh _ _ _ x, ?_⟩
        · rw [hst2]
          apply rstate_eq_mapped <;> rfl
        · intro hfalse x
          exact markerUpd_ifNoMore _ _ _ x (by rw [hanyI, hfalse])

theorem mapped_locale (st : RState) (φ v g l) :
    (mapped st φ v g l).locale = st.locale := rfl

theorem mapped_self (st : RState) :
    st = mapped st (fun e => e) st.variations st.globalVars st.localVars := by
  apply rstate_eq_mapped <;> first | rfl | exact (mapElems_id _).symm

theorem mapped_mapped (st : RState) (φ1 : Element → Element) (v1 : List Variation)
    (g1 l1 : Store) (φ2 : Element → Element) (v2 : List Variation) (g2 l2 : Store) :
    mapped (mapped st φ1 v1 g1 l1) φ2 v2 g2 l2 =
      mapped st (fun x => φ2 (φ1 x)) v2 g2 l2 := by
  apply rstate_eq_mapped <;>
    first
      | rfl
      | exact mapElems_comp st.project φ1 φ2

theorem mapped_updateElement (st : RState) (φ : Element → Element)
    (v : List Variation) (g l : Store) (eid : String) (f : Element → Element) :
    (mapped st φ v g l).updateElement eid f =
      mapped st (fun x => elemUpd eid f (φ x)) v g l := by
  apply rstate_eq_mapped <;>
    first
      | rfl
      | (show (st.project.mapElems φ).updateElement eid f =
            st.project.mapElems fun x => elemUpd eid f (φ x)
         rw [updateElement_eq_mapElems, mapElems_comp])

theorem getLocalizedContent_mapped (st : RState) (φ v g l) (el : Element)
    (lc : String) :
    getLocalizedContent (mapped st φ v g l) el lc = getLocalizedContent st el lc := by
  unfold getLocalizedContent
  exact getLocalizedContentFor_mapped st φ v g l (some el.nodeId) el.localizedContents lc

theorem getOriginalText_mapped (st : RState) (φ v g l) (el : Element)
    (c r : Bool) (lc : String) :
    getOriginalText (mapped st φ v g l) el c r lc = getOriginalText st el c r lc := by
  unfold getOriginalText
  rw [getLocalizedContent_mapped]

theorem elemUpd_eq (eid : String) (f : Element → Element) (x : Element)
    (h : x.id = eid) : elemUpd eid f x = f x := by
  unfold elemUpd
  rw [if_pos h]

theorem elemUpd_ne (eid : String) (f : Element → Element) (x : Element)
    (h : x.id ≠ eid) : elemUpd eid f x = x := by
  unfold elemUpd
  rw [if_neg h]

theorem flagsOnly_elemUpd (eid : String) (f : Element → Element)
    (hf : ∀ y : Element, (f y).id = y.id ∧ (f y).nodeId = y.nodeId ∧
      (f y).ty = y.ty ∧ (f y).localizedContents = y.localizedContents) :
    FlagsOnly (elemUpd eid f) := by
  intro x
  unfold elemUpd
  split
  · exact hf x
  · exact ⟨rfl, rfl, rfl, rfl⟩

theorem choiceElemStep_mapped (E : Evaluator) (st0 : RState) (φ : Element → Element)
    (v : List Variation) (g l : Store) (e : Element) (rng : Rng)
    (k : Option Element) (st1 : RState) (rng1 : Rng)
    (hφF : FlagsOnly φ) (hφe : φ e = e)
    (hfind : findElement st0 e.id = some e)
    (hwh : e.wasHiddenBecauseEmpty = false)
    (hv : elemMarker st0 e = false → e.visited = true)
    (hni : elemMarker st0 e = false → contentHasIfNoMore st0 e = false)
    (h : choiceElemStep E (mapped st0 φ v g l) e.id rng = some (k, st1, rng1)) :
    k = none ∧ ∃ φ2 v2 g2 l2, st1 = mapped st0 φ2 v2 g2 l2 ∧ FlagsOnly φ2 ∧
      (∀ x : Element, x.id ≠ e.id → φ2 x = φ x) ∧
      ((φ2 e).ifNoMore = if elemMarker st0 e = true then true else e.ifNoMore) := by
  unfold choiceElemStep at h
  rw [findElement_mapped st0 φ v g l e.id (fun x => (hφF x).1), hfind] at h
  dsimp only [Option.map] at h
  rw [hφe] at h
  rw [mapped_locale, getOriginalText_mapped] at h
  split at h
  · exact Option.noConfusion h
  · rename_i content hcontent
    have hmEq : elemMarker st0 e = containsStr content "[+]" := by
      unfold elemMarker
      rw [hcontent]
    by_cases hty : e.ty = "Text" ∨ e.ty = "Choice"
    · rw [if_pos hty] at h
      cases hpt : parsedText E (mapped st0 φ v g l) (some e) false rng with
      | none =>
        rw [hpt] at h
        exact Option.noConfusion h
      | some trip =>
        obtain ⟨text, stp, rngp⟩ := trip
        rw [hpt] at h
        obtain ⟨co, φp, vp, gp, lp, hco, hstp, hpF, hpOther, hpVH, hpIfn⟩ :=
          parsedText_shape E (mapped st0 φ v g l) e false rng text stp rngp hpt
        subst hstp
        rw [mapped_mapped] at h
        dsimp only [] at h
        have hFp : FlagsOnly (fun x => φp (φ x)) := flagsOnly_comp hφF hpF
        rw [findElement_mapped st0 _ vp gp lp e.id (fun x => (hFp x).1), hfind] at h
        dsimp only [Option.map, Option.getD] at h
        have hvE : (φp (φ e)).visited = e.visited := by
          rw [hφe]
          rw [← hφe]
          exact (hpVH (φ e)).1
        have hwE : (φp (φ e)).wasHiddenBecauseEmpty = e.wasHiddenBecauseEmpty := by
          rw [hφe]
          rw [← hφe]
          exact (hpVH (φ e)).2
        rw [getLocalizedContent_mapped, mapped_locale] at hco
        have hcoI : contentHasIfNoMore st0 e =
            co.text.any (fun p => p = Part.ifNoMoreB) := by
          unfold contentHasIfNoMore
          rw [hco]
        cases hmc : containsStr content "[+]" with
        | false =>
          have hvis : e.visited = true := hv (hmEq.trans hmc)
          rw [if_neg (show ¬(text = "" ∧ (φp (φ e)).visited = false) by
            rw [hvE, hvis]; simp)] at h
          rw [if_neg (show ¬((φp (φ e)).wasHiddenBecauseEmpty = true ∧ text ≠ "") by
            rw [hwE, hwh]; simp)] at h
          simp only [hmc, Bool.false_eq_true, if_false] at h
          rw [findElement_mapped st0 _ vp gp lp e.id (fun x => (hFp x).1), hfind] at h
          dsimp only [Option.map, Option.getD] at h
          rw [if_pos (show (φp (φ e)).visited = true by rw [hvE]; exact hvis)] at h
          rw [Option.some.injEq, Prod.mk.injEq, Prod.mk.injEq] at h
          refine ⟨h.1.symm, _, vp, gp, lp, h.2.1.symm, hFp, ?_, ?_⟩
          · intro x hx
            show φp (φ x) = φ x
            exact hpOther (φ x) (by rw [(hφF x).1]; exact hx)
          · rw [hmEq, hmc]
            show (φp (φ e)).ifNoMore = _
            rw [hpIfn (hcoI ▸ hni (hmEq.trans hmc)) (φ e), hφe]
            simp
        | true =>
          have hid1 : (φp (φ e)).id = e.id := (hFp e).1
          by_cases hie : text = "" ∧ (φp (φ e)).visited = false
          · rw [if_pos hie] at h
            rw [mapped_updateElement] at h
            simp only [hmc, if_true] at h
            rw [mapped_updateElement] at h
            have hF1 : FlagsOnly (fun x => elemUpd e.id
                (fun y => { y with visited := true, wasHiddenBecauseEmpty := true })
                (φp (φ x))) :=
              flagsOnly_comp hFp (flagsOnly_elemUpd _ _ (fun y => ⟨rfl, rfl, rfl, rfl⟩))
            have hF2 : FlagsOnly (fun x => elemUpd e.id
                (fun y => { y with ifNoMore := true, visited := true })
                (elemUpd e.id
                  (fun y => { y with visited := true, wasHiddenBecauseEmpty := true })
                  (φp (φ x)))) :=
              flagsOnly_comp hF1 (flagsOnly_elemUpd _ _ (fun y => ⟨rfl, rfl, rfl, rfl⟩))
            have hid2 : (elemUpd e.id
                (fun y => { y with visited := true, wasHiddenBecauseEmpty := true })
                (φp (φ e))).id = e.id := by
              rw [elemUpd_eq _ _ _ hid1]
              exact hid1
            rw [findElement_mapped st0 _ vp gp lp e.id (fun x => (hF2 x).1), hfind] at h
            dsimp only [Option.map, Option.getD] at h
            rw [if_pos (show (elemUpd e.id
                (fun y => { y with ifNoMore := true, visited := true })
                (elemUpd e.id
                  (fun y => { y with visited := true, wasHiddenBecauseEmpty := true })
                  (φp (φ e)))).visited = true by
              rw [elemUpd_eq _ _ _ hid2])] at h
            rw [Option.some.injEq, Prod.mk.injEq, Prod.mk.injEq] at h
            refine ⟨h.1.symm, _, vp, gp, lp, h.2.1.symm, hF2, ?_, ?_⟩
            · intro x hx
              show elemUpd e.id
                (fun y => { y with ifNoMore := true, visited := true })
                (elemUpd e.id
                  (fun y => { y with visited := true, wasHiddenBecauseEmpty := true })
                  (φp (φ x))) = φ x
              rw [elemUpd_ne _ _ _ (by rw [(hF1 x).1]; exact hx),
                elemUpd_ne _ _ _ (by rw [(hFp x).1]; exact hx),
                hpOther (φ x) (by rw [(hφF x).1]; exact hx)]
            · rw [hmEq, hmc]
              show (elemUpd e.id
                (fun y => { y with ifNoMore := true, visited := true })
                (elemUpd e.id
                  (fun y => { y with visited := true, wasHiddenBecauseEmpty := true })
                  (φp (φ e)))).ifNoMore = _
              rw [elemUpd_eq _ _ _ hid2]
              rfl
          · rw [if_neg hie] at h
            rw [if_neg (show ¬((φp (φ e)).wasHiddenBecauseEmpty = true ∧ text ≠ "") by
              rw [hwE, hwh]; simp)] at h
            simp only [hmc, if_true] at h
            rw [mapped_updateElement] at h
            have hF2 : FlagsOnly (fun x => elemUpd e.id
                (fun y => { y with ifNoMore := true, visited := true }) (φp (φ x))) :=
              flagsOnly_comp hFp (flagsOnly_elemUpd _ _ (fun y => ⟨rfl, rfl, rfl, rfl⟩))
            rw [findElement_mapped st0 _ vp gp lp e.id (fun x => (hF2 x).1), hfind] at h
            dsimp only [Option.map, Option.getD] at h
            rw [if_pos (show (elemUpd e.id
                (fun y => { y with ifNoMore := true, visited := true })
                (φp (φ e))).visited = true by
              rw [elemUpd_eq _ _ _ hid1])] at h
            rw [Option.some.injEq, Prod.mk.injEq, Prod.mk.injEq] at h
            refine ⟨h.1.symm, _, vp, gp, lp, h.2.1.symm, hF2, ?_, ?_⟩
            · intro x hx
              show elemUpd e.id
                (fun y => { y with ifNoMore := true, visited := true })
                (φp (φ x)) = φ x
              rw [elemUpd_ne _ _ _ (by rw [(hFp x).1]; exact hx),
                hpOther (φ x) (by rw [(hφF x).1]; exact hx)]
            · rw [hmEq, hmc]
              show (elemUpd e.id
                (fun y => { y with ifNoMore := true, visited := true })
                (φp (φ e))).ifNoMore = _
              rw [elemUpd_eq _ _ _ hid1]
              rfl
    · rw [if_neg hty] at h
      dsimp only [] at h
      cases hmc : containsStr content "[+]" with
      | true =>
        simp only [hmc, if_true] at h
        rw [mapped_updateElement] at h
        have hF2 : FlagsOnly (fun x =>
            elemUpd e.id (fun y => { y with ifNoMore := true, visited := true }) (φ x)) :=
          flagsOnly_comp hφF (flagsOnly_elemUpd _ _ (fun y => ⟨rfl, rfl, rfl, rfl⟩))
        rw [findElement_mapped st0 _ v g l e.id (fun x => (hF2 x).1), hfind] at h
        try dsimp only [Option.map, Option.getD] at h
        rw [hφe, elemUpd_eq _ _ _ rfl] at h
        rw [if_pos rfl] at h
        rw [Option.some.injEq, Prod.mk.injEq, Prod.mk.injEq] at h
        refine ⟨h.1.symm, _, v, g, l, h.2.1.symm, hF2, ?_, ?_⟩
        · intro x hx
          show elemUpd e.id (fun y => { y with ifNoMore := true, visited := true })
            (φ x) = φ x
          exact elemUpd_ne _ _ _ (by rw [(hφF x).1]; exact hx)
        · rw [hmEq, hmc]
          show (elemUpd e.id (fun y => { y with ifNoMore := true, visited := true })
            (φ e)).ifNoMore = _
          rw [hφe, elemUpd_eq _ _ _ rfl]
          rfl
      | false =>
        simp only [hmc, Bool.false_eq_true, if_false] at h
        rw [findElement_mapped st0 φ v g l e.id (fun x => (hφF x).1), hfind] at h
        try dsimp only [Option.map, Option.getD] at h
        rw [hφe] at h
        have hvis : e.visited = true := hv (hmEq.trans hmc)
        rw [if_pos hvis] at h
        rw [Option.some.injEq, Prod.mk.injEq, Prod.mk.injEq] at h
        refine ⟨h.1.symm, φ, v, g, l, h.2.1.symm, hφF, fun x _ => rfl, ?_⟩
        rw [hφe, hmEq, hmc]
        rfl

theorem choicesAux_exhausted (E : Evaluator) (st0 : RState) :
    ∀ (els : List Element) (φ : Element → Element) (v : List Variation)
      (g l : Store) (rng : Rng) (kept res : List Element) (stF : RState)
      (rngF : Rng),
      FlagsOnly φ →
      (∀ e ∈ els, φ e = e) →
      (∀ e ∈ els, findElement st0 e.id = some e) →
      (∀ e ∈ els, e.wasHiddenBecauseEmpty = false) →
      (∀ e ∈ els, elemMarker st0 e = false →
        e.visited = true ∧ contentHasIfNoMore st0 e = false) →
      (els.map (fun e => e.id)).Nodup →
      getAvailableChoicesAux E (els.map (fun e => e.id)) kept
        (mapped st0 φ v g l) rng = some (res, stF, rngF) →
      res = kept ∧ ∃ φF vF gF lF, stF = mapped st0 φF vF gF lF ∧ FlagsOnly φF ∧
        (∀ x : Element, (∀ e ∈ els, x.id ≠ e.id) → φF x = φ x) ∧
        ∀ e ∈ els, (φF e).ifNoMore =
          (if elemMarker st0 e = true then true else e.ifNoMore) := by
  intro els
  induction els with
  | nil =>
    intro φ v g l rng kept res stF rngF hF _ _ _ _ _ h
    simp only [List.map_nil] at h
    unfold getAvailableChoicesAux at h
    rw [Option.some.injEq, Prod.mk.injEq, Prod.mk.injEq] at h
    exact ⟨h.1.symm, φ, v, g, l, h.2.1.symm, hF, fun x _ => rfl, fun e he => absurd he (List.not_mem_nil e)⟩
  | cons e rest ih =>
    intro φ v g l rng kept res stF rngF hF hid hfind hwh hnm hnd h
    simp only [List.map_cons] at h
    unfold getAvailableChoicesAux at h
    split at h
    · exact Option.noConfusion h
    · rename_i k st1 rng1 hstep
      obtain ⟨hk, φ2, v2, g2, l2, hst1, hF2, hpres, hout⟩ :=
        choiceElemStep_mapped E st0 φ v g l e rng k st1 rng1 hF
          (hid e (List.mem_cons_self e rest))
          (hfind e (List.mem_cons_self e rest))
          (hwh e (List.mem_cons_self e rest))
          (fun hm => (hnm e (List.mem_cons_self e rest) hm).1)
          (fun hm => (hnm e (List.mem_cons_self e rest) hm).2)
          hstep
      subst hk
      subst hst1
      dsimp only [] at h
      simp only [List.map_cons] at hnd
      rw [List.nodup_cons] at hnd
      have hrestne : ∀ e' ∈ rest, e'.id ≠ e.id := by
        intro e' he' hc
        exact hnd.1 (hc ▸ List.mem_map_of_mem (fun x => x.id) he')
      obtain ⟨hres, φF, vF, gF, lF, hstF, hFF, hpresF, houtF⟩ :=
        ih φ2 v2 g2 l2 rng1 kept res stF rngF hF2
          (fun e' he' => (hpres e' (hrestne e' he')).trans
            (hid e' (List.mem_cons_of_mem e he')))
          (fun e' he' => hfind e' (List.mem_cons_of_mem e he'))
          (fun e' he' => hwh e' (List.mem_cons_of_mem e he'))
          (fun e' he' => hnm e' (List.mem_cons_of_mem e he'))
          hnd.2 h
      refine ⟨hres, φF, vF, gF, lF, hstF, hFF, ?_, ?_⟩
      · intro x hx
        rw [hpresF x (fun e' he' => hx e' (List.mem_cons_of_mem e he')),
          hpres x (hx e (List.mem_cons_self e rest))]
      · intro e' he'
        rcases List.mem_cons.mp he' with he' | he'
        · subst he'
          rw [hpresF e' (fun e'' he'' hc => hrestne e'' he'' hc.symm)]
          exact hout
        · exact houtF e' he'

theorem filterMap_ids (l : List Element) (f : Element → Element)
    (p q : Element → Bool)
    (h : ∀ e ∈ l, p (f e) = q e) (hid : ∀ e ∈ l, (f e).id = e.id) :
    ((l.map f).filter p).map (fun e => e.id) =
      (l.filter q).map (fun e => e.id) := by
  induction l with
  | nil => rfl
  | cons e rest ih =>
    simp only [List.map_cons, List.filter_cons, h e (List.mem_cons_self e rest)]
    have ihr := ih (fun e' he' => h e' (List.mem_cons_of_mem e he'))
      (fun e' he' => hid e' (List.mem_cons_of_mem e he'))
    cases hq : q e with
    | true =>
      simp only [if_true, List.map_cons, hid e (List.mem_cons_self e rest), ihr]
    | false =>
      simp only [Bool.false_eq_true, if_false, ihr]

/-- C6 (amended): at a Choice node where every non-`[+]` element is already
visited, carries no hidden-because-empty flag, has no `[+]` part in its
content and a clear `if_no_more` flag, a successful `getAvailableChoices`
returns exactly the `[+]`-marked elements. -/
theorem c6_choice_exhaustion_fallback (E : Evaluator) (st : RState) (node : Node)
    (rng : Rng) (res : List Element) (st2 : RState) (rng2 : Rng)
    (hnode : getNode st (some node.id) none = some (some node))
    (hnd : (node.elements.map (fun e => e.id)).Nodup)
    (hfind : ∀ e ∈ node.elements, findElement st e.id = some e)
    (hwh : ∀ e ∈ node.elements, e.wasHiddenBecauseEmpty = false)
    (hex : ∀ e ∈ node.elements, elemMarker st e = false →
      e.visited = true ∧ contentHasIfNoMore st e = false ∧ e.ifNoMore = false)
    (h : getAvailableChoices E st (some node.id) rng = some (res, st2, rng2)) :
    res.map (fun e => e.id) =
      (node.elements.filter (fun e => elemMarker st e)).map (fun e => e.id) := by
  unfold getAvailableChoices at h
  rw [hnode] at h
  dsimp only [] at h
  rw [show st = mapped st (fun e => e) st.variations st.globalVars st.localVars from
    mapped_self st] at h
  split at h
  · exact Option.noConfusion h
  · rename_i kept stA rngA haux
    obtain ⟨hkept, φF, vF, gF, lF, hstA, hFF, hpresF, houtF⟩ :=
      choicesAux_exhausted E st node.elements (fun e => e) st.variations
        st.globalVars st.localVars rng [] kept stA rngA flagsOnly_id
        (fun _ _ => rfl) hfind hwh
        (fun e he hm => ⟨(hex e he hm).1, (hex e he hm).2.1⟩) hnd haux
    subst hkept
    rw [if_pos rfl] at h
    rw [Option.some.injEq, Prod.mk.injEq, Prod.mk.injEq] at h
    rw [← h.1]
    subst hstA
    have hne : nodeElems (mapped st φF vF gF lF) node.id = node.elements.map φF := by
      unfold nodeElems
      rw [getNode_mapped, hnode]
      rfl
    rw [hne]
    apply filterMap_ids
    · intro e he
      rw [houtF e he]
      cases hm : elemMarker st e with
      | true => rw [if_pos rfl]
      | false =>
        rw [if_neg (by simp)]
        exact (hex e he hm).2.2
    · intro e he
      exact (hFF e).1

theorem c6_choice_exhaustion_fallback_witness :
    getAvailableChoices evalU choiceDoneState (some nodeC6.id) [] =
      some ([{ elCh2 with ifNoMore := true, visited := true }], c6OutState, []) ∧
    [({ elCh2 with ifNoMore := true, visited := true } : Element)].map
        (fun e => e.id) =
      (nodeC6.elements.filter (fun e => elemMarker choiceDoneState e)).map
        (fun e => e.id) :=
  ⟨by decide,
    c6_choice_exhaustion_fallback evalU choiceDoneState nodeC6 []
      [{ elCh2 with ifNoMore := true, visited := true }] c6OutState []
      (by decide) (by decide) (by decide) (by decide) (by decide) (by decide)⟩

theorem resetNodeVisited_flows (st : RState) (nid : String) :
    (st.resetNodeVisited nid).project.flows =
      st.project.flows.map (flowReset nid) := by
  simp [RState.resetNodeVisited, flowReset, nodeReset]

theorem getSelectedFlow_reset (st : RState) (nid : String) :
    getSelectedFlow (st.resetNodeVisited nid) =
      (getSelectedFlow st).map (flowReset nid) := by
  unfold getSelectedFlow
  rw [resetNodeVisited_flows st nid]
  exact jsFind_map _ _ _ (fun x => rfl)

theorem getNode_reset (st : RState) (nid : String) (nid? : Option String) :
    getNode (st.resetNodeVisited nid) nid? none =
      (getNode st nid? none).map (Option.map (nodeReset nid)) := by
  unfold getNode
  rw [getSelectedFlow_reset]
  cases h : getSelectedFlow st with
  | none => rfl
  | some fl =>
    simp only [Option.map_some]
    have : jsFind (flowReset nid fl).nodes
        (fun n => some n.id = jsOrId nid? (st.resetNodeVisited nid).selectedNodeId) =
        (jsFind fl.nodes (fun n => some n.id = jsOrId nid? st.selectedNodeId)).map
          (nodeReset nid) := by
      refine jsFind_map _ _ _ (fun x => ?_)
      unfold nodeReset
      split <;> rfl
    simp [flowReset] at this ⊢
    rw [this]

theorem filter_unvisited_split (done post : List Element)
    (hdone : ∀ e ∈ done, e.visited = true) (hpost : ∀ e ∈ post, e.visited = false) :
    (done ++ post).filter (fun e => e.visited = false) = post := by
  rw [List.filter_append]
  rw [List.filter_eq_nil_iff.mpr (by intro e he; simp [hdone e he])]
  rw [List.filter_eq_self.mpr (by intro e he; simp [hpost e he])]
  rfl

theorem map_noop (l : List Element) (f : Element → Element)
    (h : ∀ e ∈ l, f e = e) : l.map f = l := by
  induction l with
  | nil => rfl
  | cons e r ih =>
    simp only [List.map_cons, h e (List.mem_cons_self e r),
      ih (fun x hx => h x (List.mem_cons_of_mem e hx))]

theorem map_elemUpd_nodup (done tl : List Element) (el : Element)
    (f : Element → Element)
    (hnd : ((done ++ el :: tl).map (fun e => e.id)).Nodup) :
    (done ++ el :: tl).map (elemUpd el.id f) = done ++ f el :: tl := by
  rw [List.map_append, List.nodup_append] at hnd
  obtain ⟨hndD, hndC, hdisj⟩ := hnd
  have h1 : ∀ e ∈ done, e.id ≠ el.id := fun e he hc =>
    hdisj (List.mem_map_of_mem (fun x => x.id) he)
      (by rw [List.map_cons]; exact hc ▸ List.mem_cons_self _ _)
  have h2 : ∀ e ∈ tl, e.id ≠ el.id := by
    intro e he hc
    rw [List.map_cons, List.nodup_cons] at hndC
    exact hndC.1 (hc ▸ List.mem_map_of_mem (fun x => x.id) he)
  simp only [List.map_append, List.map_cons]
  rw [elemUpd_eq el.id f el rfl,
    map_noop done _ (fun e he => elemUpd_ne el.id f e (h1 e he)),
    map_noop tl _ (fun e he => elemUpd_ne el.id f e (h2 e he))]

theorem loopStep_select (st : RState) (nm : Node) (rng : Rng)
    (done : List Element) (el : Element) (tl : List Element)
    (hty : nm.ty = "Text") (hcy : nm.cycleType = some "Loop")
    (hget : getNode st (some nm.id) none =
      some (some { nm with elements := done ++ el :: tl }))
    (hdone : ∀ e ∈ done, e.visited = true)
    (hpost : ∀ e ∈ el :: tl, e.visited = false) :
    getAvailableNodeElement st (some nm.id) rng =
      some (some (markV el),
        st.updateElement el.id (fun e => { e with visited := true }), rng) := by
  unfold getAvailableNodeElement
  rw [hget]
  split
  · rename_i heq
    exact absurd heq (by simp)
  · rename_i heq
    exact absurd heq (by simp)
  · rename_i node heq
    rw [Option.some.injEq, Option.some.injEq] at heq
    subst heq
    dsimp only []
    rw [hty, hcy, filter_unvisited_split done (el :: tl) hdone hpost]
    rfl

theorem loopReset_select (st : RState) (nm : Node) (rng : Rng) (cur : List Element)
    (el : Element) (tl : List Element)
    (hty : nm.ty = "Text") (hcy : nm.cycleType = some "Loop")
    (hget : getNode st (some nm.id) none = some (some { nm with elements := cur }))
    (hall : ∀ e ∈ cur, e.visited = true)
    (hmap : cur.map (fun e => { e with visited := false }) = el :: tl) :
    getAvailableNodeElement st (some nm.id) rng =
      some (some (markV el),
        (st.resetNodeVisited nm.id).updateElement el.id
          (fun e => { e with visited := true }), rng) := by
  have hav : cur.filter (fun e => e.visited = false) = [] :=
    List.filter_eq_nil_iff.mpr (fun e he => by simp [hall e he])
  have hnr : nodeReset nm.id ({ nm with elements := cur } : Node) =
      { nm with elements := cur.map (fun e => { e with visited := false }) } := by
    unfold nodeReset
    rw [if_pos rfl]
  have hne : nodeElems (st.resetNodeVisited nm.id) nm.id =
      cur.map (fun e => { e with visited := false }) := by
    unfold nodeElems
    rw [getNode_reset, hget]
    dsimp only [Option.map]
    rw [hnr]
  unfold getAvailableNodeElement
  rw [hget]
  split
  · rename_i heq
    exact absurd heq (by simp)
  · rename_i heq
    exact absurd heq (by simp)
  · rename_i node heq
    rw [Option.some.injEq, Option.some.injEq] at heq
    subst heq
    dsimp only []
    rw [hty, hcy, hav, hne, hmap]
    rfl

theorem loop_pass (nm : Node) (hty : nm.ty = "Text")
    (hcy : nm.cycleType = some "Loop") :
    ∀ (post done : List Element) (st : RState) (rng : Rng),
      getNode st (some nm.id) none =
        some (some { nm with elements := done ++ post }) →
      (∀ e ∈ done, e.visited = true) →
      (∀ e ∈ post, e.visited = false) →
      ((done ++ post).map (fun e => e.id)).Nodup →
      ∃ stF, selectSeq nm.id post.length st rng =
          some (post.map markV, stF, rng) ∧
        getNode stF (some nm.id) none =
          some (some { nm with elements := done ++ post.map markV }) := by
  intro post
  induction post with
  | nil =>
    intro done st rng hget _ _ _
    exact ⟨st, rfl, by simpa using hget⟩
  | cons el tl ih =>
    intro done st rng hget hdone hpost hnd
    have hstep := loopStep_select st nm rng done el tl hty hcy hget hdone hpost
    have hget' : getNode
        (st.updateElement el.id (fun e => { e with visited := true }))
        (some nm.id) none =
        some (some { nm with elements := (done ++ [markV el]) ++ tl }) := by
      rw [getNode_updateElement, hget]
      dsimp only [Option.map]
      rw [show nodeUpd el.id (fun e => { e with visited := true })
          ({ nm with elements := done ++ el :: tl } : Node) =
          { nm with elements := (done ++ el :: tl).map (elemUpd el.id (fun e => { e with visited := true })) } from rfl]
      rw [map_elemUpd_nodup done tl el _ hnd]
      rw [show done ++ ({ el with visited := true } : Element) :: tl =
        (done ++ [markV el]) ++ tl by simp [markV]]
    have hdone' : ∀ e ∈ done ++ [markV el], e.visited = true := by
      intro e he
      rcases List.mem_append.mp he with he | he
      · exact hdone e he
      · rw [List.mem_singleton.mp he]
        rfl
    have hnd' : (((done ++ [markV el]) ++ tl).map (fun e => e.id)).Nodup := by
      have heq : ((done ++ [markV el]) ++ tl).map (fun e => e.id) =
          (done ++ el :: tl).map (fun e => e.id) := by
        simp [markV]
      rw [heq]
      exact hnd
    obtain ⟨stF, hsel, hgetF⟩ := ih (done ++ [markV el])
      (st.updateElement el.id (fun e => { e with visited := true })) rng hget'
      hdone' (fun e he => hpost e (List.mem_cons_of_mem el he)) hnd'
    refine ⟨stF, ?_, ?_⟩
    · show selectSeq nm.id (tl.length + 1) st rng = _
      unfold selectSeq
      rw [hstep]
      dsimp only []
      rw [hsel]
      rfl
    · rw [show (done ++ [markV el]) ++ tl.map markV =
        done ++ (el :: tl).map markV by simp] at hgetF
      exact hgetF

theorem selectSeq_append (nid : String) (m n : Nat) :
    ∀ (st : RState) (rng : Rng) (l1 : List Element) (st1 : RState) (rng1 : Rng)
      (l2 : List Element) (st2 : RState) (rng2 : Rng),
      selectSeq nid m st rng = some (l1, st1, rng1) →
      selectSeq nid n st1 rng1 = some (l2, st2, rng2) →
      selectSeq nid (m + n) st rng = some (l1 ++ l2, st2, rng2) := by
  induction m with
  | zero =>
    intro st rng l1 st1 rng1 l2 st2 rng2 h1 h2
    unfold selectSeq at h1
    rw [Option.some.injEq, Prod.mk.injEq, Prod.mk.injEq] at h1
    rw [Nat.zero_add, ← h1.1]
    rw [← h1.2.1, ← h1.2.2] at h2
    simpa using h2
  | succ k ih =>
    intro st rng l1 st1 rng1 l2 st2 rng2 h1 h2
    rw [Nat.succ_add]
    unfold selectSeq at h1
    split at h1
    · rename_i el stA rngA hga
      split at h1
      · rename_i lB stB rngB hsel
        rw [Option.some.injEq, Prod.mk.injEq, Prod.mk.injEq] at h1
        rw [← h1.2.1, ← h1.2.2] at h2
        unfold selectSeq
        rw [hga]
        dsimp only []
        rw [ih stA rngA lB stB rngB l2 st2 rng2 hsel h2]
        rw [← h1.1]
        rfl
      · exact Option.noConfusion h1
    · exact Option.noConfusion h1

theorem unmark_mark (e : Element) (h : e.visited = false) :
    ({ (markV e) with visited := false } : Element) = e := by
  cases e
  simp_all [markV]

/-- C8: a Text node with cycle type `Loop` whose `N` elements start
unvisited (as after `load`) and have distinct ids emits, over `2N`
successive selections, the same element sequence twice: each pass takes the
first unvisited element, and when all are visited every flag is reset and
the selection restarts at the first element. -/
theorem c8_loop_closure (st : RState) (nm : Node) (rng : Rng)
    (el0 : Element) (tl0 : List Element)
    (hty : nm.ty = "Text") (hcy : nm.cycleType = some "Loop")
    (hget : getNode st (some nm.id) none = some (some nm))
    (hunv : ∀ e ∈ nm.elements, e.visited = false)
    (hnd : (nm.elements.map (fun e => e.id)).Nodup)
    (helems : nm.elements = el0 :: tl0) :
    (selectSeq nm.id (2 * nm.elements.length) st rng).map
        (fun r => (r.1, r.2.2)) =
      some (nm.elements.map markV ++ nm.elements.map markV, rng) := by
  have hgetSplit : getNode st (some nm.id) none =
      some (some { nm with elements := [] ++ nm.elements }) := by
    simpa using hget
  obtain ⟨st1, hs1, hg1⟩ := loop_pass nm hty hcy nm.elements [] st rng hgetSplit
    (by intro e he; simp at he) hunv (by simpa using hnd)
  simp only [List.nil_append] at hg1
  have hunmap : (nm.elements.map markV).map (fun e => { e with visited := false }) =
      nm.elements := by
    rw [List.map_map]
    exact map_noop nm.elements _ (fun e he => unmark_mark e (hunv e he))
  have hreset := loopReset_select st1 nm rng (nm.elements.map markV) el0 tl0
    hty hcy hg1
    (by intro e he
        obtain ⟨x, _, hx⟩ := List.mem_map.mp he
        rw [← hx]
        rfl)
    (by rw [hunmap, helems])
  -- the state after the reset selection
  have hg2 : getNode ((st1.resetNodeVisited nm.id).updateElement el0.id
      (fun e => { e with visited := true })) (some nm.id) none =
      some (some { nm with elements := [markV el0] ++ tl0 }) := by
    rw [getNode_updateElement, getNode_reset, hg1]
    dsimp only [Option.map]
    rw [show nodeReset nm.id ({ nm with elements := nm.elements.map markV } : Node) =
        { nm with elements := (nm.elements.map markV).map (fun e => { e with visited := false }) } from by
      unfold nodeReset
      rw [if_pos rfl]]
    rw [hunmap, helems]
    rw [show nodeUpd el0.id (fun e => { e with visited := true })
        ({ nm with elements := el0 :: tl0 } : Node) =
        { nm with elements := (el0 :: tl0).map (elemUpd el0.id (fun e => { e with visited := true })) } from rfl]
    rw [show (el0 :: tl0) = [] ++ el0 :: tl0 from rfl,
      map_elemUpd_nodup [] tl0 el0 _ (by rw [← helems]; simpa using hnd)]
    rfl
  have hndtl : (([markV el0] ++ tl0).map (fun e => e.id)).Nodup := by
    have : ([markV el0] ++ tl0).map (fun e => e.id) =
        (el0 :: tl0).map (fun e => e.id) := by
      simp [markV]
    rw [this, ← helems]
    exact hnd
  obtain ⟨stF, hs2, _⟩ := loop_pass nm hty hcy tl0 [markV el0]
    ((st1.resetNodeVisited nm.id).updateElement el0.id
      (fun e => { e with visited := true })) rng hg2
    (by intro e he
        have he' : e = markV el0 := by simpa using he
        rw [he']
        rfl)
    (fun e he => hunv e (helems ▸ List.mem_cons_of_mem el0 he))
    hndtl
  have hsecond : selectSeq nm.id (tl0.length + 1) st1 rng =
      some (nm.elements.map markV, stF, rng) := by
    unfold selectSeq
    rw [hreset]
    dsimp only []
    rw [hs2, helems]
    rfl
  have hlen : nm.elements.length = tl0.length + 1 := by
    rw [helems]
    rfl
  have htot := selectSeq_append nm.id nm.elements.length (tl0.length + 1) st rng
    (nm.elements.map markV) st1 rng (nm.elements.map markV) stF rng hs1 hsecond
  rw [two_mul, hlen]
  rw [hlen] at htot
  rw [htot]
  rfl

theorem c8_loop_closure_witness :
    (selectSeq nmLoop.id (2 * nmLoop.elements.length) loopState []).map
        (fun r => (r.1, r.2.2)) =
      some (nmLoop.elements.map markV ++ nmLoop.elements.map markV, []) :=
  c8_loop_closure loopState nmLoop [] elLa [elLb] (by decide) (by decide)
    (by decide) (by decide) (by decide) (by decide)

theorem condFold_acc_some (E : Evaluator) (st : RState) (node : Node) :
    ∀ (els : List Element) (c : Connection) (g l : Store),
      condElemsFold E st node els (some c) g l =
        match condEvalStores E st els g l with
        | none => none
        | some (_, g, l) => some (some c, g, l) := by
  intro els
  induction els with
  | nil =>
    intro c g l
    rfl
  | cons e rest ih =>
    intro c g l
    unfold condElemsFold condEvalStores
    cases hot : getOriginalText st e true true st.locale with
    | none => rfl
    | some cond =>
      dsimp only []
      cases hev : E cond g l with
      | none => rfl
      | some t =>
        obtain ⟨v, g1, l1⟩ := t
        dsimp only []
        rw [if_neg (by simp)]
        rw [ih c g1 l1]
        cases hrec : condEvalStores E st rest g1 l1 with
        | none => rfl
        | some out =>
          obtain ⟨vs, g2, l2⟩ := out
          rfl

theorem condFold_eq (E : Evaluator) (st : RState) (node : Node) :
    ∀ (els : List Element) (g l : Store),
      (∀ e ∈ els, (getConnectionsByElementId node e.id).isSome) →
      condElemsFold E st node els none g l =
        match condEvalStores E st els g l with
        | none => none
        | some (vs, g, l) => some (firstTruthy node els vs, g, l) := by
  intro els
  induction els with
  | nil =>
    intro g l _
    rfl
  | cons e rest ih =>
    intro g l hconn
    unfold condElemsFold condEvalStores
    cases hot : getOriginalText st e true true st.locale with
    | none => rfl
    | some cond =>
      dsimp only []
      cases hev : E cond g l with
      | none => rfl
      | some t =>
        obtain ⟨v, g1, l1⟩ := t
        dsimp only []
        by_cases htr : v.truthy = true
        · rw [if_pos (by simp [htr])]
          obtain ⟨c, hc⟩ := Option.isSome_iff_exists.mp
            (hconn e (List.mem_cons_self e rest))
          rw [hc]
          rw [condFold_acc_some E st node rest c g1 l1]
          cases hrec : condEvalStores E st rest g1 l1 with
          | none => rfl
          | some out =>
            obtain ⟨vs, g2, l2⟩ := out
            dsimp only []
            rw [show firstTruthy node (e :: rest) (v :: vs) =
              getConnectionsByElementId node e.id from by
                conv_lhs => unfold firstTruthy
                rw [if_pos htr]]
            rw [hc]
        · rw [if_neg (by simp [htr])]
          rw [ih g1 l1 (fun x hx => hconn x (List.mem_cons_of_mem e hx))]
          cases hrec : condEvalStores E st rest g1 l1 with
          | none => rfl
          | some out =>
            obtain ⟨vs, g2, l2⟩ := out
            dsimp only []
            rw [show firstTruthy node (e :: rest) (v :: vs) =
              firstTruthy node rest vs from by
                conv_lhs => unfold firstTruthy
                rw [if_neg htr]]

/-- C10: at a Condition node (every element of which has an outgoing
connection, the spec's well-formedness invariant), `getAvailableConnections`
evaluates every element's condition in source order — the final stores are
exactly those of evaluating all of them, so later elements' side effects
are applied — while the chosen connection is the first truthy element's,
and the fail-connection is consulted only when no element was truthy. -/
theorem c10_condition_eval_all (E : Evaluator) (st : RState) (node : Node)
    (rng : Rng) (eid? : Option String)
    (hget : getNode st none none = some (some node))
    (hty : node.ty = "Condition")
    (hconn : ∀ e ∈ node.elements, (getConnectionsByElementId node e.id).isSome) :
    getAvailableConnections E eid? st rng =
      match condEvalStores E st node.elements st.globalVars st.localVars with
      | none => none
      | some (vs, g, l) =>
        match firstTruthy node node.elements vs with
        | some c => some (.connC c, { st with globalVars := g, localVars := l }, rng)
        | none =>
          match getFailedConnection node with
          | some c => some (.connC c, { st with globalVars := g, localVars := l }, rng)
          | none => some (.nullC, { st with globalVars := g, localVars := l }, rng) := by
  unfold getAvailableConnections
  rw [hget]
  split
  · rename_i heq
    exact absurd heq (by simp)
  · rename_i heq
    exact absurd heq (by simp)
  · rename_i node2 heq
    rw [Option.some.injEq, Option.some.injEq] at heq
    subst heq
    dsimp only []
    rw [hty]
    rw [condFold_eq E st node node.elements st.globalVars st.localVars hconn]
    cases hrec : condEvalStores E st node.elements st.globalVars st.localVars with
    | none => rfl
    | some out =>
      obtain ⟨vs, g2, l2⟩ := out
      dsimp only []
      cases hft : firstTruthy node node.elements vs with
      | some c => rfl
      | none =>
        dsimp only []
        cases hfc : getFailedConnection node with
        | some c => rfl
        | none => rfl

theorem c10_condition_eval_all_witness :
    (getAvailableConnections evalC10 none condState [] =
      match condEvalStores evalC10 condState nodeC10.elements
          condState.globalVars condState.localVars with
      | none => none
      | some (vs, g, l) =>
        match firstTruthy nodeC10 nodeC10.elements vs with
        | some c => some (ConnRes.connC c,
            { condState with globalVars := g, localVars := l }, [])
        | none =>
          match getFailedConnection nodeC10 with
          | some c => some (ConnRes.connC c,
              { condState with globalVars := g, localVars := l }, [])
          | none => some (ConnRes.nullC,
              { condState with globalVars := g, localVars := l }, [])) ∧
    (getAvailableConnections evalC10 none condState []).map
        (fun r => (r.1, Store.read r.2.1.globalVars "a",
          Store.read r.2.1.globalVars "b", Store.read r.2.1.globalVars "c")) =
      some (ConnRes.connC { nodeElementId := some "d2", toId := "t2" },
        JsVal.num 1, JsVal.num 2, JsVal.num 3) :=
  ⟨c10_condition_eval_all evalC10 condState nodeC10 [] none
      (by decide) (by decide) (by decide),
    by decide⟩

theorem allCongr {α : Type} (p q : α → Bool) :
    ∀ l : List α, (∀ a ∈ l, p a = q a) → l.all p = l.all q := by
  intro l
  induction l with
  | nil =>
    intro _
    rfl
  | cons a r ih =>
    intro h
    rw [List.all_cons, List.all_cons, h a (List.mem_cons_self a r),
      ih (fun x hx => h x (List.mem_cons_of_mem a hx))]

theorem detFlows_nodeMap (flows : List Flow) (g : Node → Node)
    (hg : ∀ n, (g n).ty = n.ty ∧ (g n).cycleType = n.cycleType) :
    detFlows (flows.map (fun fl => { fl with nodes := fl.nodes.map g })) =
      detFlows flows := by
  unfold detFlows
  rw [List.all_map]
  apply allCongr
  intro fl _
  show (fl.nodes.map g).all detNode4 = fl.nodes.all detNode4
  rw [List.all_map]
  apply allCongr
  intro n _
  show detNode4 (g n) = detNode4 n
  unfold detNode4
  rw [(hg n).1, (hg n).2]

theorem DetSt_updateElement (st : RState) (eid : String) (f : Element → Element)
    (h : DetSt st) : DetSt (st.updateElement eid f) := by
  refine ⟨?_, h.2⟩
  show detFlows (st.project.updateElement eid f).flows = true
  rw [updateElement_flows]
  rw [show st.project.flows.map (flowUpd eid f) =
    st.project.flows.map (fun fl => { fl with nodes := fl.nodes.map (nodeUpd eid f) }) from rfl]
  rw [detFlows_nodeMap st.project.flows (nodeUpd eid f) (fun n => ⟨rfl, rfl⟩)]
  exact h.1

theorem DetSt_updateNode (st : RState) (nid : String) (f : Node → Node)
    (hf : ∀ n, (f n).ty = n.ty ∧ (f n).cycleType = n.cycleType)
    (h : DetSt st) : DetSt (st.updateNode nid f) := by
  refine ⟨?_, h.2⟩
  show detFlows (st.project.flows.map (fun fl =>
    { fl with nodes := fl.nodes.map (fun n => if n.id = nid then f n else n) })) = true
  rw [detFlows_nodeMap st.project.flows _ (fun n => by
    constructor <;> (split <;> first | exact (hf n).1 | exact (hf n).2 | rfl))]
  exact h.1

theorem DetSt_resetNodeVisited (st : RState) (nid : String)
    (h : DetSt st) : DetSt (st.resetNodeVisited nid) := by
  refine ⟨?_, h.2⟩
  show detFlows (st.project.flows.map (fun fl =>
    { fl with nodes := fl.nodes.map (fun n => if n.id = nid then
      { n with elements := n.elements.map fun e => { e with visited := false } } else n) })) = true
  rw [detFlows_nodeMap st.project.flows _ (fun n => by
    constructor <;> (split <;> rfl))]
  exact h.1

theorem detVars_updateVariationAt (vars : List Variation) (eid : String)
    (idx : Nat) (nv : List String) (h : detVars vars = true) :
    detVars (updateVariationAt vars eid idx nv) = true := by
  induction vars generalizing idx with
  | nil => exact h
  | cons v rest ih =>
    unfold updateVariationAt
    unfold detVars at h ⊢
    rw [List.all_cons] at h
    obtain ⟨hv, hrest⟩ := Bool.and_eq_true_iff.mp h
    split
    · split
      · rw [List.all_cons]
        exact Bool.and_eq_true_iff.mpr ⟨hv, hrest⟩
      · rw [List.all_cons]
        exact Bool.and_eq_true_iff.mpr ⟨hv, ih _ hrest⟩
    · rw [List.all_cons]
      exact Bool.and_eq_true_iff.mpr ⟨hv, ih _ hrest⟩

theorem relOut_none {α : Type} (r1 r2 : Rng) :
    RelOut (none : Option (α × RState × Rng)) none r1 r2 :=
  Or.inl ⟨rfl, rfl⟩

theorem relOut_some {α : Type} (a : α) (st : RState) (r1 r2 : Rng)
    (h : DetSt st) :
    RelOut (some (a, st, r1)) (some (a, st, r2)) r1 r2 :=
  Or.inr ⟨a, st, rfl, rfl, h⟩

theorem renderVariation_det (st : RState) (eid : String) (idx : Nat)
    (raw : String) (h : DetSt st) (r1 r2 : Rng) :
    RelOut (renderVariation st eid idx raw r1)
      (renderVariation st eid idx raw r2) r1 r2 := by
  unfold renderVariation
  dsimp only []
  cases hpv : (st.variations.filter (fun v => v.elementId = eid)).get? idx with
  | none =>
    exact relOut_none r1 r2
  | some pv =>
    have hpvmem : pv ∈ st.variations :=
      List.mem_of_mem_filter (List.get?_mem hpv)
    have hty : pv.ty ≠ "RND" ∧ pv.ty ≠ "SRND" := by
      have h2 := h.2
      unfold detVars at h2
      have := List.all_eq_true.mp h2 pv hpvmem
      simpa using this
    have hpres : ∀ nv, DetSt { st with
        variations := updateVariationAt st.variations eid idx nv } :=
      fun nv => ⟨h.1, detVars_updateVariationAt st.variations eid idx nv h.2⟩
    dsimp only []
    split
    · -- LIST
      split
      · exact relOut_some _ _ r1 r2 (hpres _)
      · exact relOut_some _ _ r1 r2 (hpres _)
    · -- LOOP
      split
      · exact relOut_some _ _ r1 r2 (hpres _)
      · exact relOut_some _ _ r1 r2 (hpres _)
    · -- RND: excluded
      rename_i hrnd
      exact absurd hrnd hty.1
    · -- SRND: excluded
      rename_i hsrnd
      exact absurd hsrnd hty.2
    · -- default
      exact relOut_some _ _ r1 r2 h

theorem phase1Vars_det (eid : String) :
    ∀ (ps : List Part) (idx : Nat) (st : RState), DetSt st → ∀ (r1 r2 : Rng),
      RelOut (phase1Vars eid ps idx st r1) (phase1Vars eid ps idx st r2) r1 r2 := by
  intro ps
  induction ps with
  | nil =>
    intro idx st h r1 r2
    exact relOut_some [] st r1 r2 h
  | cons p rest ih =>
    intro idx st h r1 r2
    unfold phase1Vars
    split
    · rename_i raw
      rcases renderVariation_det st eid idx raw h r1 r2 with ⟨e1, e2⟩ |
        ⟨c, st1, e1, e2, hd1⟩
      · rw [e1, e2]
        exact relOut_none r1 r2
      · rw [e1, e2]
        dsimp only []
        rcases ih (idx + 1) st1 hd1 r1 r2 with ⟨f1, f2⟩ | ⟨ps2, st2, f1, f2, hd2⟩
        · rw [f1, f2]
          exact relOut_none r1 r2
        · rw [f1, f2]
          exact relOut_some _ st2 r1 r2 hd2
    · rcases ih idx st h r1 r2 with ⟨f1, f2⟩ | ⟨ps2, st2, f1, f2, hd2⟩
      · rw [f1, f2]
        exact relOut_none r1 r2
      · rw [f1, f2]
        exact relOut_some _ st2 r1 r2 hd2

theorem DetSt_phaseMarkers (st : RState) (eid : String) (ps : List Part)
    (h : DetSt st) : DetSt (phaseMarkers st eid ps).2 := by
  unfold phaseMarkers
  dsimp only []
  split <;> split
  · exact DetSt_updateElement _ _ _ (DetSt_updateElement _ _ _ h)
  · exact DetSt_updateElement _ _ _ h
  · exact DetSt_updateElement _ _ _ h
  · exact h

theorem parsedTextFinish_det (E : Evaluator) (elTy : String) (fe : Bool)
    (st : RState) (ps : List Part) (h : DetSt st) (r1 r2 : Rng) :
    RelOut (parsedTextFinish E elTy fe st ps r1)
      (parsedTextFinish E elTy fe st ps r2) r1 r2 := by
  unfold parsedTextFinish
  dsimp only []
  split
  · split
    · exact relOut_none r1 r2
    · exact relOut_some _ _ r1 r2 ⟨h.1, h.2⟩
  · split
    · split
      · exact relOut_none r1 r2
      · exact relOut_some _ _ r1 r2 ⟨h.1, h.2⟩
    · exact relOut_some _ _ r1 r2 h

theorem parsedText_det (E : Evaluator) (st : RState) (el? : Option Element)
    (fe : Bool) (h : DetSt st) (r1 r2 : Rng) :
    RelOut (parsedText E st el? fe r1) (parsedText E st el? fe r2) r1 r2 := by
  unfold parsedText
  cases el? with
  | none => exact relOut_some "" st r1 r2 h
  | some el =>
    dsimp only []
    cases hlc : getLocalizedContent st el st.locale with
    | none => exact relOut_none r1 r2
    | some co? =>
      cases co? with
      | none => exact relOut_none r1 r2
      | some co =>
        dsimp only []
        rcases phase1Vars_det el.id co.text 0 st h r1 r2 with ⟨e1, e2⟩ |
          ⟨ps1, st1, e1, e2, hd1⟩
        · rw [e1, e2]
          exact relOut_none r1 r2
        · rw [e1, e2]
          dsimp only []
          cases hp2 : phase2Conds E ps1 st1.globalVars st1.localVars with
          | none => exact relOut_none r1 r2
          | some out2 =>
            obtain ⟨ps2, g2, l2⟩ := out2
            dsimp only []
            cases hpm : phaseMarkers { st1 with globalVars := g2, localVars := l2 }
              el.id (ps2.map fun p =>
                match p with
                | .todoB _ => Part.lit ""
                | q => q) with
            | mk ps3 stM =>
              have hdM : DetSt stM := by
                have hx := DetSt_phaseMarkers
                  { st1 with globalVars := g2, localVars := l2 } el.id
                  (ps2.map fun p =>
                    match p with
                    | .todoB _ => Part.lit ""
                    | q => q) ⟨hd1.1, hd1.2⟩
                rw [hpm] at hx
                exact hx
              exact parsedTextFinish_det E el.ty fe stM ps3 hdM r1 r2

theorem jsFind_mem {α : Type} (l : List α) (p : α → Bool) (x : α)
    (h : jsFind l p = some x) : x ∈ l := by
  unfold jsFind at h
  have hs : ∀ (l2 : List α) (acc : Option α),
      List.foldl (fun a e => if p e then some e else a) acc l2 = some x →
      x ∈ l2 ∨ acc = some x := by
    intro l2
    induction l2 with
    | nil =>
      intro acc hz
      exact Or.inr hz
    | cons e rest ih =>
      intro acc hz
      rcases ih _ hz with hmem | hacc
      · exact Or.inl (List.mem_cons_of_mem e hmem)
      · dsimp only [] at hacc
        by_cases hp : p e = true
        · rw [if_pos hp] at hacc
          rw [Option.some.injEq] at hacc
          exact Or.inl (hacc ▸ List.mem_cons_self e rest)
        · rw [if_neg hp] at hacc
          exact Or.inr hacc
  rcases hs l none h with hmem | hacc
  · exact hmem
  · exact Option.noConfusion hacc

theorem getFlow_mem (p : Project) (ident : String) (f : Flow)
    (h : getFlow p ident = some f) : f ∈ p.flows := by
  unfold getFlow at h
  split at h
  · rename_i f2 hf2
    rw [Option.some.injEq] at h
    exact h ▸ jsFind_mem _ _ _ hf2
  · split at h
    · rename_i f2 hf2
      rw [Option.some.injEq] at h
      exact h ▸ jsFind_mem _ _ _ hf2
    · exact jsFind_mem _ _ _ h

theorem getSelectedFlow_mem (st : RState) (f : Flow)
    (h : getSelectedFlow st = some f) : f ∈ st.project.flows :=
  jsFind_mem _ _ _ h

theorem detNode_of_getNode (st : RState) (nid? fid? : Option String) (node : Node)
    (hdf : detFlows st.project.flows = true)
    (hget : getNode st nid? fid? = some (some node)) : detNode4 node = true := by
  unfold getNode at hget
  dsimp only [] at hget
  have hflow : ∀ (fl : Flow), fl ∈ st.project.flows →
      jsFind fl.nodes (fun n => some n.id = jsOrId nid? st.selectedNodeId) =
        some node → detNode4 node = true := by
    intro fl hmem hfind
    have hnodes := List.all_eq_true.mp (List.all_eq_true.mp hdf fl hmem)
    exact hnodes node (jsFind_mem _ _ _ hfind)
  split at hget
  · exact Option.noConfusion hget
  · rename_i fl hfl
    injection hget with hget
    have hmem : fl ∈ st.project.flows := by
      split at hfl
      · split at hfl
        · exact getSelectedFlow_mem st fl hfl
        · exact getFlow_mem _ _ _ hfl
      · exact getSelectedFlow_mem st fl hfl
    exact hflow fl hmem hget

theorem getAvailableNodeElement_det (st : RState) (nodeId? : Option String)
    (h : DetSt st) (r1 r2 : Rng) :
    RelOut (getAvailableNodeElement st nodeId? r1)
      (getAvailableNodeElement st nodeId? r2) r1 r2 := by
  unfold getAvailableNodeElement
  cases hget : getNode st nodeId? none with
  | none => exact relOut_none r1 r2
  | some node? =>
    cases node? with
    | none => exact relOut_none r1 r2
    | some node =>
      have hdet4 : detNode4 node = true := detNode_of_getNode st nodeId? none node h.1 hget
      unfold detNode4 at hdet4
      rw [decide_eq_true_eq] at hdet4
      obtain ⟨hty, hcyR, hcyS⟩ := hdet4
      dsimp only []
      split
      · -- Text node: the cycle-type switch
        split
        · -- List
          split
          · exact relOut_none r1 r2
          · exact relOut_some _ _ r1 r2 (DetSt_updateElement st _ _ h)
        · -- Smart Random: excluded
          rename_i hcy
          rw [hcy] at hcyS
          simp at hcyS
        · -- Random: excluded
          rename_i hcy
          rw [hcy] at hcyR
          simp at hcyR
        · -- Loop
          split
          · exact relOut_none r1 r2
          · refine relOut_some _ _ r1 r2 (DetSt_updateElement _ _ _ ?_)
            split
            · exact DetSt_resetNodeVisited st node.id h
            · exact h
        · -- other cycle types
          exact relOut_some _ _ r1 r2 h
      · exact relOut_some _ _ r1 r2 h

theorem getParsedText_det (E : Evaluator) (st : RState) (el? : Option Element)
    (fe : Bool) (h : DetSt st) (r1 r2 : Rng) :
    RelOut (getParsedText E st el? fe r1) (getParsedText E st el? fe r2) r1 r2 := by
  unfold getParsedText
  cases el? with
  | some el =>
    dsimp only []
    rcases parsedText_det E st (some el) fe h r1 r2 with ⟨e1, e2⟩ |
      ⟨t, st1, e1, e2, hd1⟩
    · rw [e1, e2]
      exact relOut_none r1 r2
    · rw [e1, e2]
      exact relOut_some _ _ r1 r2 hd1
  | none =>
    dsimp only []
    rcases getAvailableNodeElement_det st none h r1 r2 with ⟨e1, e2⟩ |
      ⟨sel, st1, e1, e2, hd1⟩
    · rw [e1, e2]
      exact relOut_none r1 r2
    · rw [e1, e2]
      dsimp only []
      rcases parsedText_det E st1 sel fe hd1 r1 r2 with ⟨f1, f2⟩ |
        ⟨t, st2, f1, f2, hd2⟩
      · rw [f1, f2]
        exact relOut_none r1 r2
      · rw [f1, f2]
        exact relOut_some _ _ r1 r2 hd2

theorem choiceElemStep_det (E : Evaluator) (st : RState) (eid : String)
    (h : DetSt st) (r1 r2 : Rng) :
    RelOut (choiceElemStep E st eid r1) (choiceElemStep E st eid r2) r1 r2 := by
  unfold choiceElemStep
  cases hfe : findElement st eid with
  | none => exact relOut_none r1 r2
  | some e =>
    dsimp only []
    cases hot : getOriginalText st e false false st.locale with
    | none => exact relOut_none r1 r2
    | some content =>
      dsimp only []
      by_cases hty : e.ty = "Text" ∨ e.ty = "Choice"
      · rw [if_pos hty, if_pos hty]
        rcases parsedText_det E st (some e) false h r1 r2 with ⟨e1, e2⟩ |
          ⟨t, st1, e1, e2, hd1⟩
        · rw [e1, e2]
          dsimp only []
          exact relOut_none r1 r2
        · rw [e1, e2]
          dsimp only []
          refine relOut_some _ _ r1 r2 ?_
          (repeat' first | split | apply DetSt_updateElement) <;> exact hd1
      · rw [if_neg hty, if_neg hty]
        dsimp only []
        refine relOut_some _ _ r1 r2 ?_
        (repeat' first | split | apply DetSt_updateElement) <;> exact h

theorem getAvailableChoicesAux_det (E : Evaluator) :
    ∀ (eids : List String) (kept : List Element) (st : RState), DetSt st →
      ∀ (r1 r2 : Rng),
      RelOut (getAvailableChoicesAux E eids kept st r1)
        (getAvailableChoicesAux E eids kept st r2) r1 r2 := by
  intro eids
  induction eids with
  | nil =>
    intro kept st h r1 r2
    exact relOut_some kept st r1 r2 h
  | cons eid rest ih =>
    intro kept st h r1 r2
    unfold getAvailableChoicesAux
    rcases choiceElemStep_det E st eid h r1 r2 with ⟨e1, e2⟩ |
      ⟨keep?, st1, e1, e2, hd1⟩
    · rw [e1, e2]
      exact relOut_none r1 r2
    · rw [e1, e2]
      dsimp only []
      exact ih _ st1 hd1 r1 r2

theorem getAvailableChoices_det (E : Evaluator) (st : RState)
    (nodeId? : Option String) (h : DetSt st) (r1 r2 : Rng) :
    RelOut (getAvailableChoices E st nodeId? r1)
      (getAvailableChoices E st nodeId? r2) r1 r2 := by
  unfold getAvailableChoices
  cases hget : getNode st nodeId? none with
  | none => exact relOut_none r1 r2
  | some node? =>
    cases node? with
    | none => exact relOut_none r1 r2
    | some node =>
      dsimp only []
      rcases getAvailableChoicesAux_det E (node.elements.map fun e => e.id) []
        st h r1 r2 with ⟨e1, e2⟩ | ⟨kept, st1, e1, e2, hd1⟩
      · rw [e1, e2]
        exact relOut_none r1 r2
      · rw [e1, e2]
        dsimp only []
        split
        · exact relOut_some _ _ r1 r2 hd1
        · exact relOut_some _ _ r1 r2 hd1

theorem varsElemsFold_det (E : Evaluator) :
    ∀ (eids : List String) (st : RState), DetSt st → ∀ (r1 r2 : Rng),
      (varsElemsFold E eids st r1 = none ∧ varsElemsFold E eids st r2 = none) ∨
        ∃ st1, varsElemsFold E eids st r1 = some (st1, r1) ∧
          varsElemsFold E eids st r2 = some (st1, r2) ∧ DetSt st1 := by
  intro eids
  induction eids with
  | nil =>
    intro st h r1 r2
    exact Or.inr ⟨st, rfl, rfl, h⟩
  | cons eid rest ih =>
    intro st h r1 r2
    unfold varsElemsFold
    cases hfe : findElement st eid with
    | none => exact Or.inl ⟨rfl, rfl⟩
    | some e =>
      dsimp only []
      rcases parsedText_det E st (some e) false h r1 r2 with ⟨e1, e2⟩ |
        ⟨t, st1, e1, e2, hd1⟩
      · rw [e1, e2]
        exact Or.inl ⟨rfl, rfl⟩
      · rw [e1, e2]
        dsimp only []
        exact ih st1 hd1 r1 r2

theorem getAvailableConnections_det (E : Evaluator) (eid? : Option String)
    (st : RState) (h : DetSt st) (r1 r2 : Rng) :
    RelOut (getAvailableConnections E eid? st r1)
      (getAvailableConnections E eid? st r2) r1 r2 := by
  unfold getAvailableConnections
  cases hget : getNode st none none with
  | none => exact relOut_none r1 r2
  | some node? =>
    cases node? with
    | none => exact relOut_none r1 r2
    | some node =>
      have hdet4 := detNode_of_getNode st none none node h.1 hget
      unfold detNode4 at hdet4
      rw [decide_eq_true_eq] at hdet4
      obtain ⟨htyR, hcyR, hcyS⟩ := hdet4
      dsimp only []
      split
      · -- Start
        split <;> exact relOut_some _ _ r1 r2 h
      · -- Text
        split <;> exact relOut_some _ _ r1 r2 h
      · -- Note
        split <;> exact relOut_some _ _ r1 r2 h
      · -- Layout
        split <;> exact relOut_some _ _ r1 r2 h
      · -- SubFlow
        (repeat' split) <;> exact relOut_some _ _ r1 r2 ⟨h.1, h.2⟩
      · -- Choice
        split <;> exact relOut_some _ _ r1 r2 h
      · -- Condition
        cases hcf : condElemsFold E st node node.elements none st.globalVars
            st.localVars with
        | none => exact relOut_none r1 r2
        | some out =>
          obtain ⟨acc, g2, l2⟩ := out
          dsimp only []
          cases acc with
          | some c => exact relOut_some _ _ r1 r2 ⟨h.1, h.2⟩
          | none =>
            dsimp only []
            split <;> exact relOut_some _ _ r1 r2 ⟨h.1, h.2⟩
      · -- Variables
        rcases varsElemsFold_det E (node.elements.map fun e => e.id) st h r1 r2
          with ⟨e1, e2⟩ | ⟨st1, e1, e2, hd1⟩
        · rw [e1, e2]
          dsimp only []
          exact relOut_none r1 r2
        · rw [e1, e2]
          dsimp only []
          split <;> exact relOut_some _ _ r1 r2 hd1
      · -- Random: excluded
        rename_i hR
        exact absurd hR htyR
      · -- Sequence
        split
        · -- cycle List
          (repeat' split) <;>
            first
              | exact relOut_none r1 r2
              | exact relOut_some _ _ r1 r2 (DetSt_updateElement _ _ _ h)
              | exact relOut_some _ _ r1 r2 h
        · -- cycle Loop
          (repeat' split) <;>
            first
              | exact relOut_none r1 r2
              | exact relOut_some _ _ r1 r2 (DetSt_updateElement _ _ _ h)
              | exact relOut_some _ _ r1 r2 (DetSt_resetNodeVisited st _ h)
              | exact relOut_some _ _ r1 r2 h
        · -- cycle Random: excluded
          rename_i hcy
          rw [hcy] at hcyR
          simp at hcyR
        · -- cycle Smart Random: excluded
          rename_i hcy
          rw [hcy] at hcyS
          simp at hcyS
        · exact relOut_some _ _ r1 r2 h
      · -- JumpToNode
        split
        · exact relOut_none r1 r2
        · exact relOut_some _ _ r1 r2 ⟨h.1, h.2⟩
      · exact relOut_some _ _ r1 r2 h

theorem DetSt_start (st st2 : RState) (nodeId? flowName? : Option String)
    (h : DetSt st) (hs : start st nodeId? flowName? = some st2) : DetSt st2 := by
  unfold start at hs
  dsimp only [] at hs
  split at hs
  · exact Option.noConfusion hs
  · split at hs
    · exact Option.noConfusion hs
    · split at hs
      · exact Option.noConfusion hs
      · split at hs
        · split at hs
          · exact Option.noConfusion hs
          · injection hs with hs
            rw [← hs]
            exact ⟨h.1, h.2⟩
        · injection hs with hs
          rw [← hs]
          exact ⟨h.1, h.2⟩

theorem relStep_none (r1 r2 : Rng) : RelStep none none r1 r2 :=
  Or.inl ⟨rfl, rfl⟩

theorem relStep_done (o : NextOutcome) (st : RState) (r1 r2 : Rng)
    (h : DetSt st) :
    RelStep (some (.doneR o st r1)) (some (.doneR o st r2)) r1 r2 :=
  Or.inr (Or.inl ⟨o, st, rfl, rfl, h⟩)

theorem relStep_again (st : RState) (r1 r2 : Rng) (h : DetSt st) :
    RelStep (some (.againR st r1)) (some (.againR st r2)) r1 r2 :=
  Or.inr (Or.inr ⟨st, rfl, rfl, h⟩)

theorem relStep_finish (st : RState) (r1 r2 : Rng) (c t : Node) (h : DetSt st) :
    RelStep (some (finishStep st r1 c t)) (some (finishStep st r2 c t)) r1 r2 := by
  unfold finishStep
  split
  · exact relStep_again _ r1 r2 ⟨h.1, h.2⟩
  · exact relStep_done _ _ r1 r2 ⟨h.1, h.2⟩

theorem nextNodeAdvance_det (E : Evaluator) (currentNode : Node)
    (st : RState) (hd : DetSt st) (s1 s2 : Rng) :
    RelStep (nextNodeAdvance E currentNode st s1)
      (nextNodeAdvance E currentNode st s2) s1 s2 := by
  unfold nextNodeAdvance
  cases hgn : getNode st st.selectedNodeId none with
  | none => exact relStep_none s1 s2
  | some node? =>
    cases node? with
    | none => exact relStep_none s1 s2
    | some targetNode =>
      dsimp only []
      have hd2 : DetSt (st.updateNode targetNode.id fun n =>
          { n with previousNodeId := some currentNode.id }) :=
        DetSt_updateNode _ _ _ (fun n => ⟨rfl, rfl⟩) hd
      by_cases htc : targetNode.ty = "Choice"
      · rw [if_pos htc, if_pos htc]
        rcases getAvailableChoices_det E _ (some targetNode.id) hd2 s1 s2 with
          ⟨f1, f2⟩ | ⟨choices, stE, f1, f2, hdE⟩
        · rw [f1, f2]
          exact relStep_none s1 s2
        · rw [f1, f2]
          dsimp only []
          by_cases hch : choices = []
          · rw [if_pos hch, if_pos hch]
            cases hfc : getFailedConnection targetNode with
            | none => exact relStep_finish stE s1 s2 _ _ hdE
            | some c =>
              dsimp only []
              cases hgn3 : getNode { stE with selectedNodeId := some c.toId }
                  (some c.toId) none with
              | none => exact relStep_none s1 s2
              | some tn? =>
                cases tn? with
                | none => exact relStep_none s1 s2
                | some tn =>
                  exact relStep_again _ s1 s2
                    (DetSt_updateNode _ _ _ (fun n => ⟨rfl, rfl⟩) ⟨hdE.1, hdE.2⟩)
          · rw [if_neg hch, if_neg hch]
            exact relStep_finish stE s1 s2 _ _ hdE
      · rw [if_neg htc, if_neg htc]
        exact relStep_finish _ s1 s2 _ _ hd2

theorem nextNodeTail_det (E : Evaluator) (currentNode : Node) (cn : ConnRes)
    (stC : RState) (hdC : DetSt stC) (s1 s2 : Rng) :
    RelStep (nextNodeTail E currentNode cn stC s1)
      (nextNodeTail E currentNode cn stC s2) s1 s2 := by
  unfold nextNodeTail
  by_cases hcf : connFalsy cn = true ∧ currentNode.ty ≠ "JumpToNode"
  · rw [if_pos hcf, if_pos hcf]
    cases hsf : stC.activeSubFlows with
    | nil => exact relStep_done _ _ s1 s2 ⟨hdC.1, hdC.2⟩
    | cons sf rest =>
      dsimp only []
      cases hss : (if sf.1 ≠ stC.selectedFlowId then
          start stC (some sf.2) (some sf.1) else some stC) with
      | none => exact relStep_none s1 s2
      | some stD =>
        have hdD : DetSt stD := by
          split at hss
          · exact DetSt_start stC stD _ _ hdC hss
          · injection hss with hss
            rw [← hss]
            exact hdC
        exact relStep_again _ s1 s2 ⟨hdD.1, hdD.2⟩
  · rw [if_neg hcf, if_neg hcf]
    dsimp only []
    apply nextNodeAdvance_det
    split
    · split <;> exact ⟨hdC.1, hdC.2⟩
    · exact hdC

theorem nextNodeStep_det (E : Evaluator) (eid? : Option String) (st : RState)
    (h : DetSt st) (r1 r2 : Rng) :
    RelStep (nextNodeStep E eid? st r1) (nextNodeStep E eid? st r2) r1 r2 := by
  unfold nextNodeStep
  by_cases hend : st.selectedNodeId = some "THE END"
  · rw [if_pos hend, if_pos hend]
    exact relStep_done _ _ r1 r2 h
  · rw [if_neg hend, if_neg hend]
    dsimp only []
    cases hq : (if st.selectedNodeId = none then
        match getNodesByType st "Start" with
        | none => none
        | some starts =>
          match starts.head? with
          | none => none
          | some s => some { st with selectedNodeId := some s.id }
      else some st) with
    | none => exact relStep_none r1 r2
    | some stA =>
      have hdA : DetSt stA := by
        split at hq
        · split at hq
          · exact Option.noConfusion hq
          · split at hq
            · exact Option.noConfusion hq
            · injection hq with hq
              rw [← hq]
              exact ⟨h.1, h.2⟩
        · injection hq with hq
          rw [← hq]
          exact h
      dsimp only []
      cases hgn : getNode stA stA.selectedNodeId (some stA.selectedFlowId) with
      | none => exact relStep_none r1 r2
      | some node? =>
        cases node? with
        | none => exact relStep_none r1 r2
        | some currentNode =>
          dsimp only []
          cases hne : getNodeElement stA currentNode.id eid? with
          | none => exact relStep_none r1 r2
          | some nodeElement? =>
            dsimp only []
            rcases getAvailableConnections_det E eid? stA hdA r1 r2 with
              ⟨e1, e2⟩ | ⟨conn0, stB, e1, e2, hdB⟩
            · rw [e1, e2]
              exact relStep_none r1 r2
            · rw [e1, e2]
              dsimp only []
              by_cases hbc : currentNode.ty = "Choice" ∧ stB.isJumping = false
              · rw [if_pos hbc, if_pos hbc]
                cases nodeElement? with
                | none =>
                  dsimp only []
                  rcases getParsedText_det E stB none true hdB r1 r2 with
                    ⟨f1, f2⟩ | ⟨t, stC, f1, f2, hdC⟩
                  · rw [f1, f2]
                    exact relStep_none r1 r2
                  · rw [f1, f2]
                    dsimp only []
                    exact nextNodeTail_det E currentNode _ stC hdC r1 r2
                | some el =>
                  dsimp only []
                  by_cases hjo : ((findElement stB el.id).getD el).justOnce = true
                  · rw [if_pos hjo]
                    rcases getParsedText_det E
                      (stB.updateElement el.id fun e => { e with visited := true })
                      (some el) true (DetSt_updateElement _ _ _ hdB) r1 r2 with
                      ⟨f1, f2⟩ | ⟨t, stC, f1, f2, hdC⟩
                    · rw [f1, f2]
                      exact relStep_none r1 r2
                    · rw [f1, f2]
                      dsimp only []
                      exact nextNodeTail_det E currentNode _ stC hdC r1 r2
                  · rw [if_neg hjo]
                    rcases getParsedText_det E stB (some el) true hdB r1 r2 with
                      ⟨f1, f2⟩ | ⟨t, stC, f1, f2, hdC⟩
                    · rw [f1, f2]
                      exact relStep_none r1 r2
                    · rw [f1, f2]
                      dsimp only []
                      exact nextNodeTail_det E currentNode _ stC hdC r1 r2
              · rw [if_neg hbc, if_neg hbc]
                by_cases hbj : currentNode.ty = "JumpToNode"
                · rw [if_pos hbj, if_pos hbj]
                  cases hjt : currentNode.jumpTo with
                  | none => exact relStep_none r1 r2
                  | some tgt =>
                    obtain ⟨jf, jn⟩ := tgt
                    dsimp only []
                    by_cases hex : nodeExists stB jn (some jf) = false
                    · rw [if_pos hex, if_pos hex]
                      exact relStep_done _ _ r1 r2 hdB
                    · rw [if_neg hex, if_neg hex]
                      dsimp only []
                      apply nextNodeTail_det
                      exact ⟨hdB.1, hdB.2⟩
                · rw [if_neg hbj, if_neg hbj]
                  cases nodeElement? with
                  | none =>
                    dsimp only []
                    exact nextNodeTail_det E currentNode _ stB hdB r1 r2
                  | some el =>
                    dsimp only []
                    exact nextNodeTail_det E currentNode _ _
                      (DetSt_updateElement _ _ _ hdB) r1 r2

theorem nextNode_det (E : Evaluator) :
    ∀ (fuel : Nat) (eid? : Option String) (st : RState), DetSt st →
      ∀ (r1 r2 : Rng),
      RelOut (nextNode E fuel eid? st r1) (nextNode E fuel eid? st r2) r1 r2 := by
  intro fuel
  induction fuel with
  | zero =>
    intro eid? st h r1 r2
    exact relOut_none r1 r2
  | succ n ih =>
    intro eid? st h r1 r2
    unfold nextNode
    rcases nextNodeStep_det E eid? st h r1 r2 with ⟨e1, e2⟩ |
      ⟨o, st1, e1, e2, hd1⟩ | ⟨st1, e1, e2, hd1⟩
    · rw [e1, e2]
      exact relOut_none r1 r2
    · rw [e1, e2]
      exact relOut_some _ _ r1 r2 hd1
    · rw [e1, e2]
      exact ih none st1 hd1 r1 r2

theorem runStep_det (E : Evaluator) (fuel : Nat) (eid? : Option String)
    (st : RState) (h : DetSt st) (r1 r2 : Rng) :
    RelOut (runStep E fuel eid? st r1) (runStep E fuel eid? st r2) r1 r2 := by
  unfold runStep
  rcases nextNode_det E fuel eid? st h r1 r2 with ⟨e1, e2⟩ |
    ⟨o, st1, e1, e2, hd1⟩
  · rw [e1, e2]
    exact relOut_none r1 r2
  · rw [e1, e2]
    dsimp only []
    cases o with
    | nodeRes n =>
      dsimp only []
      rcases getParsedText_det E st1 none false hd1 r1 r2 with ⟨f1, f2⟩ |
        ⟨t, st2, f1, f2, hd2⟩
      · rw [f1, f2]
        exact relOut_none r1 r2
      · rw [f1, f2]
        exact relOut_some _ _ r1 r2 hd2
    | nullRes => exact relOut_some _ _ r1 r2 hd1
    | falseRes => exact relOut_some _ _ r1 r2 hd1

theorem runSeq_det (E : Evaluator) (fuel : Nat) :
    ∀ (eids : List (Option String)) (st : RState), DetSt st → ∀ (r1 r2 : Rng),
      RelOut (runSeq E fuel eids st r1) (runSeq E fuel eids st r2) r1 r2 := by
  intro eids
  induction eids with
  | nil =>
    intro st h r1 r2
    exact relOut_some [] st r1 r2 h
  | cons eid? rest ih =>
    intro st h r1 r2
    unfold runSeq
    rcases runStep_det E fuel eid? st h r1 r2 with ⟨e1, e2⟩ |
      ⟨outp, st1, e1, e2, hd1⟩
    · rw [e1, e2]
      exact relOut_none r1 r2
    · rw [e1, e2]
      dsimp only []
      rcases ih st1 hd1 r1 r2 with ⟨f1, f2⟩ | ⟨outs, st2, f1, f2, hd2⟩
      · rw [f1, f2]
        exact relOut_none r1 r2
      · rw [f1, f2]
        exact relOut_some _ _ r1 r2 hd2

theorem foldlM_pres {α β : Type} (P : β → Prop) (Q : α → Prop)
    (f : β → α → Option β) :
    ∀ (l : List α) (b0 : β), (∀ a ∈ l, Q a) → P b0 →
      (∀ b a b2, P b → Q a → f b a = some b2 → P b2) →
      ∀ bF, l.foldlM f b0 = some bF → P bF := by
  intro l
  induction l with
  | nil =>
    intro b0 _ hP _ bF h
    injection h with h
    rw [← h]
    exact hP
  | cons a rest ih =>
    intro b0 hQ hP hstep bF h
    rw [List.foldlM_cons] at h
    cases hfa : f b0 a with
    | none =>
      rw [hfa] at h
      exact Option.noConfusion h
    | some b1 =>
      rw [hfa] at h
      exact ih b1 (fun x hx => hQ x (List.mem_cons_of_mem a hx))
        (hstep b0 a b1 hP (hQ a (List.mem_cons_self a rest)) hfa) hstep bF h

theorem glcf_mem (st : RState) (nid? : Option String)
    (cs : List LocalizedContent) (lcode : String) (c : LocalizedContent)
    (h : getLocalizedContentFor st nid? cs lcode = some (some c)) :
    ∃ lc0 ∈ cs, c = { lc0 with notTranslated := false } := by
  rw [getLocalizedContentFor_eq] at h
  split at h
  · exact Option.noConfusion h
  · injection h with h
    have hs : ∀ (l2 : List LocalizedContent) (acc : Option LocalizedContent),
        (∀ x, acc = some x → ∃ lc0 ∈ cs, x = { lc0 with notTranslated := false }) →
        (∀ a ∈ l2, a ∈ cs) →
        ∀ z, List.foldl (fun acc lc =>
          if lc.localeCode = lcode then some { lc with notTranslated := false }
          else acc) acc l2 = some z →
        ∃ lc0 ∈ cs, z = { lc0 with notTranslated := false } := by
      intro l2
      induction l2 with
      | nil =>
        intro acc hacc _ z hz
        exact hacc z hz
      | cons a rest ih =>
        intro acc hacc hmem z hz
        rw [List.foldl_cons] at hz
        refine ih _ ?_ (fun x hx => hmem x (List.mem_cons_of_mem a hx)) z hz
        intro x hx
        split at hx
        · injection hx with hx
          exact ⟨a, hmem a (List.mem_cons_self a rest), hx.symm⟩
        · exact hacc x hx
    exact hs cs none (fun x hx => Option.noConfusion hx) (fun a ha => ha) c h

theorem initVariations_det (st : RState)
    (hc : st.project.flows.all (fun fl => fl.nodes.all (fun n =>
      n.elements.all (fun e => e.localizedContents.all (fun lc =>
        lc.text.all detPart)))) = true)
    (vars : List Variation) (h : initVariations st = some vars) :
    detVars vars = true := by
  unfold initVariations at h
  refine foldlM_pres (fun acc => detVars acc = true)
    (fun fl => fl.nodes.all (fun n => n.elements.all (fun e =>
      e.localizedContents.all (fun lc => lc.text.all detPart))) = true)
    _ st.project.flows [] (fun fl hfl => List.all_eq_true.mp hc fl hfl) rfl
    ?_ vars h
  intro b fl b2 hP hQ hstep
  refine foldlM_pres (fun acc => detVars acc = true)
    (fun n => n.elements.all (fun e => e.localizedContents.all (fun lc =>
      lc.text.all detPart)) = true)
    _ fl.nodes b (fun n hn => List.all_eq_true.mp hQ n hn) hP ?_ b2 hstep
  intro b n b2 hP hQ hstep
  refine foldlM_pres (fun acc => detVars acc = true)
    (fun e => e.localizedContents.all (fun lc => lc.text.all detPart) = true)
    _ n.elements b (fun e he => List.all_eq_true.mp hQ e he) hP ?_ b2 hstep
  intro b e b2 hP hQ hstep
  clear h hc
  dsimp only [] at hstep
  split at hstep
  · -- has contents: the localized-content lookup
    split at hstep
    · exact Option.noConfusion hstep
    · rename_i contentObj hco
      injection hstep with hstep
      rw [← hstep]
      clear hstep
      unfold detVars
      rw [List.all_append]
      rw [Bool.and_eq_true_iff]
      refine ⟨hP, ?_⟩
      rw [List.all_eq_true]
      intro v hv
      obtain ⟨raw, hraw, hvEq⟩ := List.mem_map.mp hv
      obtain ⟨pt, hpt, hptEq⟩ := List.mem_filterMap.mp hraw
      have hptV : pt = Part.variationB raw := by
        cases pt <;>
          first
            | exact Option.noConfusion hptEq
            | (injection hptEq with hr
               rw [hr])
      -- the parts come from a content of this element
      have hparts : ∀ q ∈ (match contentObj with
          | some c => c.text
          | none => ([] : List Part)), detPart q = true := by
        cases contentObj with
        | none => intro q hq; exact absurd hq (List.not_mem_nil q)
        | some c =>
          obtain ⟨lc0, hlc0, hc0⟩ := glcf_mem st (some e.nodeId)
            e.localizedContents st.locale c hco
          intro q hq
          have := List.all_eq_true.mp hQ lc0 hlc0
          refine List.all_eq_true.mp this q ?_
          rw [hc0] at hq
          exact hq
      have hdp := hparts pt hpt
      rw [hptV] at hdp
      unfold detPart at hdp
      rw [← hvEq]
      exact hdp
  · injection hstep with hstep
    rw [← hstep]
    exact hP

theorem detFlows_of_detProject (p : Project) (hdp : detProject p = true) :
    detFlows p.flows = true := by
  unfold detFlows
  rw [List.all_eq_true]
  intro fl hfl
  rw [List.all_eq_true]
  intro n hn
  have hx := List.all_eq_true.mp (List.all_eq_true.mp hdp fl hfl) n hn
  rw [decide_eq_true_eq] at hx
  exact hx.1

theorem detContent_of_detProject (p : Project) (hdp : detProject p = true) :
    (resetVisited p).flows.all (fun fl => fl.nodes.all (fun n =>
      n.elements.all (fun e => e.localizedContents.all (fun lc =>
        lc.text.all detPart)))) = true := by
  unfold resetVisited
  dsimp only []
  rw [List.all_map, List.all_eq_true]
  intro fl hfl
  show (fl.nodes.map _).all _ = true
  rw [List.all_map, List.all_eq_true]
  intro n hn
  show (n.elements.map _).all _ = true
  rw [List.all_map, List.all_eq_true]
  intro e he
  have hx := List.all_eq_true.mp (List.all_eq_true.mp hdp fl hfl) n hn
  rw [decide_eq_true_eq] at hx
  exact List.all_eq_true.mp hx.2 e he

theorem detFlows_resetVisited (p : Project) (hdf : detFlows p.flows = true) :
    detFlows (resetVisited p).flows = true := by
  unfold resetVisited
  dsimp only []
  rw [detFlows_nodeMap p.flows (fun n => { n with elements := n.elements.map (fun e => { e with visited := false }) }) (fun n => ⟨rfl, rfl⟩)]
  exact hdf

theorem load_DetSt (E : Evaluator) (st0 : RState) (p : Project)
    (fn? : Option String) (st : RState)
    (hdp : detProject p = true) (hv0 : st0.variations = [])
    (h : load E st0 p fn? = some st) : DetSt st := by
  unfold load at h
  dsimp only [] at h
  split at h
  · exact Option.noConfusion h
  · rename_i flow hflow
    split at h
    · exact Option.noConfusion h
    all_goals
      rw [if_pos hv0] at h
      split at h
      · exact Option.noConfusion h
      · rename_i vars hiv
        have hdv : detVars vars = true :=
          initVariations_det _ (detContent_of_detProject p hdp) vars hiv
        split at h
        · exact Option.noConfusion h
        · rename_i st2 hstart
          injection h with h
          rw [← h]
          have hd2 : DetSt st2 :=
            DetSt_start _ st2 _ _
              ⟨detFlows_resetVisited p (detFlows_of_detProject p hdp), hdv⟩ hstart
          exact ⟨hd2.1, hd2.2⟩

/-- C4 (amended): a project with no `RND`/`SRND` variation blocks, no
`Random`-type nodes and no `Random`/`Smart Random` cycle types runs
identically under any two randomness streams: same emitted nodes, same
rendered text at every step. -/
theorem c4_determinism_no_random (E : Evaluator) (fuel : Nat) (g0 : Store)
    (p : Project) (eids : List (Option String)) (r1 r2 : Rng)
    (hdp : detProject p = true) :
    runOutputs E fuel g0 p eids r1 = runOutputs E fuel g0 p eids r2 := by
  unfold runOutputs
  cases hld : load E (initialState g0) p none with
  | none => rfl
  | some st =>
    have hdSt : DetSt st := load_DetSt E (initialState g0) p none st hdp rfl hld
    dsimp only []
    rcases runSeq_det E fuel eids st hdSt r1 r2 with ⟨e1, e2⟩ |
      ⟨outs, stF, e1, e2, hd⟩
    · rw [e1, e2]
    · rw [e1, e2]

/-- C4 (counterexample to the frozen claim): `projR` has no RND or SRND
variation block and no `Random`-type node, yet two runs with different
randomness render different text — the Text node's `Random` cycle type
draws from `Math.random` when the host fetches the step's text. -/
theorem c4_determinism_counterexample :
    (runOutputs evalU 5 [] projR [none] [0]).map
        (fun outs => outs.map (fun o => o.2)) = some ["A"] ∧
    (runOutputs evalU 5 [] projR [none] [1]).map
        (fun outs => outs.map (fun o => o.2)) = some ["B"] ∧
    runOutputs evalU 5 [] projR [none] [0] ≠ runOutputs evalU 5 [] projR [none] [1] := by
  refine ⟨by decide, by decide, by decide⟩

theorem c4_determinism_no_random_witness :
    runOutputs evalU 6 [] loopProj [none, none] [0] =
      runOutputs evalU 6 [] loopProj [none, none] [1] ∧
    (runOutputs evalU 6 [] loopProj [none, none] [0]).map
        (fun outs => outs.map (fun o => o.2)) = some ["A", ""] :=
  ⟨c4_determinism_no_random evalU 6 [] loopProj [none, none] [0] [1] (by decide),
    by decide⟩

end Homer
